import Mathlib

/-!
A shallow embedding of `fft.cpp` (in-place 512-point radix-2 FFT).

The C++ source is translated function by function.  Single-precision arithmetic is
replaced by an arbitrary carrier `α` with `+`, `-`, `*` and unary `-`, so that the
code can be run over `ℚ` (the coded table literals read as exact decimals) and
reasoned about over `ℝ`.  The 16-bit counters are natural numbers reduced modulo
`65536` after every update.  Loops consume one unit of fuel per evaluation of their
loop condition and return `none` when the fuel runs out.

Besides the plain run `fft512` there is an instrumented run `fft512_log`, with the same
loops, which also returns what was executed (exchanged pairs, stages, butterflies,
counter values).  The statements about the exact sines `sin(2 * pi * k / 512)` rest on a
certificate of rational enclosures (`sincos_cert`) that is checked inside the logic.
-/

namespace FFT512

/-! ## Data model -/

/-- The sample buffer `float array[][2]`: first the sample index, then the channel. -/
abbrev Buf (α : Type) := Nat → Nat → α

/-- The assignment `array[i][c] = v`. -/
def Buf.set {α : Type} (array : Buf α) (i c : Nat) (v : α) : Buf α :=
  fun p d => if p = i ∧ d = c then v else array p d

/-! ## `reverse_bits` -/

/-- The loop of `reverse_bits`: `cnt` iterations remain, each one executing
`result = (result << 1) | (x & 1U)` (truncated to 16 bits) followed by `x >>= 1`. -/
def reverse_bits_loop : Nat → Nat → Nat → Nat
  | 0, _, result => result
  | cnt + 1, x, result =>
      reverse_bits_loop cnt (x >>> 1) (((result <<< 1) ||| (x &&& 1)) % 65536)

/-- The function `static uint16_t reverse_bits(uint16_t x, int n)`.  The counter `i` runs
from `0` while `i < n`, that is `n.toNat` times. -/
def reverse_bits (x : Nat) (n : Int) : Nat :=
  reverse_bits_loop n.toNat (x % 65536) 0

/-! ## The sine table -/

/-- The 384 literals of `sin_table`, each multiplied by `10^8` (every literal is printed
with exactly eight decimals). -/
def sin_table_e8 : List Int := [
  0, 1227154, 2454123, 3680722, 4906767, 6132074, 7356456, 8579731,
  9801714, 11022221, 12241068, 13458071, 14673047, 15885814, 17096189, 18303989,
  19509032, 20711138, 21910124, 23105811, 24298018, 25486566, 26671276, 27851969,
  29028468, 30200595, 31368174, 32531029, 33688985, 34841868, 35989504, 37131719,
  38268343, 39399204, 40524131, 41642956, 42755509, 43861624, 44961133, 46053871,
  47139674, 48218377, 49289819, 50353838, 51410274, 52458968, 53499762, 54532499,
  55557023, 56573181, 57580819, 58579786, 59569930, 60551104, 61523159, 62485949,
  63439328, 64383154, 65317284, 66241578, 67155895, 68060100, 68954054, 69837625,
  70710678, 71573083, 72424708, 73265427, 74095113, 74913639, 75720885, 76516727,
  77301045, 78073723, 78834643, 79583690, 80320753, 81045720, 81758481, 82458930,
  83146961, 83822471, 84485357, 85135519, 85772861, 86397286, 87008699, 87607009,
  88192126, 88763962, 89322430, 89867447, 90398929, 90916798, 91420976, 91911385,
  92387953, 92850608, 93299280, 93733901, 94154407, 94560733, 94952818, 95330604,
  95694034, 96043052, 96377607, 96697647, 97003125, 97293995, 97570213, 97831737,
  98078528, 98310549, 98527764, 98730142, 98917651, 99090264, 99247953, 99390697,
  99518473, 99631261, 99729046, 99811811, 99879546, 99932238, 99969882, 99992470,
  100000000, 99992470, 99969882, 99932238, 99879546, 99811811, 99729046, 99631261,
  99518473, 99390697, 99247953, 99090264, 98917651, 98730142, 98527764, 98310549,
  98078528, 97831737, 97570213, 97293995, 97003125, 96697647, 96377607, 96043052,
  95694034, 95330604, 94952818, 94560733, 94154407, 93733901, 93299280, 92850608,
  92387953, 91911385, 91420976, 90916798, 90398929, 89867447, 89322430, 88763962,
  88192126, 87607009, 87008699, 86397286, 85772861, 85135519, 84485357, 83822471,
  83146961, 82458930, 81758481, 81045720, 80320753, 79583690, 78834643, 78073723,
  77301045, 76516727, 75720885, 74913639, 74095113, 73265427, 72424708, 71573083,
  70710678, 69837625, 68954054, 68060100, 67155895, 66241578, 65317284, 64383154,
  63439328, 62485949, 61523159, 60551104, 59569930, 58579786, 57580819, 56573181,
  55557023, 54532499, 53499762, 52458968, 51410274, 50353838, 49289819, 48218377,
  47139674, 46053871, 44961133, 43861624, 42755509, 41642956, 40524131, 39399204,
  38268343, 37131719, 35989504, 34841868, 33688985, 32531029, 31368174, 30200595,
  29028468, 27851969, 26671276, 25486566, 24298018, 23105811, 21910124, 20711138,
  19509032, 18303989, 17096189, 15885814, 14673047, 13458071, 12241068, 11022221,
  9801714, 8579731, 7356456, 6132074, 4906767, 3680722, 2454123, 1227154,
  0, -1227154, -2454123, -3680722, -4906767, -6132074, -7356456, -8579731,
  -9801714, -11022221, -12241068, -13458071, -14673047, -15885814, -17096189, -18303989,
  -19509032, -20711138, -21910124, -23105811, -24298018, -25486566, -26671276, -27851969,
  -29028468, -30200595, -31368174, -32531029, -33688985, -34841868, -35989504, -37131719,
  -38268343, -39399204, -40524131, -41642956, -42755509, -43861624, -44961133, -46053871,
  -47139674, -48218377, -49289819, -50353838, -51410274, -52458968, -53499762, -54532499,
  -55557023, -56573181, -57580819, -58579786, -59569930, -60551104, -61523159, -62485949,
  -63439328, -64383154, -65317284, -66241578, -67155895, -68060100, -68954054, -69837625,
  -70710678, -71573083, -72424708, -73265427, -74095113, -74913639, -75720885, -76516727,
  -77301045, -78073723, -78834643, -79583690, -80320753, -81045720, -81758481, -82458930,
  -83146961, -83822471, -84485357, -85135519, -85772861, -86397286, -87008699, -87607009,
  -88192126, -88763962, -89322430, -89867447, -90398929, -90916798, -91420976, -91911385,
  -92387953, -92850608, -93299280, -93733901, -94154407, -94560733, -94952818, -95330604,
  -95694034, -96043052, -96377607, -96697647, -97003125, -97293995, -97570213, -97831737,
  -98078528, -98310549, -98527764, -98730142, -98917651, -99090264, -99247953, -99390697,
  -99518473, -99631261, -99729046, -99811811, -99879546, -99932238, -99969882, -99992470]

/-- The table `sin_table`, its literals read as exact decimal fractions. -/
def sin_table (k : Nat) : ℚ := (sin_table_e8.getD k 0 : ℚ) / 100000000

/-- The view `cos_table = &sin_table[n/4]` of the coded table: `cos_table[k]` is
`sin_table[k + 128]`. -/
def cos_table (k : Nat) : ℚ := sin_table (k + 512 / 4)

/-! ## `fft512` -/

/-- The channel index `real = dir & 1` of `fft512` (`dir` is a `uint8_t`). -/
def fft512_real (dir : Nat) : Nat := (dir % 256) &&& 1

/-- The channel index `imag = ~real & 1` of `fft512`.  `real` is promoted to a 32-bit
`int`, whose complement has the bit pattern `2^32 - 1 - real`; the result is stored in a
`uint8_t`. -/
def fft512_imag (dir : Nat) : Nat := ((4294967295 - fft512_real dir) &&& 1) % 256

/-- The body of the permutation loop of `fft512` for the index `i`: when
`j = reverse_bits(i, levels) > i`, both channels of the samples `i` and `j` are exchanged
through `temp`. -/
def fft512_permute_body {α : Type} (real imag : Nat) (i : Nat) (array : Buf α) : Buf α :=
  let j := reverse_bits i 9
  if j > i then
    let temp := array i real
    let a1 := array.set i real (array j real)
    let a2 := a1.set j real temp
    let temp2 := a2 i imag
    let a3 := a2.set i imag (a2 j imag)
    a3.set j imag temp2
  else array

/-- The first loop of `fft512`: `for (uint16_t i = 0; i < n; i++)`. -/
def fft512_permute {α : Type} (fuel : Nat) (real imag : Nat) (i : Nat) (array : Buf α) :
    Option (Buf α) :=
  match fuel with
  | 0 => none
  | fuel + 1 =>
    if i < 512 then
      fft512_permute fuel real imag ((i + 1) % 65536) (fft512_permute_body real imag i array)
    else some array

/-- The pairs `(i, j)` on which the permutation loop takes its swap branch, in the order of
execution (the same loop as `fft512_permute`, recording instead of swapping). -/
def fft512_permute_pairs (fuel : Nat) (i : Nat) : Option (List (Nat × Nat)) :=
  match fuel with
  | 0 => none
  | fuel + 1 =>
    if i < 512 then
      let j := reverse_bits i 9
      match fft512_permute_pairs fuel ((i + 1) % 65536) with
      | none => none
      | some ps => if j > i then some ((i, j) :: ps) else some ps
    else some []

/-- One butterfly: the body of the innermost loop of `fft512` for the indices `j`, `k`
and `l`.  `cos_table` is `&sin_table[n/4]`. -/
def butterfly {α : Type} [Add α] [Sub α] [Mul α] [Neg α] (sin_table : Nat → α)
    (real imag : Nat) (j k l : Nat) (array : Buf α) : Buf α :=
  let cos_table := fun t => sin_table (t + 512 / 4)
  let tpre := array l real * cos_table k + array l imag * sin_table k
  let tpim := (-(array l real)) * sin_table k + array l imag * cos_table k
  let a1 := array.set l real (array j real - tpre)
  let a2 := a1.set l imag (a1 j imag - tpim)
  let a3 := a2.set j real (a2 j real + tpre)
  a3.set j imag (a3 j imag + tpim)

/-- The innermost loop `for (uint16_t j = i, k = 0; j < i + halfsize; j++, k += tablestep)`.
The bound `i + halfsize` is computed on `int`; `l`, `j` and `k` are 16-bit. -/
def fft512_inner {α : Type} [Add α] [Sub α] [Mul α] [Neg α] (fuel : Nat)
    (sin_table : Nat → α) (real imag : Nat) (i halfsize tablestep : Nat) (j k : Nat)
    (array : Buf α) : Option (Buf α) :=
  match fuel with
  | 0 => none
  | fuel + 1 =>
    if j < i + halfsize then
      let l := (j + halfsize) % 65536
      fft512_inner fuel sin_table real imag i halfsize tablestep ((j + 1) % 65536)
        ((k + tablestep) % 65536) (butterfly sin_table real imag j k l array)
    else some array

/-- The block loop `for (uint16_t i = 0; i < n; i += size)`; `gas` is the fuel handed to
the innermost loop. -/
def fft512_blocks {α : Type} [Add α] [Sub α] [Mul α] [Neg α] (gas fuel : Nat)
    (sin_table : Nat → α) (real imag : Nat) (size halfsize tablestep : Nat) (i : Nat)
    (array : Buf α) : Option (Buf α) :=
  match fuel with
  | 0 => none
  | fuel + 1 =>
    if i < 512 then
      match fft512_inner gas sin_table real imag i halfsize tablestep i 0 array with
      | none => none
      | some a =>
        fft512_blocks gas fuel sin_table real imag size halfsize tablestep
          ((i + size) % 65536) a
    else some array

/-- The stage loop `for (uint16_t size = 2; size <= n; size *= 2)` with its
`if (size == n) break;`. -/
def fft512_stages {α : Type} [Add α] [Sub α] [Mul α] [Neg α] (gas fuel : Nat)
    (sin_table : Nat → α) (real imag : Nat) (size : Nat) (array : Buf α) :
    Option (Buf α) :=
  match fuel with
  | 0 => none
  | fuel + 1 =>
    if size ≤ 512 then
      let halfsize := size / 2
      let tablestep := 512 / size
      match fft512_blocks gas gas sin_table real imag size halfsize tablestep 0 array with
      | none => none
      | some a =>
        if size = 512 then some a
        else fft512_stages gas fuel sin_table real imag ((size * 2) % 65536) a
    else some array

/-- The function `void fft512(float array[][2], const uint8_t dir)`.  Every loop is given
`gas` units of fuel; the table is a parameter so that the code can be run on the coded
literals and reasoned about on exact sines. -/
def fft512 {α : Type} [Add α] [Sub α] [Mul α] [Neg α] (gas : Nat) (sin_table : Nat → α)
    (array : Buf α) (dir : Nat) : Option (Buf α) :=
  let real := fft512_real dir
  let imag := fft512_imag dir
  match fft512_permute gas real imag 0 array with
  | none => none
  | some a => fft512_stages gas gas sin_table real imag 2 a

/-! ## Instrumented run

The same loops once more, returning next to the buffer a record of what was executed:
the pairs exchanged by the permutation loop, for every stage its parameters and its
butterflies `(j, l, k)` in the order of execution, and every value computed for one of
the 16-bit counters `size`, `i`, `j`, `k` and `l` (before its reduction modulo `65536`).
-/

/-- The record of one stage: `size`, `halfsize`, `tablestep` and the butterflies
`(j, l, k)` in the order of execution. -/
structure StageLog where
  size : Nat
  halfsize : Nat
  tablestep : Nat
  bflies : List (Nat × Nat × Nat)

/-- The permutation loop, also returning the exchanged pairs `(i, j)`. -/
def fft512_permute_log {α : Type} (fuel : Nat) (real imag : Nat) (i : Nat) (array : Buf α) :
    Option (Buf α × List (Nat × Nat)) :=
  match fuel with
  | 0 => none
  | fuel + 1 =>
    if i < 512 then
      let j := reverse_bits i 9
      match fft512_permute_log fuel real imag ((i + 1) % 65536)
          (fft512_permute_body real imag i array) with
      | none => none
      | some (a, ps) => if j > i then some (a, (i, j) :: ps) else some (a, ps)
    else some (array, [])

/-- The innermost loop, also returning its butterflies and the values computed for `l`,
`j` and `k`. -/
def fft512_inner_log {α : Type} [Add α] [Sub α] [Mul α] [Neg α] (fuel : Nat)
    (sin_table : Nat → α) (real imag : Nat) (i halfsize tablestep : Nat) (j k : Nat)
    (array : Buf α) : Option (Buf α × List (Nat × Nat × Nat) × List Nat) :=
  match fuel with
  | 0 => none
  | fuel + 1 =>
    if j < i + halfsize then
      let l := (j + halfsize) % 65536
      match fft512_inner_log fuel sin_table real imag i halfsize tablestep ((j + 1) % 65536)
          ((k + tablestep) % 65536) (butterfly sin_table real imag j k l array) with
      | none => none
      | some (a, bs, cs) =>
        some (a, (j, l, k) :: bs, (j + halfsize) :: (j + 1) :: (k + tablestep) :: cs)
    else some (array, [], [])

/-- The block loop, also returning the butterflies of its blocks and the values computed
for `j`, `k` (their initial values `i` and `0`), `l` and `i`. -/
def fft512_blocks_log {α : Type} [Add α] [Sub α] [Mul α] [Neg α] (gas fuel : Nat)
    (sin_table : Nat → α) (real imag : Nat) (size halfsize tablestep : Nat) (i : Nat)
    (array : Buf α) : Option (Buf α × List (Nat × Nat × Nat) × List Nat) :=
  match fuel with
  | 0 => none
  | fuel + 1 =>
    if i < 512 then
      match fft512_inner_log gas sin_table real imag i halfsize tablestep i 0 array with
      | none => none
      | some (a, bs, cs) =>
        match fft512_blocks_log gas fuel sin_table real imag size halfsize tablestep
            ((i + size) % 65536) a with
        | none => none
        | some (a2, bs2, cs2) => some (a2, bs ++ bs2, i :: 0 :: (cs ++ (i + size) :: cs2))
    else some (array, [], [])

/-- The stage loop, also returning the records of its stages and the values computed for
the counters (the initial `i = 0` of every stage and the doubled `size`). -/
def fft512_stages_log {α : Type} [Add α] [Sub α] [Mul α] [Neg α] (gas fuel : Nat)
    (sin_table : Nat → α) (real imag : Nat) (size : Nat) (array : Buf α) :
    Option (Buf α × List StageLog × List Nat) :=
  match fuel with
  | 0 => none
  | fuel + 1 =>
    if size ≤ 512 then
      let halfsize := size / 2
      let tablestep := 512 / size
      match fft512_blocks_log gas gas sin_table real imag size halfsize tablestep 0 array with
      | none => none
      | some (a, bs, cs) =>
        if size = 512 then some (a, [⟨size, halfsize, tablestep, bs⟩], 0 :: cs)
        else
          match fft512_stages_log gas fuel sin_table real imag ((size * 2) % 65536) a with
          | none => none
          | some (a2, sts, cs2) =>
            some (a2, ⟨size, halfsize, tablestep, bs⟩ :: sts, 0 :: (cs ++ (size * 2) :: cs2))
    else some (array, [], [])

/-- The instrumented `fft512`: the buffer, the exchanged pairs, the stage records and the
counter values (starting with the initial `size = 2`). -/
def fft512_log {α : Type} [Add α] [Sub α] [Mul α] [Neg α] (gas : Nat) (sin_table : Nat → α)
    (array : Buf α) (dir : Nat) :
    Option (Buf α × List (Nat × Nat) × List StageLog × List Nat) :=
  let real := fft512_real dir
  let imag := fft512_imag dir
  match fft512_permute_log gas real imag 0 array with
  | none => none
  | some (a, ps) =>
    match fft512_stages_log gas gas sin_table real imag 2 a with
    | none => none
    | some (a2, sts, cs) => some (a2, ps, sts, 2 :: cs)

/-- The butterflies of a list applied one after the other. -/
def apply_bflies {α : Type} [Add α] [Sub α] [Mul α] [Neg α] (sin_table : Nat → α)
    (real imag : Nat) (bs : List (Nat × Nat × Nat)) (array : Buf α) : Buf α :=
  bs.foldl (fun a t => butterfly sin_table real imag t.1 t.2.2 t.2.1 a) array

/-- The `q`-th butterfly `(j, l, k)` of the stage with half size `h` and table step `ts`,
in the order of execution. -/
def bfly_of (h ts q : Nat) : Nat × Nat × Nat :=
  (q / h * (2 * h) + q % h, q / h * (2 * h) + q % h + h, q % h * ts)

/-- The record of the whole stage with half size `h` and table step `ts`. -/
def stage_log_of (h ts : Nat) : StageLog :=
  ⟨2 * h, h, ts, (List.range 256).map (bfly_of h ts)⟩

/-- The records of the nine stages of `fft512`. -/
def nine_stage_logs : List StageLog :=
  [stage_log_of 1 256, stage_log_of 2 128, stage_log_of 4 64, stage_log_of 8 32,
   stage_log_of 16 16, stage_log_of 32 8, stage_log_of 64 4, stage_log_of 128 2,
   stage_log_of 256 1]

/-! ## Closed forms used to describe the loops -/

/-- The buffer reached by the permutation loop once every index below `i0` has been
processed: a sample has been exchanged with its bit-reversed partner exactly when the
smaller index of the pair is below `i0`. -/
def permuted_upto {α : Type} (real imag : Nat) (B : Buf α) (i0 : Nat) : Buf α :=
  fun p c =>
    if (c = real ∨ c = imag) ∧ p < 512 ∧ (p < i0 ∨ reverse_bits p 9 < i0) then
      B (reverse_bits p 9) c
    else B p c

/-- The other channel: `0` and `1` are exchanged. -/
def swapCh (c : Nat) : Nat := if c = 0 then 1 else if c = 1 then 0 else c

/-- The buffer with channel 0 and channel 1 of every sample exchanged. -/
def swap_channels {α : Type} (a : Buf α) : Buf α := fun p c => a p (swapCh c)

/-- The real part `tpre` of the rotated sample `l` for the table index `k`. -/
def tw_re {α : Type} [Add α] [Sub α] [Mul α] [Neg α] (tbl : Nat → α) (real imag : Nat)
    (a : Buf α) (l k : Nat) : α :=
  a l real * tbl (k + 128) + a l imag * tbl k

/-- The imaginary part `tpim` of the rotated sample `l` for the table index `k`. -/
def tw_im {α : Type} [Add α] [Sub α] [Mul α] [Neg α] (tbl : Nat → α) (real imag : Nat)
    (a : Buf α) (l k : Nat) : α :=
  (-(a l real)) * tbl k + a l imag * tbl (k + 128)

/-- The value that the butterflies of the block starting at `i` leave at index `p` of that
block, in terms of the buffer `a` before the block. -/
def block_val {α : Type} [Add α] [Sub α] [Mul α] [Neg α] (tbl : Nat → α) (real imag : Nat)
    (h ts : Nat) (a : Buf α) (i p c : Nat) : α :=
  if p < i + h then
    (if c = real then a p real + tw_re tbl real imag a (p + h) ((p - i) * ts)
     else a p imag + tw_im tbl real imag a (p + h) ((p - i) * ts))
  else
    (if c = real then a (p - h) real - tw_re tbl real imag a p ((p - h - i) * ts)
     else a (p - h) imag - tw_im tbl real imag a p ((p - h - i) * ts))

/-- The buffer reached by the innermost loop of the block starting at `i` after `d`
butterflies. -/
def inner_upto {α : Type} [Add α] [Sub α] [Mul α] [Neg α] (tbl : Nat → α) (real imag : Nat)
    (h ts : Nat) (a : Buf α) (i d : Nat) : Buf α :=
  fun p c =>
    if (c = real ∨ c = imag) ∧ ((i ≤ p ∧ p < i + d) ∨ (i + h ≤ p ∧ p < i + h + d)) then
      block_val tbl real imag h ts a i p c
    else a p c

/-- The value that a whole stage with half size `h` and table step `ts` leaves at index
`p`, in terms of the buffer `a` before the stage. -/
def stage_val {α : Type} [Add α] [Sub α] [Mul α] [Neg α] (tbl : Nat → α) (real imag : Nat)
    (h ts : Nat) (a : Buf α) (p c : Nat) : α :=
  if p % (2 * h) < h then
    (if c = real then a p real + tw_re tbl real imag a (p + h) ((p % (2 * h)) * ts)
     else a p imag + tw_im tbl real imag a (p + h) ((p % (2 * h)) * ts))
  else
    (if c = real then a (p - h) real - tw_re tbl real imag a p ((p % (2 * h) - h) * ts)
     else a (p - h) imag - tw_im tbl real imag a p ((p % (2 * h) - h) * ts))

/-- The buffer reached by the block loop of a stage after `b` blocks. -/
def blocks_upto {α : Type} [Add α] [Sub α] [Mul α] [Neg α] (tbl : Nat → α) (real imag : Nat)
    (h ts : Nat) (a : Buf α) (b : Nat) : Buf α :=
  fun p c =>
    if (c = real ∨ c = imag) ∧ p < b * (2 * h) then stage_val tbl real imag h ts a p c
    else a p c

/-- The buffer after a whole stage with half size `h` and table step `ts`. -/
def stage_buf {α : Type} [Add α] [Sub α] [Mul α] [Neg α] (tbl : Nat → α) (real imag : Nat)
    (h ts : Nat) (a : Buf α) : Buf α :=
  fun p c =>
    if (c = real ∨ c = imag) ∧ p < 512 then stage_val tbl real imag h ts a p c
    else a p c

/-- The nine stages of `fft512`, one after the other. -/
def nine_stages {α : Type} [Add α] [Sub α] [Mul α] [Neg α] (tbl : Nat → α) (real imag : Nat)
    (a : Buf α) : Buf α :=
  stage_buf tbl real imag 256 1 (stage_buf tbl real imag 128 2 (stage_buf tbl real imag 64 4
    (stage_buf tbl real imag 32 8 (stage_buf tbl real imag 16 16
      (stage_buf tbl real imag 8 32 (stage_buf tbl real imag 4 64
        (stage_buf tbl real imag 2 128 (stage_buf tbl real imag 1 256 a))))))))

/-- The closed form of `fft512`: bit-reversal permutation followed by the nine stages. -/
def fft512_closed {α : Type} [Add α] [Sub α] [Mul α] [Neg α] (tbl : Nat → α)
    (B : Buf α) (dir : Nat) : Buf α :=
  nine_stages tbl (fft512_real dir) (fft512_imag dir)
    (permuted_upto (fft512_real dir) (fft512_imag dir) B 512)

/-- The complex sample at index `p` of a real buffer read in the forward convention:
channel 0 is the real part and channel 1 the imaginary part. -/
def zc (a : Buf ℝ) (p : Nat) : ℂ := ⟨a p 0, a p 1⟩

/-! ## A certificate for the exact sines -/

/-- A certificate for the first quadrant: row `k` holds natural numbers
`(slo, shi, clo, chi)` such that `slo <= 10^20 * sin(k * pi / 256) <= shi` and
`clo <= 10^20 * cos(k * pi / 256) <= chi`, for `k = 0, ..., 128`.  The rows are not taken on
trust: row 1 is proved from the half-angle formulas and every later row is checked against
its predecessor through the addition formulas (`cert_step_ok`). -/
def sincos_cert : List (Nat × Nat × Nat × Nat) := [
  (0, 0, 100000000000000000000, 100000000000000000000),
  (1227153828571992607, 1227153828571992608, 99992470183914454092, 99992470183914454093),
  (2454122852291228801, 2454122852291228804, 99969881869620422011, 99969881869620422014),
  (3680722294135883229, 3680722294135883234, 99932238458834950088, 99932238458834950093),
  (4906767432741801421, 4906767432741801428, 99879545620517239269, 99879545620517239276),
  (6132073630220857772, 6132073630220857781, 99811811290014920709, 99811811290014920718),
  (7356456359966742345, 7356456359966742356, 99729045667869021609, 99729045667869021621),
  (8579731234443989037, 8579731234443989050, 99631261218277801257, 99631261218277801272),
  (9801714032956060189, 9801714032956060204, 99518472667219688618, 99518472667219688635),
  (11022220729388305869, 11022220729388305886, 99390697000235604147, 99390697000235604167),
  (12241067519921619837, 12241067519921619856, 99247953459870999807, 99247953459870999830),
  (13458070850712618617, 13458070850712618639, 99090263542778002501, 99090263542778002527),
  (14673047445536175150, 14673047445536175174, 98917650996478097335, 98917650996478097363),
  (15885814333386144151, 15885814333386144177, 98730141815785838229, 98730141815785838259),
  (17096188876030122617, 17096188876030122646, 98527764238894124466, 98527764238894124498),
  (18303988795514095831, 18303988795514095862, 98310548743121632706, 98310548743121632740),
  (19509032201612826763, 19509032201612826796, 98078528040323044900, 98078528040323044936),
  (20711137619221854947, 20711137619221854983, 97831737071962763297, 97831737071962763336),
  (21910124015686979697, 21910124015686979736, 97570213003852854432, 97570213003852854473),
  (23105810828067111937, 23105810828067111979, 97293995220556014532, 97293995220556014576),
  (24298017990326388966, 24298017990326389011, 97003125319454399245, 97003125319454399291),
  (25486565960451457125, 25486565960451457173, 96697647104485210892, 96697647104485210941),
  (26671275747489838600, 26671275747489838651, 96377606579543986651, 96377606579543986703),
  (27851968938505310487, 27851968938505310540, 96043051941556581101, 96043051941556581156),
  (29028467725446236728, 29028467725446236784, 95694033573220886474, 95694033573220886532),
  (30200594931922806663, 30200594931922806722, 95330604035419383671, 95330604035419383732),
  (31368174039889147627, 31368174039889147689, 94952818059303666698, 94952818059303666762),
  (32531029216226293373, 32531029216226293438, 94560732538052132551, 94560732538052132618),
  (33688985339222005027, 33688985339222005095, 94154406518302077818, 94154406518302077888),
  (34841868024943456798, 34841868024943456869, 93733901191257492296, 93733901191257492369),
  (35989503653498814832, 35989503653498814906, 93299279883473888746, 93299279883473888822),
  (37131719395183754294, 37131719395183754371, 92850608047321556568, 92850608047321556647),
  (38268343236508977124, 38268343236508977204, 92387953251128675586, 92387953251128675668),
  (39399204006104810809, 39399204006104810892, 91911385169005774363, 91911385169005774448),
  (40524131400498987038, 40524131400498987125, 91420975570353065435, 91420975570353065523),
  (41642956009763718202, 41642956009763718292, 90916798309052237627, 90916798309052237718),
  (42755509343028209376, 42755509343028209469, 90398929312344333128, 90398929312344333223),
  (43861623853852763707, 43861623853852763803, 89867446569395384272, 89867446569395384371),
  (44961132965460659945, 44961132965460660045, 89322430119551532001, 89322430119551532103),
  (46053871095824002302, 46053871095824002405, 88763962040285394742, 88763962040285394847),
  (47139673682599764792, 47139673682599764899, 88192126434835502936, 88192126434835503045),
  (48218377207912274786, 48218377207912274897, 87607009419540660673, 87607009419540660786),
  (49289819222978403620, 49289819222978403734, 87008699110871141827, 87008699110871141944),
  (50353838372571755800, 50353838372571755918, 86397285612158673752, 86397285612158673873),
  (51410274419322172588, 51410274419322172710, 85772861000027206949, 85772861000027207074),
  (52458968267846890548, 52458968267846890674, 85135519310526514184, 85135519310526514312),
  (53499761988709720991, 53499761988709721121, 84485356524970707283, 84485356524970707414),
  (54532498842204642154, 54532498842204642288, 83822470555483804274, 83822470555483804409),
  (55557023301960222395, 55557023301960222533, 83146961230254523662, 83146961230254523801),
  (56573181078361319658, 56573181078361319800, 82458930278502526400, 82458930278502526543),
  (57580819141784529992, 57580819141784530138, 81758481315158369602, 81758481315158369749),
  (58579785745643885948, 58579785745643886098, 81045719825259479123, 81045719825259479274),
  (59569930449243334260, 59569930449243334414, 80320753148064490930, 80320753148064491085),
  (60551104140432551303, 60551104140432551462, 79583690460888353574, 79583690460888353733),
  (61523159058062684457, 61523159058062684621, 78834642762660626147, 78834642762660626310),
  (62485948814238637615, 62485948814238637783, 78073722857209447775, 78073722857209447942),
  (63439328416364549726, 63439328416364549899, 77301045336273696024, 77301045336273696196),
  (64383154288979146409, 64383154288979146587, 76516726562245892530, 76516726562245892707),
  (65317284295377676309, 65317284295377676491, 75720884650648454697, 75720884650648454879),
  (66241577759017176010, 66241577759017176196, 74913639452345932485, 74913639452345932671),
  (67155895484701839959, 67155895484701840150, 74095112535495909054, 74095112535495909245),
  (68060099779545304954, 68060099779545305150, 73265427167241283396, 73265427167241283592),
  (68954054473706692354, 68954054473706692555, 72424708295146692027, 72424708295146692228),
  (69837624940897285246, 69837624940897285452, 71573082528381865344, 71573082528381865550),
  (70710678118654752328, 70710678118654752539, 70710678118654752370, 70710678118654752581),
  (71573082528381865298, 71573082528381865514, 69837624940897285284, 69837624940897285500),
  (72424708295146691977, 72424708295146692198, 68954054473706692388, 68954054473706692609),
  (73265427167241283342, 73265427167241283568, 68060099779545304984, 68060099779545305210),
  (74095112535495908996, 74095112535495909227, 67155895484701839985, 67155895484701840216),
  (74913639452345932423, 74913639452345932659, 66241577759017176032, 66241577759017176268),
  (75720884650648454631, 75720884650648454873, 65317284295377676327, 65317284295377676568),
  (76516726562245892460, 76516726562245892707, 64383154288979146423, 64383154288979146670),
  (77301045336273695950, 77301045336273696202, 63439328416364549736, 63439328416364549988),
  (78073722857209447697, 78073722857209447954, 62485948814238637621, 62485948814238637878),
  (78834642762660626065, 78834642762660626328, 61523159058062684459, 61523159058062684721),
  (79583690460888353488, 79583690460888353757, 60551104140432551300, 60551104140432551568),
  (80320753148064490840, 80320753148064491115, 59569930449243334252, 59569930449243334526),
  (81045719825259479030, 81045719825259479310, 58579785745643885936, 58579785745643886216),
  (81758481315158369505, 81758481315158369791, 57580819141784529975, 57580819141784530261),
  (82458930278502526300, 82458930278502526591, 56573181078361319637, 56573181078361319929),
  (83146961230254523558, 83146961230254523855, 55557023301960222370, 55557023301960222668),
  (83822470555483804166, 83822470555483804469, 54532498842204642125, 54532498842204642429),
  (84485356524970707171, 84485356524970707480, 53499761988709720957, 53499761988709721268),
  (85135519310526514069, 85135519310526514384, 52458968267846890510, 52458968267846890827),
  (85772861000027206831, 85772861000027207152, 51410274419322172545, 51410274419322172869),
  (86397285612158673630, 86397285612158673957, 50353838372571755752, 50353838372571756082),
  (87008699110871141701, 87008699110871142034, 49289819222978403567, 49289819222978403904),
  (87607009419540660543, 87607009419540660882, 48218377207912274729, 48218377207912275072),
  (88192126434835502802, 88192126434835503148, 47139673682599764730, 47139673682599765080),
  (88763962040285394604, 88763962040285394957, 46053871095824002235, 46053871095824002591),
  (89322430119551531860, 89322430119551532219, 44961132965460659873, 44961132965460660236),
  (89867446569395384127, 89867446569395384493, 43861623853852763630, 43861623853852764000),
  (90398929312344332979, 90398929312344333352, 42755509343028209294, 42755509343028209671),
  (90916798309052237474, 90916798309052237854, 41642956009763718115, 41642956009763718499),
  (91420975570353065278, 91420975570353065665, 40524131400498986947, 40524131400498987338),
  (91911385169005774203, 91911385169005774597, 39399204006104810713, 39399204006104811111),
  (92387953251128675422, 92387953251128675823, 38268343236508977023, 38268343236508977428),
  (92850608047321556400, 92850608047321556808, 37131719395183754188, 37131719395183754600),
  (93299279883473888575, 93299279883473888990, 35989503653498814721, 35989503653498815140),
  (93733901191257492121, 93733901191257492544, 34841868024943456682, 34841868024943457108),
  (94154406518302077639, 94154406518302078070, 33688985339222004906, 33688985339222005339),
  (94560732538052132368, 94560732538052132806, 32531029216226293247, 32531029216226293688),
  (94952818059303666512, 94952818059303666957, 31368174039889147496, 31368174039889147944),
  (95330604035419383481, 95330604035419383934, 30200594931922806527, 30200594931922806983),
  (95694033573220886280, 95694033573220886741, 29028467725446236587, 29028467725446237050),
  (96043051941556580903, 96043051941556581372, 27851968938505310341, 27851968938505310811),
  (96377606579543986449, 96377606579543986926, 26671275747489838449, 26671275747489838927),
  (96697647104485210686, 96697647104485211171, 25486565960451456968, 25486565960451457454),
  (97003125319454399034, 97003125319454399528, 24298017990326388804, 24298017990326389298),
  (97293995220556014317, 97293995220556014819, 23105810828067111770, 23105810828067112272),
  (97570213003852854213, 97570213003852854723, 21910124015686979525, 21910124015686980035),
  (97831737071962763074, 97831737071962763593, 20711137619221854769, 20711137619221855287),
  (98078528040323044673, 98078528040323045200, 19509032201612826579, 19509032201612827105),
  (98310548743121632475, 98310548743121633011, 18303988795514095642, 18303988795514096176),
  (98527764238894124231, 98527764238894124776, 17096188876030122423, 17096188876030122965),
  (98730141815785837990, 98730141815785838544, 15885814333386143951, 15885814333386144502),
  (98917650996478097092, 98917650996478097655, 14673047445536174944, 14673047445536175504),
  (99090263542778002254, 99090263542778002826, 13458070850712618405, 13458070850712618974),
  (99247953459870999555, 99247953459871000136, 12241067519921619619, 12241067519921620197),
  (99390697000235603890, 99390697000235604481, 11022220729388305645, 11022220729388306233),
  (99518472667219688356, 99518472667219688956, 9801714032956059959, 9801714032956060556),
  (99631261218277800991, 99631261218277801600, 8579731234443988801, 8579731234443989408),
  (99729045667869021338, 99729045667869021957, 7356456359966742103, 7356456359966742720),
  (99811811290014920433, 99811811290014921062, 6132073630220857524, 6132073630220858150),
  (99879545620517238988, 99879545620517239627, 4906767432741801166, 4906767432741801802),
  (99932238458834949802, 99932238458834950451, 3680722294135882968, 3680722294135883614),
  (99969881869620421720, 99969881869620422379, 2454122852291228534, 2454122852291229190),
  (99992470183914453797, 99992470183914454466, 1227153828571992334, 1227153828571993000),
  (99999999999999999701, 100000000000000000380, 0, 397)
]
/-- Row `k` of the certificate (zero outside the table). -/
def cert_row (k : Nat) : Nat × Nat × Nat × Nat := sincos_cert.getD k (0, 0, 0, 0)

/-- The check that makes row `k + 1` of the certificate a consequence of row `k` and
row 1 through `sin(x + t) = sin x cos t + cos x sin t` and
`cos(x + t) = cos x cos t - sin x sin t`, in natural-number arithmetic at scale `10^20`. -/
def cert_step_ok (k : Nat) : Bool :=
  let b := cert_row 1
  let r := cert_row k
  let n := cert_row (k + 1)
  decide (n.1 * 10 ^ 20 ≤ r.1 * b.2.2.1 + r.2.2.1 * b.1) &&
  decide (r.2.1 * b.2.2.2 + r.2.2.2 * b.2.1 ≤ n.2.1 * 10 ^ 20) &&
  (decide (n.2.2.1 = 0) || decide (n.2.2.1 * 10 ^ 20 + r.2.1 * b.2.1 ≤ r.2.2.1 * b.2.2.1)) &&
  decide (r.2.2.2 * b.2.2.2 ≤ n.2.2.2 * 10 ^ 20 + r.1 * b.1)

/-- The check that the literal `k` of the table lies within `5 * 10^-9` of the enclosure of
`sin(k * pi / 256)` in row `k` of the certificate (scale `10^20`). -/
def table_abs_ok (k : Nat) : Bool :=
  decide (sin_table_e8.getD k 0 * 1000000000000 - 500000000000 ≤ ((cert_row k).1 : Int)) &&
  decide (((cert_row k).2.1 : Int) ≤ sin_table_e8.getD k 0 * 1000000000000 + 500000000000)

/-- The check that the literal `k` of the table is within the relative distance `2^-24` of
every point of the enclosure of `sin(k * pi / 256)`. -/
def table_rel_ok (k : Nat) : Bool :=
  decide (sin_table_e8.getD k 0 * 1000000000000 * 16777216 ≤
    ((cert_row k).1 : Int) * 16777217) &&
  decide (((cert_row k).2.1 : Int) * 16777215 ≤
    sin_table_e8.getD k 0 * 1000000000000 * 16777216)

/-- The check that the literal `k` of the table is farther than the relative distance
`2^-24` from every point of the enclosure of `sin(k * pi / 256)`. -/
def table_rel_fails (k : Nat) : Bool :=
  decide (((cert_row k).2.1 : Int) <
    (sin_table_e8.getD k 0 * 1000000000000 - ((cert_row k).2.1 : Int)) * 16777216) ||
  decide (((cert_row k).2.1 : Int) <
    (((cert_row k).1 : Int) - sin_table_e8.getD k 0 * 1000000000000) * 16777216)

/-! ## Bit reversal -/

theorem reverse_bits_step_lt (c x r : Nat) (hc : c + 1 ≤ 16) (hr : r < 2 ^ (16 - (c + 1))) :
    (r <<< 1) ||| (x &&& 1) < 2 ^ (16 - c) := by
  have h1 : 16 - c = (16 - (c + 1)) + 1 := by omega
  apply Nat.or_lt_two_pow
  · rw [Nat.shiftLeft_eq, h1, pow_succ]; omega
  · have h2 : x &&& 1 ≤ 1 := Nat.and_le_right
    have h3 : 2 ^ 1 ≤ 2 ^ (16 - c) := Nat.pow_le_pow_right (by norm_num) (by omega)
    omega

theorem reverse_bits_step_mod (c x r : Nat) (hc : c + 1 ≤ 16) (hr : r < 2 ^ (16 - (c + 1))) :
    ((r <<< 1) ||| (x &&& 1)) % 65536 = (r <<< 1) ||| (x &&& 1) := by
  apply Nat.mod_eq_of_lt
  have h1 := reverse_bits_step_lt c x r hc hr
  have h2 : 2 ^ (16 - c) ≤ 2 ^ 16 := Nat.pow_le_pow_right (by norm_num) (by omega)
  omega

theorem reverse_bits_step_testBit (x r t : Nat) :
    ((r <<< 1) ||| (x &&& 1)).testBit t = if t = 0 then x.testBit 0 else r.testBit (t - 1) := by
  rw [Nat.testBit_or, Nat.testBit_shiftLeft, Nat.testBit_and]
  rcases t with _ | t
  · simp
  · simp [Nat.testBit_one_eq_true_iff_self_eq_zero]

/-- Loop invariant of `reverse_bits`: as long as the accumulator has room, the remaining
`c` iterations push the low `c` bits of `x` in reverse order below the accumulator. -/
theorem reverse_bits_loop_testBit (c : Nat) :
    ∀ (x r : Nat), c ≤ 16 → r < 2 ^ (16 - c) → ∀ t,
      (reverse_bits_loop c x r).testBit t =
        if t < c then x.testBit (c - 1 - t) else r.testBit (t - c) := by
  induction c with
  | zero => intro x r _ _ t; simp [reverse_bits_loop]
  | succ c ih =>
    intro x r hc hr t
    rw [reverse_bits_loop, reverse_bits_step_mod c x r hc hr,
      ih _ _ (by omega) (reverse_bits_step_lt c x r hc hr) t]
    by_cases h1 : t < c
    · have h2 : t < c + 1 := by omega
      have h3 : c + 1 - 1 - t = (c - 1 - t) + 1 := by omega
      rw [if_pos h1, if_pos h2, h3, Nat.testBit_succ, Nat.shiftRight_eq_div_pow]
    · rw [if_neg h1, reverse_bits_step_testBit]
      by_cases h4 : t = c
      · subst h4
        simp
      · have h5 : ¬ t < c + 1 := by omega
        have h6 : t - c ≠ 0 := by omega
        have h7 : t - c - 1 = t - (c + 1) := by omega
        rw [if_neg h6, if_neg h5, h7]

theorem reverse_bits_nine_testBit (i : Nat) (hi : i < 512) (t : Nat) :
    (reverse_bits i 9).testBit t = if t < 9 then i.testBit (8 - t) else false := by
  have hmod : i % 65536 = i := Nat.mod_eq_of_lt (by omega)
  have key := reverse_bits_loop_testBit 9 i 0 (by norm_num) (by norm_num) t
  have h9 : (9 : Int).toNat = 9 := rfl
  rw [reverse_bits, h9, hmod, key]
  simp

theorem reverse_bits_nine_lt (i : Nat) (hi : i < 512) : reverse_bits i 9 < 512 := by
  have h : reverse_bits i 9 < 2 ^ 9 := by
    apply Nat.lt_pow_two_of_testBit
    intro t ht
    rw [reverse_bits_nine_testBit i hi t]
    have : ¬ t < 9 := by omega
    simp [this]
  simpa using h

theorem reverse_bits_nine_involutive (i : Nat) (hi : i < 512) :
    reverse_bits (reverse_bits i 9) 9 = i := by
  apply Nat.eq_of_testBit_eq
  intro t
  rw [reverse_bits_nine_testBit _ (reverse_bits_nine_lt i hi) t]
  by_cases ht : t < 9
  · have h1 : 8 - t < 9 := by omega
    have h2 : 8 - (8 - t) = t := by omega
    rw [if_pos ht, reverse_bits_nine_testBit i hi, if_pos h1, h2]
  · rw [if_neg ht]
    symm
    apply Nat.testBit_lt_two_pow
    have : 2 ^ 9 ≤ 2 ^ t := Nat.pow_le_pow_right (by norm_num) (by omega)
    omega

/-! ## The permutation loop -/

/-- Pointwise description of one iteration of the permutation loop. -/
theorem fft512_permute_body_apply {α : Type} (real imag i : Nat) (a : Buf α)
    (hne : real ≠ imag) (p c : Nat) :
    fft512_permute_body real imag i a p c =
      if reverse_bits i 9 > i ∧ (c = real ∨ c = imag) then
        (if p = i then a (reverse_bits i 9) c
         else if p = reverse_bits i 9 then a i c else a p c)
      else a p c := by
  unfold fft512_permute_body
  generalize reverse_bits i 9 = j
  by_cases hj : j > i
  · have hji : j ≠ i := by omega
    have hij : i ≠ j := by omega
    have hne2 : imag ≠ real := fun h => hne h.symm
    simp only [hj, if_true, true_and, Buf.set]
    by_cases hpi : p = i
    · by_cases hcr : c = real
      · subst hpi; subst hcr
        simp [hij, hne]
      · by_cases hci : c = imag
        · subst hpi; subst hci
          simp [hij, hne2, hji]
        · simp [hpi, hcr, hci]
    · by_cases hpj : p = j
      · by_cases hcr : c = real
        · subst hpj; subst hcr
          simp [hne, hji]
        · by_cases hci : c = imag
          · subst hpj; subst hci
            simp [hji, hij, hne2]
          · simp [hpj, hcr, hci]
      · simp [hpi, hpj]
  · simp [hj]

theorem fft512_permute_body_upto {α : Type} (real imag : Nat) (B : Buf α)
    (hne : real ≠ imag) (i0 : Nat) (hi : i0 < 512) :
    fft512_permute_body real imag i0 (permuted_upto real imag B i0) =
      permuted_upto real imag B (i0 + 1) := by
  funext p c
  rw [fft512_permute_body_apply real imag i0 _ hne p c]
  have hj := reverse_bits_nine_lt i0 hi
  have hjj := reverse_bits_nine_involutive i0 hi
  by_cases hc : c = real ∨ c = imag
  swap
  · simp [permuted_upto, hc]
  by_cases hp : p < 512
  swap
  · have h1 : p ≠ i0 := by omega
    have h2 : p ≠ reverse_bits i0 9 := by omega
    simp [permuted_upto, hp, h1, h2]
  have hpp := reverse_bits_nine_involutive p hp
  have hinj : reverse_bits p 9 = i0 → p = reverse_bits i0 9 := by
    intro h; rw [← h, hpp]
  have hinj2 : p = reverse_bits i0 9 → reverse_bits p 9 = i0 := by
    intro h; rw [h, hjj]
  by_cases hgt : reverse_bits i0 9 > i0
  · simp only [hgt, hc, and_self, if_true]
    by_cases hpi : p = i0
    · subst hpi
      have h3 : ¬ (reverse_bits p 9 < p ∨ reverse_bits (reverse_bits p 9) 9 < p) := by
        rw [hjj]; omega
      simp [permuted_upto, hc, hp, hj, h3]
    · by_cases hpj : p = reverse_bits i0 9
      · subst hpj
        have h4 : reverse_bits i0 9 ≠ i0 := by omega
        have h5 : ¬ reverse_bits i0 9 < i0 := by omega
        simp [permuted_upto, hc, hi, hj, hjj, h4, h5]
      · have h7 : reverse_bits p 9 ≠ i0 := fun h => hpj (hinj h)
        have h8 : (p < i0 + 1 ∨ reverse_bits p 9 < i0 + 1) ↔
            (p < i0 ∨ reverse_bits p 9 < i0) := by omega
        simp [permuted_upto, hc, hp, hpi, hpj, h8]
  · have h9 : ¬ (reverse_bits i0 9 > i0 ∧ (c = real ∨ c = imag)) := fun h => hgt h.1
    rw [if_neg h9]
    by_cases h10 : p = i0 ∨ reverse_bits p 9 = i0
    · have h11 : p < i0 + 1 ∨ reverse_bits p 9 < i0 + 1 := by omega
      by_cases h12 : p < i0 ∨ reverse_bits p 9 < i0
      · simp [permuted_upto, hc, hp, h11, h12]
      · have h13 : reverse_bits p 9 = p := by
          rcases h10 with h | h
          · subst h; omega
          · have := hinj h
            omega
        simp [permuted_upto, hc, hp, h13]
    · have h14 : (p < i0 + 1 ∨ reverse_bits p 9 < i0 + 1) ↔
          (p < i0 ∨ reverse_bits p 9 < i0) := by omega
      simp [permuted_upto, hc, hp, h14]

/-- With enough fuel the permutation loop, started at index `i0` on the buffer in which
the indices below `i0` have been processed, returns the fully processed buffer. -/
theorem fft512_permute_from {α : Type} (real imag : Nat) (B : Buf α) (hne : real ≠ imag)
    (fuel : Nat) : ∀ i0 : Nat, i0 ≤ 512 → 513 ≤ fuel + i0 →
      fft512_permute fuel real imag i0 (permuted_upto real imag B i0) =
        some (permuted_upto real imag B 512) := by
  induction fuel with
  | zero => intro i0 h1 h2; omega
  | succ fuel ih =>
    intro i0 h1 h2
    rw [fft512_permute]
    by_cases hi : i0 < 512
    · have hmod : (i0 + 1) % 65536 = i0 + 1 := Nat.mod_eq_of_lt (by omega)
      rw [if_pos hi, hmod, fft512_permute_body_upto real imag B hne i0 hi]
      exact ih (i0 + 1) (by omega) (by omega)
    · have : i0 = 512 := by omega
      rw [if_neg hi, this]

theorem permuted_upto_zero {α : Type} (real imag : Nat) (B : Buf α) :
    permuted_upto real imag B 0 = B := by
  funext p c
  simp [permuted_upto]

/-- The permutation loop of `fft512` terminates and returns the bit-reversed buffer. -/
theorem fft512_permute_eq {α : Type} (real imag : Nat) (B : Buf α) (hne : real ≠ imag)
    (fuel : Nat) (hfuel : 513 ≤ fuel) :
    fft512_permute fuel real imag 0 B = some (permuted_upto real imag B 512) := by
  have h := fft512_permute_from real imag B hne fuel 0 (by omega) (by omega)
  rwa [permuted_upto_zero] at h

theorem permuted_upto_full {α : Type} (real imag : Nat) (B : Buf α) (p c : Nat)
    (hp : p < 512) (hc : c = real ∨ c = imag) :
    permuted_upto real imag B 512 p c = B (reverse_bits p 9) c := by
  simp [permuted_upto, hc, hp]

theorem fft512_channels (dir : Nat) :
    (fft512_real dir = 0 ∧ fft512_imag dir = 1) ∨ (fft512_real dir = 1 ∧ fft512_imag dir = 0) := by
  unfold fft512_imag fft512_real
  rw [Nat.and_one_is_mod]
  rcases Nat.mod_two_eq_zero_or_one (dir % 256) with h | h
  · left; rw [h]; decide
  · right; rw [h]; decide

theorem fft512_channels_ne (dir : Nat) : fft512_real dir ≠ fft512_imag dir := by
  rcases fft512_channels dir with h | h <;> omega

theorem fft512_channels_cover (dir c : Nat) (hc : c < 2) :
    c = fft512_real dir ∨ c = fft512_imag dir := by
  rcases fft512_channels dir with h | h <;> omega

theorem permuted_upto_twice {α : Type} (real imag : Nat) (B : Buf α) :
    permuted_upto real imag (permuted_upto real imag B 512) 512 = B := by
  funext p c
  by_cases hc : c = real ∨ c = imag
  · by_cases hp : p < 512
    · have h1 := reverse_bits_nine_lt p hp
      have h2 := reverse_bits_nine_involutive p hp
      simp [permuted_upto, hc, hp, h1, h2]
    · simp [permuted_upto, hp]
  · simp [permuted_upto, hc]

/-- With enough fuel the recording loop returns the pairs `(i, reverse_bits i 9)` with
`reverse_bits i 9 > i`, for `i` running upwards from `i0` to `511`. -/
theorem fft512_permute_pairs_from (fuel : Nat) : ∀ i0 : Nat, i0 ≤ 512 → 513 ≤ fuel + i0 →
    fft512_permute_pairs fuel i0 =
      some (((List.range' i0 (512 - i0)).filter (fun i => decide (reverse_bits i 9 > i))).map
        (fun i => (i, reverse_bits i 9))) := by
  induction fuel with
  | zero => intro i0 h1 h2; omega
  | succ fuel ih =>
    intro i0 h1 h2
    rw [fft512_permute_pairs]
    by_cases hi : i0 < 512
    · have hmod : (i0 + 1) % 65536 = i0 + 1 := Nat.mod_eq_of_lt (by omega)
      have hlen : 512 - i0 = (512 - (i0 + 1)) + 1 := by omega
      rw [if_pos hi, hmod, ih (i0 + 1) (by omega) (by omega), hlen, List.range'_succ]
      by_cases hj : reverse_bits i0 9 > i0
      · simp [hj, List.filter_cons]
      · simp [hj, List.filter_cons]
    · have : i0 = 512 := by omega
      rw [if_neg hi, this]
      rfl

/-! ## The direction flag -/

theorem swapCh_swapCh (c : Nat) : swapCh (swapCh c) = c := by
  unfold swapCh
  by_cases h0 : c = 0
  · subst h0; simp
  · by_cases h1 : c = 1
    · subst h1; simp
    · simp [h0, h1]

theorem swap_channels_read {α : Type} (a : Buf α) (p c : Nat) :
    swap_channels a p (swapCh c) = a p c := by
  simp [swap_channels, swapCh_swapCh]

theorem swap_channels_twice {α : Type} (a : Buf α) : swap_channels (swap_channels a) = a := by
  funext p c
  simp [swap_channels, swapCh_swapCh]

theorem swap_channels_set {α : Type} (a : Buf α) (i c : Nat) (v : α) :
    (swap_channels a).set i (swapCh c) v = swap_channels (a.set i c v) := by
  funext p d
  have h : d = swapCh c ↔ swapCh d = c := by
    constructor
    · intro h; rw [h, swapCh_swapCh]
    · intro h; rw [← h, swapCh_swapCh]
  simp only [Buf.set, swap_channels, h]

theorem fft512_permute_body_swap {α : Type} (real imag i : Nat) (a : Buf α) :
    fft512_permute_body (swapCh real) (swapCh imag) i (swap_channels a) =
      swap_channels (fft512_permute_body real imag i a) := by
  unfold fft512_permute_body
  by_cases hj : reverse_bits i 9 > i
  · simp only [hj, if_true, swap_channels_read, swap_channels_set]
  · simp only [hj, if_false]

theorem fft512_permute_swap {α : Type} (real imag : Nat) (fuel : Nat) :
    ∀ (i : Nat) (a : Buf α),
      fft512_permute fuel (swapCh real) (swapCh imag) i (swap_channels a) =
        (fft512_permute fuel real imag i a).map swap_channels := by
  induction fuel with
  | zero => intro i a; rfl
  | succ fuel ih =>
    intro i a
    rw [fft512_permute, fft512_permute]
    by_cases hi : i < 512
    · rw [if_pos hi, if_pos hi, fft512_permute_body_swap, ih]
    · rw [if_neg hi, if_neg hi]; rfl

theorem butterfly_swap {α : Type} [Add α] [Sub α] [Mul α] [Neg α] (tbl : Nat → α)
    (real imag j k l : Nat) (a : Buf α) :
    butterfly tbl (swapCh real) (swapCh imag) j k l (swap_channels a) =
      swap_channels (butterfly tbl real imag j k l a) := by
  unfold butterfly
  simp only [swap_channels_read, swap_channels_set]

theorem fft512_inner_swap {α : Type} [Add α] [Sub α] [Mul α] [Neg α] (tbl : Nat → α)
    (real imag i halfsize tablestep : Nat) (fuel : Nat) :
    ∀ (j k : Nat) (a : Buf α),
      fft512_inner fuel tbl (swapCh real) (swapCh imag) i halfsize tablestep j k
          (swap_channels a) =
        (fft512_inner fuel tbl real imag i halfsize tablestep j k a).map swap_channels := by
  induction fuel with
  | zero => intro j k a; rfl
  | succ fuel ih =>
    intro j k a
    rw [fft512_inner, fft512_inner]
    by_cases hj : j < i + halfsize
    · simp only [if_pos hj, butterfly_swap, ih]
    · rw [if_neg hj, if_neg hj]; rfl

theorem fft512_blocks_swap {α : Type} [Add α] [Sub α] [Mul α] [Neg α] (tbl : Nat → α)
    (real imag size halfsize tablestep gas : Nat) (fuel : Nat) :
    ∀ (i : Nat) (a : Buf α),
      fft512_blocks gas fuel tbl (swapCh real) (swapCh imag) size halfsize tablestep i
          (swap_channels a) =
        (fft512_blocks gas fuel tbl real imag size halfsize tablestep i a).map
          swap_channels := by
  induction fuel with
  | zero => intro i a; rfl
  | succ fuel ih =>
    intro i a
    rw [fft512_blocks, fft512_blocks]
    by_cases hi : i < 512
    · rw [if_pos hi, if_pos hi, fft512_inner_swap]
      cases fft512_inner gas tbl real imag i halfsize tablestep i 0 a with
      | none => rfl
      | some b => simp only [Option.map_some', ih]
    · rw [if_neg hi, if_neg hi]; rfl

theorem fft512_stages_swap {α : Type} [Add α] [Sub α] [Mul α] [Neg α] (tbl : Nat → α)
    (real imag gas : Nat) (fuel : Nat) :
    ∀ (size : Nat) (a : Buf α),
      fft512_stages gas fuel tbl (swapCh real) (swapCh imag) size (swap_channels a) =
        (fft512_stages gas fuel tbl real imag size a).map swap_channels := by
  induction fuel with
  | zero => intro size a; rfl
  | succ fuel ih =>
    intro size a
    rw [fft512_stages, fft512_stages]
    by_cases hs : size ≤ 512
    · simp only [if_pos hs, fft512_blocks_swap]
      cases fft512_blocks gas gas tbl real imag size (size / 2) (512 / size) 0 a with
      | none => rfl
      | some b =>
        by_cases he : size = 512
        · simp only [Option.map_some', he, if_true]
        · simp only [Option.map_some', he, if_false, ih]
    · rw [if_neg hs, if_neg hs]; rfl

/-! ## The butterfly loops -/

/-- Pointwise description of one butterfly on two distinct samples. -/
theorem butterfly_apply {α : Type} [Add α] [Sub α] [Mul α] [Neg α] (tbl : Nat → α)
    (real imag j k l : Nat) (a : Buf α) (hne : real ≠ imag) (hjl : j ≠ l) (p c : Nat) :
    butterfly tbl real imag j k l a p c =
      if p = l ∧ c = real then a j real - tw_re tbl real imag a l k
      else if p = l ∧ c = imag then a j imag - tw_im tbl real imag a l k
      else if p = j ∧ c = real then a j real + tw_re tbl real imag a l k
      else if p = j ∧ c = imag then a j imag + tw_im tbl real imag a l k
      else a p c := by
  have hne2 : imag ≠ real := fun h => hne h.symm
  have hlj : l ≠ j := fun h => hjl h.symm
  simp only [butterfly, Buf.set, tw_re, tw_im, Nat.reduceDiv]
  by_cases hpl : p = l
  · by_cases hcr : c = real
    · subst hpl; subst hcr
      simp [hne, hlj]
    · by_cases hci : c = imag
      · subst hpl; subst hci
        simp [hne2, hlj, hjl]
      · simp [hpl, hcr, hci]
  · by_cases hpj : p = j
    · by_cases hcr : c = real
      · subst hpj; subst hcr
        simp [hne, hjl]
      · by_cases hci : c = imag
        · subst hpj; subst hci
          simp [hne2, hjl, hlj]
        · simp [hpj, hcr, hci]
    · simp [hpl, hpj]

theorem inner_upto_untouched {α : Type} [Add α] [Sub α] [Mul α] [Neg α] (tbl : Nat → α)
    (real imag h ts : Nat) (a : Buf α) (i d p c : Nat)
    (hp : ¬ ((i ≤ p ∧ p < i + d) ∨ (i + h ≤ p ∧ p < i + h + d))) :
    inner_upto tbl real imag h ts a i d p c = a p c := by
  simp [inner_upto, hp]

theorem inner_upto_touched {α : Type} [Add α] [Sub α] [Mul α] [Neg α] (tbl : Nat → α)
    (real imag h ts : Nat) (a : Buf α) (i d p c : Nat) (hc : c = real ∨ c = imag)
    (hp : (i ≤ p ∧ p < i + d) ∨ (i + h ≤ p ∧ p < i + h + d)) :
    inner_upto tbl real imag h ts a i d p c = block_val tbl real imag h ts a i p c := by
  unfold inner_upto
  rw [if_pos ⟨hc, hp⟩]

theorem inner_upto_other_channel {α : Type} [Add α] [Sub α] [Mul α] [Neg α] (tbl : Nat → α)
    (real imag h ts : Nat) (a : Buf α) (i d p c : Nat) (hc : ¬ (c = real ∨ c = imag)) :
    inner_upto tbl real imag h ts a i d p c = a p c := by
  unfold inner_upto
  rw [if_neg (fun hh => hc hh.1)]

theorem butterfly_inner_upto {α : Type} [Add α] [Sub α] [Mul α] [Neg α] (tbl : Nat → α)
    (real imag h ts : Nat) (a : Buf α) (i d : Nat) (hne : real ≠ imag) (hd : d < h) :
    butterfly tbl real imag (i + d) (d * ts) (i + d + h)
        (inner_upto tbl real imag h ts a i d) =
      inner_upto tbl real imag h ts a i (d + 1) := by
  funext p c
  rw [butterfly_apply tbl real imag _ _ _ _ hne (by omega) p c]
  have hj : ∀ c', inner_upto tbl real imag h ts a i d (i + d) c' = a (i + d) c' :=
    fun c' => inner_upto_untouched tbl real imag h ts a i d _ c' (by omega)
  have hl : ∀ c', inner_upto tbl real imag h ts a i d (i + d + h) c' = a (i + d + h) c' :=
    fun c' => inner_upto_untouched tbl real imag h ts a i d _ c' (by omega)
  have h1 : i + d - i = d := by omega
  have h2 : i + d + h - h = i + d := by omega
  have h3 : i + d + h - h - i = d := by omega
  simp only [tw_re, tw_im, hj, hl]
  by_cases hc : c = real ∨ c = imag
  swap
  · have hcr : ¬ c = real := fun hh => hc (Or.inl hh)
    have hci : ¬ c = imag := fun hh => hc (Or.inr hh)
    rw [inner_upto_other_channel tbl real imag h ts a i (d + 1) p c hc]
    simp only [hcr, hci, and_false, if_false]
    exact inner_upto_other_channel tbl real imag h ts a i d p c hc
  by_cases hpl : p = i + d + h
  · subst hpl
    have hlt : ¬ i + d + h < i + h := by omega
    rw [inner_upto_touched tbl real imag h ts a i (d + 1) _ c hc (by omega)]
    simp only [block_val, if_neg hlt, tw_re, tw_im, true_and]
    rw [h3, h2]
    rcases hc with hc | hc
    · subst hc
      simp only [if_true]
    · subst hc
      simp only [if_true, if_neg hne.symm]
  · by_cases hpj : p = i + d
    · subst hpj
      have hlt : i + d < i + h := by omega
      rw [inner_upto_touched tbl real imag h ts a i (d + 1) _ c hc (by omega)]
      simp only [block_val, if_pos hlt, tw_re, tw_im, h1, true_and, hpl, false_and, if_false]
      rcases hc with hc | hc
      · subst hc
        simp only [if_true]
      · subst hc
        simp only [if_true, if_neg hne.symm]
    · have hr : ((i ≤ p ∧ p < i + (d + 1)) ∨ (i + h ≤ p ∧ p < i + h + (d + 1))) ↔
          ((i ≤ p ∧ p < i + d) ∨ (i + h ≤ p ∧ p < i + h + d)) := by omega
      simp only [hpl, hpj, false_and, if_false, inner_upto, hr]

/-- With enough fuel and no counter overflow, the innermost loop, resumed after `d`
butterflies of the block at `i`, terminates with all `h` butterflies done. -/
theorem fft512_inner_from {α : Type} [Add α] [Sub α] [Mul α] [Neg α] (tbl : Nat → α)
    (real imag h ts : Nat) (a : Buf α) (i : Nat) (hne : real ≠ imag)
    (hi : i + 2 * h ≤ 65535) (hts : h * ts ≤ 65535) (fuel : Nat) :
    ∀ d : Nat, d ≤ h → h + 1 ≤ fuel + d →
      fft512_inner fuel tbl real imag i h ts (i + d) (d * ts)
          (inner_upto tbl real imag h ts a i d) =
        some (inner_upto tbl real imag h ts a i h) := by
  induction fuel with
  | zero => intro d h1 h2; omega
  | succ fuel ih =>
    intro d h1 h2
    rw [fft512_inner]
    by_cases hd : d < h
    · have hc : i + d < i + h := by omega
      have hm1 : (i + d + h) % 65536 = i + d + h := Nat.mod_eq_of_lt (by omega)
      have hm2 : (i + d + 1) % 65536 = i + (d + 1) := Nat.mod_eq_of_lt (by omega)
      have hk : (d + 1) * ts ≤ h * ts := Nat.mul_le_mul_right ts (by omega)
      have hm3 : (d * ts + ts) % 65536 = (d + 1) * ts := by
        rw [Nat.add_mul, Nat.one_mul] at hk ⊢
        exact Nat.mod_eq_of_lt (by omega)
      simp only [if_pos hc, hm1, hm2, hm3]
      rw [butterfly_inner_upto tbl real imag h ts a i d hne hd]
      exact ih (d + 1) (by omega) (by omega)
    · have hc : ¬ i + d < i + h := by omega
      have : d = h := by omega
      rw [if_neg hc, this]

theorem inner_upto_zero {α : Type} [Add α] [Sub α] [Mul α] [Neg α] (tbl : Nat → α)
    (real imag h ts : Nat) (a : Buf α) (i : Nat) :
    inner_upto tbl real imag h ts a i 0 = a := by
  funext p c
  exact inner_upto_untouched tbl real imag h ts a i 0 p c (by omega)

/-- The innermost loop of a block terminates and leaves `inner_upto ... h`. -/
theorem fft512_inner_eq {α : Type} [Add α] [Sub α] [Mul α] [Neg α] (tbl : Nat → α)
    (real imag h ts : Nat) (a : Buf α) (i : Nat) (hne : real ≠ imag)
    (hi : i + 2 * h ≤ 65535) (hts : h * ts ≤ 65535) (fuel : Nat) (hfuel : h + 1 ≤ fuel) :
    fft512_inner fuel tbl real imag i h ts i 0 a =
      some (inner_upto tbl real imag h ts a i h) := by
  have key := fft512_inner_from tbl real imag h ts a i hne hi hts fuel 0 (by omega) (by omega)
  rwa [inner_upto_zero, Nat.zero_mul, Nat.add_zero] at key

theorem block_val_congr {α : Type} [Add α] [Sub α] [Mul α] [Neg α] (tbl : Nat → α)
    (real imag h ts : Nat) (a b : Buf α) (i p c : Nat) (hp : i ≤ p)
    (hab : ∀ q c', i ≤ q → a q c' = b q c') :
    block_val tbl real imag h ts a i p c = block_val tbl real imag h ts b i p c := by
  unfold block_val tw_re tw_im
  by_cases hlt : p < i + h
  · simp only [if_pos hlt, hab p _ hp, hab (p + h) _ (by omega)]
  · simp only [if_neg hlt, hab p _ hp, hab (p - h) _ (by omega)]

theorem stage_val_eq_block_val {α : Type} [Add α] [Sub α] [Mul α] [Neg α] (tbl : Nat → α)
    (real imag h ts : Nat) (a : Buf α) (b p c : Nat)
    (h1 : b * (2 * h) ≤ p) (h2 : p < b * (2 * h) + 2 * h) :
    stage_val tbl real imag h ts a p c = block_val tbl real imag h ts a (b * (2 * h)) p c := by
  have hmod : p % (2 * h) = p - b * (2 * h) := by
    have h3 : p = (p - b * (2 * h)) + b * (2 * h) := by omega
    have h4 : p - b * (2 * h) < 2 * h := by omega
    conv_lhs => rw [h3]
    rw [Nat.add_mul_mod_self_right, Nat.mod_eq_of_lt h4]
  unfold stage_val block_val
  rw [hmod]
  generalize b * (2 * h) = i at h1 h2
  have e1 : p - i - h = p - h - i := by omega
  by_cases hlt : p < i + h
  · have hlt2 : p - i < h := by omega
    rw [if_pos hlt, if_pos hlt2]
  · have hlt2 : ¬ p - i < h := by omega
    rw [if_neg hlt, if_neg hlt2, e1]

theorem inner_upto_blocks_upto {α : Type} [Add α] [Sub α] [Mul α] [Neg α] (tbl : Nat → α)
    (real imag h ts : Nat) (a : Buf α) (b : Nat) :
    inner_upto tbl real imag h ts (blocks_upto tbl real imag h ts a b) (b * (2 * h)) h =
      blocks_upto tbl real imag h ts a (b + 1) := by
  funext p c
  have hsucc : (b + 1) * (2 * h) = b * (2 * h) + 2 * h := by ring
  by_cases hc : c = real ∨ c = imag
  swap
  · rw [inner_upto_other_channel _ _ _ _ _ _ _ _ _ _ hc]
    simp [blocks_upto, hc]
  by_cases hin : b * (2 * h) ≤ p ∧ p < b * (2 * h) + 2 * h
  · rw [inner_upto_touched _ _ _ _ _ _ _ _ _ _ hc (by omega)]
    have hcong : block_val tbl real imag h ts (blocks_upto tbl real imag h ts a b)
        (b * (2 * h)) p c = block_val tbl real imag h ts a (b * (2 * h)) p c := by
      apply block_val_congr _ _ _ _ _ _ _ _ _ _ hin.1
      intro q c' hq
      have : ¬ q < b * (2 * h) := by omega
      simp [blocks_upto, this]
    have hlt : p < (b + 1) * (2 * h) := by omega
    rw [hcong, ← stage_val_eq_block_val tbl real imag h ts a b p c hin.1 hin.2]
    unfold blocks_upto
    rw [if_pos ⟨hc, hlt⟩]
  · rw [inner_upto_untouched _ _ _ _ _ _ _ _ _ _ (by omega)]
    have hiff : p < (b + 1) * (2 * h) ↔ p < b * (2 * h) := by omega
    simp only [blocks_upto, hiff]

/-- With enough fuel the block loop of a stage, resumed after `b` blocks, terminates with
all `nb` blocks done. -/
theorem fft512_blocks_from {α : Type} [Add α] [Sub α] [Mul α] [Neg α] (tbl : Nat → α)
    (real imag h ts nb gas : Nat) (a : Buf α) (hne : real ≠ imag)
    (hnb : nb * (2 * h) = 512) (hts : h * ts ≤ 65535) (hgas : h + 1 ≤ gas) (fuel : Nat) :
    ∀ b : Nat, b ≤ nb → nb + 1 ≤ fuel + b →
      fft512_blocks gas fuel tbl real imag (2 * h) h ts (b * (2 * h))
          (blocks_upto tbl real imag h ts a b) =
        some (blocks_upto tbl real imag h ts a nb) := by
  induction fuel with
  | zero => intro b h1 h2; omega
  | succ fuel ih =>
    intro b h1 h2
    rw [fft512_blocks]
    by_cases hb : b < nb
    · have hle : (b + 1) * (2 * h) ≤ nb * (2 * h) := Nat.mul_le_mul_right _ (by omega)
      have hsucc : (b + 1) * (2 * h) = b * (2 * h) + 2 * h := by ring
      have hlt : b * (2 * h) < 512 := by
        have : 0 < 2 * h := by
          rcases Nat.eq_zero_or_pos (2 * h) with h0 | h0
          · rw [h0] at hnb; omega
          · exact h0
        omega
      have hmod : (b * (2 * h) + 2 * h) % 65536 = (b + 1) * (2 * h) := by
        rw [hsucc]
        exact Nat.mod_eq_of_lt (by omega)
      rw [if_pos hlt, fft512_inner_eq tbl real imag h ts _ _ hne (by omega) hts gas hgas]
      simp only [hmod, inner_upto_blocks_upto]
      exact ih (b + 1) (by omega) (by omega)
    · have hbn : b = nb := by omega
      have hge : ¬ b * (2 * h) < 512 := by rw [hbn, hnb]; omega
      rw [if_neg hge, hbn]

/-- The block loop of a stage terminates and leaves `stage_buf`. -/
theorem fft512_blocks_eq {α : Type} [Add α] [Sub α] [Mul α] [Neg α] (tbl : Nat → α)
    (real imag h ts nb gas : Nat) (a : Buf α) (hne : real ≠ imag)
    (hnb : nb * (2 * h) = 512) (hts : h * ts ≤ 65535) (hgas : h + 1 ≤ gas)
    (hgas2 : nb + 1 ≤ gas) :
    fft512_blocks gas gas tbl real imag (2 * h) h ts 0 a =
      some (stage_buf tbl real imag h ts a) := by
  have key := fft512_blocks_from tbl real imag h ts nb gas a hne hnb hts hgas gas 0
    (by omega) (by omega)
  have h0 : blocks_upto tbl real imag h ts a 0 = a := by
    funext p c
    simp [blocks_upto]
  have h1 : blocks_upto tbl real imag h ts a nb = stage_buf tbl real imag h ts a := by
    funext p c
    simp only [blocks_upto, stage_buf, hnb]
  rwa [h0, h1, Nat.zero_mul] at key

/-- One turn of the stage loop: the stage of size `size = 2 * h` is applied, and the
loop either stops (`size = 512`) or goes on with the doubled size. -/
theorem fft512_stages_step {α : Type} [Add α] [Sub α] [Mul α] [Neg α] (tbl : Nat → α)
    (real imag gas fuel : Nat) (a : Buf α) (hne : real ≠ imag) (hgas : 257 ≤ gas)
    (size h ts nb : Nat) (hs : size = 2 * h) (hnb : nb * (2 * h) = 512)
    (hts : 512 / size = ts) (hh : h ≤ 256) (hnb2 : nb ≤ 256) (hts2 : h * ts ≤ 65535) :
    fft512_stages gas (fuel + 1) tbl real imag size a =
      if size = 512 then some (stage_buf tbl real imag h ts a)
      else fft512_stages gas fuel tbl real imag ((size * 2) % 65536)
        (stage_buf tbl real imag h ts a) := by
  have hle : size ≤ 512 := by
    rcases Nat.eq_zero_or_pos nb with h0 | h0
    · rw [h0] at hnb; omega
    · have : 1 * (2 * h) ≤ nb * (2 * h) := Nat.mul_le_mul_right _ h0
      omega
  have hhalf : size / 2 = h := by omega
  rw [fft512_stages]
  simp only [if_pos hle, hhalf, hts]
  rw [hs, fft512_blocks_eq tbl real imag h ts nb gas a hne hnb hts2 (by omega) (by omega)]

/-- The stage loop of `fft512` terminates after the nine stages. -/
theorem fft512_stages_eq {α : Type} [Add α] [Sub α] [Mul α] [Neg α] (tbl : Nat → α)
    (real imag gas fuel : Nat) (a : Buf α) (hne : real ≠ imag) (hgas : 257 ≤ gas)
    (hfuel : 9 ≤ fuel) :
    fft512_stages gas fuel tbl real imag 2 a = some (nine_stages tbl real imag a) := by
  obtain ⟨f, rfl⟩ : ∃ f, fuel = f + 9 := ⟨fuel - 9, by omega⟩
  rw [fft512_stages_step tbl real imag gas _ _ hne hgas 2 1 256 256 rfl rfl rfl
    (by norm_num) (by norm_num) (by norm_num)]
  norm_num
  rw [fft512_stages_step tbl real imag gas _ _ hne hgas 4 2 128 128 rfl rfl rfl
    (by norm_num) (by norm_num) (by norm_num)]
  norm_num
  rw [fft512_stages_step tbl real imag gas _ _ hne hgas 8 4 64 64 rfl rfl rfl
    (by norm_num) (by norm_num) (by norm_num)]
  norm_num
  rw [fft512_stages_step tbl real imag gas _ _ hne hgas 16 8 32 32 rfl rfl rfl
    (by norm_num) (by norm_num) (by norm_num)]
  norm_num
  rw [fft512_stages_step tbl real imag gas _ _ hne hgas 32 16 16 16 rfl rfl rfl
    (by norm_num) (by norm_num) (by norm_num)]
  norm_num
  rw [fft512_stages_step tbl real imag gas _ _ hne hgas 64 32 8 8 rfl rfl rfl
    (by norm_num) (by norm_num) (by norm_num)]
  norm_num
  rw [fft512_stages_step tbl real imag gas _ _ hne hgas 128 64 4 4 rfl rfl rfl
    (by norm_num) (by norm_num) (by norm_num)]
  norm_num
  rw [fft512_stages_step tbl real imag gas _ _ hne hgas 256 128 2 2 rfl rfl rfl
    (by norm_num) (by norm_num) (by norm_num)]
  norm_num
  rw [fft512_stages_step tbl real imag gas _ _ hne hgas 512 256 1 1 rfl rfl rfl
    (by norm_num) (by norm_num) (by norm_num)]
  norm_num [nine_stages]

/-- With at least 513 units of fuel, `fft512` returns, and its result is the closed
form: bit-reversal permutation followed by the nine stages. -/
theorem fft512_eq_closed {α : Type} [Add α] [Sub α] [Mul α] [Neg α] (gas : Nat)
    (tbl : Nat → α) (B : Buf α) (dir : Nat) (hgas : 513 ≤ gas) :
    fft512 gas tbl B dir = some (fft512_closed tbl B dir) := by
  unfold fft512 fft512_closed
  simp only [fft512_permute_eq _ _ B (fft512_channels_ne dir) gas hgas]
  exact fft512_stages_eq tbl _ _ gas gas _ (fft512_channels_ne dir) (by omega) (by omega)

/-! ## Forward stages in ring form -/

theorem fft512_closed_forward {α : Type} [Add α] [Sub α] [Mul α] [Neg α] (tbl : Nat → α)
    (B : Buf α) :
    fft512_closed tbl B 0 = nine_stages tbl 0 1 (permuted_upto 0 1 B 512) := by
  have hr : fft512_real 0 = 0 := by decide
  have hi : fft512_imag 0 = 1 := by decide
  rw [fft512_closed, hr, hi]

theorem stage_buf_re {α : Type} [Add α] [Sub α] [Mul α] [Neg α] (tbl : Nat → α)
    (h ts : Nat) (a : Buf α) (p : Nat) (hp : p < 512) :
    stage_buf tbl 0 1 h ts a p 0 =
      if p % (2 * h) < h then
        a p 0 + (a (p + h) 0 * tbl (p % (2 * h) * ts + 128) + a (p + h) 1 * tbl (p % (2 * h) * ts))
      else
        a (p - h) 0 - (a p 0 * tbl ((p % (2 * h) - h) * ts + 128)
          + a p 1 * tbl ((p % (2 * h) - h) * ts)) := by
  simp [stage_buf, stage_val, tw_re, hp]

theorem stage_buf_im {α : Type} [Add α] [Sub α] [Mul α] [Neg α] (tbl : Nat → α)
    (h ts : Nat) (a : Buf α) (p : Nat) (hp : p < 512) :
    stage_buf tbl 0 1 h ts a p 1 =
      if p % (2 * h) < h then
        a p 1 + ((-(a (p + h) 0)) * tbl (p % (2 * h) * ts)
          + a (p + h) 1 * tbl (p % (2 * h) * ts + 128))
      else
        a (p - h) 1 - ((-(a p 0)) * tbl ((p % (2 * h) - h) * ts)
          + a p 1 * tbl ((p % (2 * h) - h) * ts + 128)) := by
  simp [stage_buf, stage_val, tw_im, hp]

theorem permuted_forward {α : Type} (B : Buf α) (p c : Nat) (hp : p < 512) (hc : c < 2) :
    permuted_upto 0 1 B 512 p c = B (reverse_bits p 9) c :=
  permuted_upto_full 0 1 B p c hp (by omega)

/-- A stage whose input vanishes from index `h` on copies the first `h` samples into the
next `h` ones, whatever the table. -/
theorem stage_zero_tail {α : Type} [CommRing α] (tbl : Nat → α) (h ts h2 : Nat)
    (hh2 : h2 = 2 * h) (g : Nat → Nat → α) (a : Buf α)
    (hwin : ∀ p, p < 512 → p % (2 * h) < h → p + h < 512)
    (ha : ∀ p, p < 512 → ∀ c, c < 2 → a p c = if p < h then g p c else 0)
    (hg : ∀ p, h ≤ p → p < 2 * h → ∀ c, c < 2 → g p c = g (p - h) c) :
    ∀ p, p < 512 → ∀ c, c < 2 →
      stage_buf tbl 0 1 h ts a p c = if p < h2 then g p c else 0 := by
  intro p hp c hc
  subst hh2
  have hmodle : p % (2 * h) ≤ p := Nat.mod_le _ _
  by_cases hm : p % (2 * h) < h
  · have hph := hwin p hp hm
    have hnot : ¬ p + h < h := by
      intro hlt
      have : p % (2 * h) < h := hm
      omega
    have z0 : a (p + h) 0 = 0 := by rw [ha _ hph 0 (by norm_num), if_neg (by omega)]
    have z1 : a (p + h) 1 = 0 := by rw [ha _ hph 1 (by norm_num), if_neg (by omega)]
    have hval : stage_buf tbl 0 1 h ts a p c = a p c := by
      rcases (show c = 0 ∨ c = 1 by omega) with rfl | rfl
      · rw [stage_buf_re tbl h ts a p hp, if_pos hm, z0, z1]; ring
      · rw [stage_buf_im tbl h ts a p hp, if_pos hm, z0, z1]; ring
    rw [hval, ha p hp c hc]
    by_cases hlt : p < h
    · rw [if_pos hlt, if_pos (by omega)]
    · have hge : ¬ p < 2 * h := by
        intro h3
        rw [Nat.mod_eq_of_lt h3] at hm
        exact hlt hm
      rw [if_neg hlt, if_neg hge]
  · have hge : h ≤ p := by omega
    have z0 : a p 0 = 0 := by rw [ha _ hp 0 (by norm_num), if_neg (by omega)]
    have z1 : a p 1 = 0 := by rw [ha _ hp 1 (by norm_num), if_neg (by omega)]
    have hval : stage_buf tbl 0 1 h ts a p c = a (p - h) c := by
      rcases (show c = 0 ∨ c = 1 by omega) with rfl | rfl
      · rw [stage_buf_re tbl h ts a p hp, if_neg hm, z0, z1]; ring
      · rw [stage_buf_im tbl h ts a p hp, if_neg hm, z0, z1]; ring
    rw [hval, ha (p - h) (by omega) c hc]
    by_cases hlt : p < 2 * h
    · rw [if_pos (by omega), if_pos hlt, hg p hge hlt c hc]
    · rw [if_neg (by omega), if_neg hlt]

/-- From the second stage on, a buffer that vanishes from index 2 on is spread with
period 2 over the whole window by the remaining eight stages. -/
theorem eight_stages_zero_tail {α : Type} [CommRing α] (tbl : Nat → α) (g : Nat → Nat → α)
    (a : Buf α)
    (ha : ∀ p, p < 512 → ∀ c, c < 2 → a p c = if p < 2 then g p c else 0)
    (hg : ∀ p, 2 ≤ p → ∀ c, c < 2 → g p c = g (p - 2) c) :
    ∀ p, p < 512 → ∀ c, c < 2 →
      stage_buf tbl 0 1 256 1 (stage_buf tbl 0 1 128 2 (stage_buf tbl 0 1 64 4
        (stage_buf tbl 0 1 32 8 (stage_buf tbl 0 1 16 16 (stage_buf tbl 0 1 8 32
          (stage_buf tbl 0 1 4 64 (stage_buf tbl 0 1 2 128 a))))))) p c = g p c := by
  have hper : ∀ n p, n * 2 ≤ p → ∀ c, c < 2 → g p c = g (p - n * 2) c := by
    intro n
    induction n with
    | zero => intro p _ c _; simp
    | succ n ih =>
      intro p hp c hc
      rw [hg p (by omega) c hc, ih (p - 2) (by omega) c hc]
      congr 1
      omega
  have s2 := stage_zero_tail tbl 2 128 4 rfl g a (by intro p; omega) ha
    (fun p h1 _ c hc => hper 1 p (by omega) c hc)
  have s4 := stage_zero_tail tbl 4 64 8 rfl g _ (by intro p; omega) s2
    (fun p h1 _ c hc => hper 2 p (by omega) c hc)
  have s8 := stage_zero_tail tbl 8 32 16 rfl g _ (by intro p; omega) s4
    (fun p h1 _ c hc => hper 4 p (by omega) c hc)
  have s16 := stage_zero_tail tbl 16 16 32 rfl g _ (by intro p; omega) s8
    (fun p h1 _ c hc => hper 8 p (by omega) c hc)
  have s32 := stage_zero_tail tbl 32 8 64 rfl g _ (by intro p; omega) s16
    (fun p h1 _ c hc => hper 16 p (by omega) c hc)
  have s64 := stage_zero_tail tbl 64 4 128 rfl g _ (by intro p; omega) s32
    (fun p h1 _ c hc => hper 32 p (by omega) c hc)
  have s128 := stage_zero_tail tbl 128 2 256 rfl g _ (by intro p; omega) s64
    (fun p h1 _ c hc => hper 64 p (by omega) c hc)
  have s256 := stage_zero_tail tbl 256 1 512 rfl g _ (by intro p; omega) s128
    (fun p h1 _ c hc => hper 128 p (by omega) c hc)
  intro p hp c hc
  rw [s256 p hp c hc, if_pos hp]

theorem reverse_bits_nine_eq_iff (p q : Nat) (hp : p < 512) (hq : q < 512) :
    reverse_bits p 9 = q ↔ p = reverse_bits q 9 := by
  constructor
  · intro h; rw [← h, reverse_bits_nine_involutive p hp]
  · intro h; rw [h, reverse_bits_nine_involutive q hq]

theorem reverse_bits_nine_eq_zero_iff (p : Nat) (hp : p < 512) :
    reverse_bits p 9 = 0 ↔ p = 0 := by
  have h0 : reverse_bits 0 9 = 0 := by decide
  rw [reverse_bits_nine_eq_iff p 0 hp (by norm_num), h0]

theorem reverse_bits_nine_eq_256_iff (p : Nat) (hp : p < 512) :
    reverse_bits p 9 = 256 ↔ p = 1 := by
  have h0 : reverse_bits 256 9 = 1 := by decide
  rw [reverse_bits_nine_eq_iff p 256 hp (by norm_num), h0]

theorem sin_table_zero : sin_table 0 = 0 := by
  have h : sin_table_e8.getD 0 0 = 0 := by decide
  rw [sin_table, h]; norm_num

theorem sin_table_128 : sin_table 128 = 1 := by
  have h : sin_table_e8.getD 128 0 = 100000000 := by decide
  rw [sin_table, h]; norm_num

/-- The closed form of `fft512` sends the unit impulse at index 0 to the constant
sequence `(1, 0)`, whatever the table. -/
theorem fft512_closed_impulse {α : Type} [CommRing α] (tbl : Nat → α) (B : Buf α)
    (h00 : B 0 0 = 1) (h01 : B 0 1 = 0)
    (hz : ∀ p, 0 < p → p < 512 → ∀ c, c < 2 → B p c = 0) :
    ∀ m, m < 512 → ∀ c, c < 2 → fft512_closed tbl B 0 m c = if c = 0 then 1 else 0 := by
  have hperm : ∀ p, p < 512 → ∀ c, c < 2 →
      permuted_upto 0 1 B 512 p c = if p < 1 then (if c = 0 then (1 : α) else 0) else 0 := by
    intro p hp c hc
    rw [permuted_forward B p c hp hc]
    by_cases h0 : p = 0
    · have hr : reverse_bits p 9 = 0 := (reverse_bits_nine_eq_zero_iff p hp).2 h0
      rw [hr, if_pos (by omega)]
      rcases (show c = 0 ∨ c = 1 by omega) with rfl | rfl
      · simpa using h00
      · simpa using h01
    · have hr : reverse_bits p 9 ≠ 0 := fun h => h0 ((reverse_bits_nine_eq_zero_iff p hp).1 h)
      rw [hz _ (by omega) (reverse_bits_nine_lt p hp) c hc, if_neg (by omega)]
  have s1 := stage_zero_tail tbl 1 256 2 rfl (fun _ c => if c = 0 then (1 : α) else 0) _
    (by intro p; omega) hperm (fun _ _ _ _ _ => rfl)
  intro m hm c hc
  rw [fft512_closed_forward, nine_stages]
  exact eight_stages_zero_tail tbl (fun _ c => if c = 0 then (1 : α) else 0) _ s1
    (fun _ _ _ _ => rfl) m hm c hc

/-- The first stage on two unit samples at indices 0 and 1 (the permuted images of the
input indices 0 and 256). -/
theorem first_stage_pair {α : Type} [CommRing α] (tbl : Nat → α) (h0 : tbl 0 = 0)
    (h128 : tbl 128 = 1) (a : Buf α)
    (ha : ∀ p, p < 512 → ∀ c, c < 2 → a p c = if p < 2 ∧ c = 0 then 1 else 0) :
    ∀ p, p < 512 → ∀ c, c < 2 →
      stage_buf tbl 0 1 1 256 a p c =
        if p < 2 then (if c = 0 ∧ p % 2 = 0 then (2 : α) else 0) else 0 := by
  intro p hp c hc
  by_cases hm : p % (2 * 1) < 1
  · have hk : p % (2 * 1) * 256 = 0 := by omega
    have hp1 : p + 1 < 512 := by omega
    rcases (show c = 0 ∨ c = 1 by omega) with rfl | rfl
    · rw [stage_buf_re tbl 1 256 a p hp, if_pos hm, hk, ha p hp 0 hc, ha _ hp1 0 hc,
        ha _ hp1 1 (by norm_num), h0, h128]
      by_cases hp0 : p = 0
      · subst hp0; norm_num
      · have e1 : ¬ (p < 2 ∧ (0 : Nat) = 0) := by omega
        have e2 : ¬ (p + 1 < 2 ∧ (0 : Nat) = 0) := by omega
        have e3 : ¬ p < 2 := by omega
        rw [if_neg e1, if_neg e2, if_neg e3]
        simp
    · rw [stage_buf_im tbl 1 256 a p hp, if_pos hm, hk, ha p hp 1 hc, ha _ hp1 0 (by norm_num),
        ha _ hp1 1 hc, h0, h128]
      simp
  · have hk : (p % (2 * 1) - 1) * 256 = 0 := by omega
    have hp1 : p - 1 < 512 := by omega
    rcases (show c = 0 ∨ c = 1 by omega) with rfl | rfl
    · rw [stage_buf_re tbl 1 256 a p hp, if_neg hm, hk, ha p hp 0 hc, ha _ hp1 0 hc,
        ha p hp 1 (by norm_num), h0, h128]
      by_cases hp0 : p = 1
      · subst hp0; norm_num
      · have e1 : ¬ (p < 2 ∧ (0 : Nat) = 0) := by omega
        have e2 : ¬ (p - 1 < 2 ∧ (0 : Nat) = 0) := by omega
        have e3 : ¬ p < 2 := by omega
        rw [if_neg e1, if_neg e2, if_neg e3]
        simp
    · rw [stage_buf_im tbl 1 256 a p hp, if_neg hm, hk, ha p hp 1 hc, ha p hp 0 (by norm_num),
        ha _ hp1 1 hc, h0, h128]
      simp

/-- The closed form of `fft512` sends the two unit impulses at indices 0 and 256 to the
sequence that is `(2, 0)` at even and `(0, 0)` at odd indices, for every table whose
entries 0 and 128 are 0 and 1. -/
theorem fft512_closed_two_impulses {α : Type} [CommRing α] (tbl : Nat → α) (h0 : tbl 0 = 0)
    (h128 : tbl 128 = 1) (B : Buf α)
    (hB0 : B 0 0 = 1 ∧ B 0 1 = 0) (hB256 : B 256 0 = 1 ∧ B 256 1 = 0)
    (hz : ∀ p, p < 512 → p ≠ 0 → p ≠ 256 → ∀ c, c < 2 → B p c = 0) :
    ∀ m, m < 512 → ∀ c, c < 2 →
      fft512_closed tbl B 0 m c = if c = 0 ∧ m % 2 = 0 then 2 else 0 := by
  have hperm : ∀ p, p < 512 → ∀ c, c < 2 →
      permuted_upto 0 1 B 512 p c = if p < 2 ∧ c = 0 then 1 else 0 := by
    intro p hp c hc
    rw [permuted_forward B p c hp hc]
    by_cases hp0 : p = 0
    · rw [(reverse_bits_nine_eq_zero_iff p hp).2 hp0]
      rcases (show c = 0 ∨ c = 1 by omega) with rfl | rfl
      · rw [hB0.1, if_pos ⟨by omega, rfl⟩]
      · rw [hB0.2, if_neg (by omega)]
    · by_cases hp1 : p = 1
      · rw [(reverse_bits_nine_eq_256_iff p hp).2 hp1]
        rcases (show c = 0 ∨ c = 1 by omega) with rfl | rfl
        · rw [hB256.1, if_pos ⟨by omega, rfl⟩]
        · rw [hB256.2, if_neg (by omega)]
      · have hr0 : reverse_bits p 9 ≠ 0 :=
          fun h => hp0 ((reverse_bits_nine_eq_zero_iff p hp).1 h)
        have hr1 : reverse_bits p 9 ≠ 256 :=
          fun h => hp1 ((reverse_bits_nine_eq_256_iff p hp).1 h)
        rw [hz _ (reverse_bits_nine_lt p hp) hr0 hr1 c hc, if_neg (by omega)]
  have s1 := first_stage_pair tbl h0 h128 _ hperm
  intro m hm c hc
  rw [fft512_closed_forward, nine_stages]
  rw [eight_stages_zero_tail tbl (fun p c => if c = 0 ∧ p % 2 = 0 then (2 : α) else 0) _ s1
    (fun p hp c _ => by
      have : (p - 2) % 2 = p % 2 := by omega
      simp only [this]) m hm c hc]

/-- One stage on a buffer that holds `(v, 0)` at the multiples of `h` and `(0, 0)`
elsewhere: the result holds `(v + v, 0)` at the multiples of `2 * h`.  Only the table
entries 0 and 128 are used. -/
theorem stage_comb {α : Type} [CommRing α] (tbl : Nat → α) (h0 : tbl 0 = 0)
    (h128 : tbl 128 = 1) (h ts h2 : Nat) (v : α) (a : Buf α)
    (harith : ∀ p, p < 512 →
      (p % (2 * h) < h → p + h < 512 ∧ ((p + h) % h = 0 ↔ p % (2 * h) = 0) ∧
        (p % h = 0 ↔ p % (2 * h) = 0) ∧ (p % h2 = 0 ↔ p % (2 * h) = 0)) ∧
      (¬ p % (2 * h) < h → h ≤ p ∧ ((p - h) % h = 0 ↔ p % (2 * h) = h) ∧
        (p % h = 0 ↔ p % (2 * h) = h) ∧ ¬ p % h2 = 0))
    (ha : ∀ p, p < 512 → a p 0 = (if p % h = 0 then v else 0) ∧ a p 1 = 0) :
    ∀ p, p < 512 →
      stage_buf tbl 0 1 h ts a p 0 = (if p % h2 = 0 then v + v else 0) ∧
      stage_buf tbl 0 1 h ts a p 1 = 0 := by
  intro p hp
  rw [stage_buf_re tbl h ts a p hp, stage_buf_im tbl h ts a p hp]
  by_cases hm : p % (2 * h) < h
  · obtain ⟨hph, e1, e2, e3⟩ := (harith p hp).1 hm
    rw [if_pos hm, if_pos hm, (ha p hp).1, (ha p hp).2, (ha _ hph).1, (ha _ hph).2]
    by_cases hz : p % (2 * h) = 0
    · rw [if_pos (e2.2 hz), if_pos (e1.2 hz), if_pos (e3.2 hz), hz, Nat.zero_mul, h0, h128]
      constructor <;> ring
    · rw [if_neg (fun x => hz (e2.1 x)), if_neg (fun x => hz (e1.1 x)),
        if_neg (fun x => hz (e3.1 x))]
      constructor <;> ring
  · obtain ⟨hge, e1, e2, e3⟩ := (harith p hp).2 hm
    rw [if_neg hm, if_neg hm, (ha p hp).1, (ha p hp).2, (ha (p - h) (by omega)).1,
      (ha (p - h) (by omega)).2, if_neg e3]
    by_cases hz : p % (2 * h) = h
    · rw [if_pos (e2.2 hz), if_pos (e1.2 hz), hz, Nat.sub_self, Nat.zero_mul, h0, h128]
      constructor <;> ring
    · rw [if_neg (fun x => hz (e2.1 x)), if_neg (fun x => hz (e1.1 x))]
      constructor <;> ring

/-- The closed form of `fft512` sends the constant buffer `(v, 0)` to `(512 * v, 0)` at
index 0 and `(0, 0)` elsewhere, for every table whose entries 0 and 128 are 0 and 1. -/
theorem fft512_closed_constant {α : Type} [CommRing α] (tbl : Nat → α) (h0 : tbl 0 = 0)
    (h128 : tbl 128 = 1) (v : α) (B : Buf α)
    (hB : ∀ p, p < 512 → B p 0 = v ∧ B p 1 = 0) :
    ∀ m, m < 512 →
      fft512_closed tbl B 0 m 0 = (if m = 0 then 512 * v else 0) ∧
      fft512_closed tbl B 0 m 1 = 0 := by
  have hperm : ∀ p, p < 512 →
      permuted_upto 0 1 B 512 p 0 = (if p % 1 = 0 then v else 0) ∧
      permuted_upto 0 1 B 512 p 1 = 0 := by
    intro p hp
    rw [permuted_forward B p 0 hp (by norm_num), permuted_forward B p 1 hp (by norm_num),
      if_pos (Nat.mod_one p)]
    exact hB _ (reverse_bits_nine_lt p hp)
  have s1 := stage_comb tbl h0 h128 1 256 2 v _ (by intro p hp; omega) hperm
  have s2 := stage_comb tbl h0 h128 2 128 4 _ _ (by intro p hp; omega) s1
  have s3 := stage_comb tbl h0 h128 4 64 8 _ _ (by intro p hp; omega) s2
  have s4 := stage_comb tbl h0 h128 8 32 16 _ _ (by intro p hp; omega) s3
  have s5 := stage_comb tbl h0 h128 16 16 32 _ _ (by intro p hp; omega) s4
  have s6 := stage_comb tbl h0 h128 32 8 64 _ _ (by intro p hp; omega) s5
  have s7 := stage_comb tbl h0 h128 64 4 128 _ _ (by intro p hp; omega) s6
  have s8 := stage_comb tbl h0 h128 128 2 256 _ _ (by intro p hp; omega) s7
  have s9 := stage_comb tbl h0 h128 256 1 512 _ _ (by intro p hp; omega) s8
  intro m hm
  rw [fft512_closed_forward, nine_stages]
  obtain ⟨r1, r2⟩ := s9 m hm
  refine ⟨?_, r2⟩
  rw [r1]
  have hiff : m % 512 = 0 ↔ m = 0 := by omega
  by_cases hm0 : m = 0
  · rw [if_pos (hiff.2 hm0), if_pos hm0]; ring
  · rw [if_neg (fun x => hm0 (hiff.1 x)), if_neg hm0]

/-! ## Linearity -/

theorem permuted_upto_linear {α : Type} [CommRing α] (real imag : Nat) (A B : Buf α) (c : α)
    (i0 : Nat) :
    permuted_upto real imag (fun p ch => A p ch + c * B p ch) i0 =
      fun p ch => permuted_upto real imag A i0 p ch + c * permuted_upto real imag B i0 p ch := by
  funext p ch
  simp only [permuted_upto]
  split_ifs <;> rfl

theorem stage_buf_linear {α : Type} [CommRing α] (tbl : Nat → α) (real imag h ts : Nat)
    (A B : Buf α) (c : α) :
    stage_buf tbl real imag h ts (fun p ch => A p ch + c * B p ch) =
      fun p ch => stage_buf tbl real imag h ts A p ch + c * stage_buf tbl real imag h ts B p ch := by
  funext p ch
  simp only [stage_buf, stage_val, tw_re, tw_im]
  split_ifs <;> ring

/-- The closed form of `fft512` is linear in the buffer, for every table and direction. -/
theorem fft512_closed_linear {α : Type} [CommRing α] (tbl : Nat → α) (A B : Buf α) (c : α)
    (dir : Nat) :
    fft512_closed tbl (fun p ch => A p ch + c * B p ch) dir =
      fun p ch => fft512_closed tbl A dir p ch + c * fft512_closed tbl B dir p ch := by
  simp only [fft512_closed, nine_stages, permuted_upto_linear, stage_buf_linear]

/-! ## The forward transform over the complex numbers -/

theorem sum_range_two_mul (f : Nat → ℂ) (n : Nat) :
    ∑ q in Finset.range (2 * n), f q = ∑ q in Finset.range n, (f (2 * q) + f (2 * q + 1)) := by
  induction n with
  | zero => simp
  | succ n ih =>
    rw [show 2 * (n + 1) = 2 * n + 1 + 1 by ring, Finset.sum_range_succ, Finset.sum_range_succ,
      ih, Finset.sum_range_succ]
    ring

/-- One stage in complex form: a butterfly adds to, or subtracts from, the lower sample
the upper sample multiplied by the power of `ζ` that the table encodes. -/
theorem stage_zc (tbl : Nat → ℝ) (ζ : ℂ)
    (hζ : ∀ k, k ≤ 255 → ζ ^ k = ⟨tbl (k + 128), -tbl k⟩)
    (h ts : Nat) (hts : h * ts = 256) (a : Buf ℝ) (p : Nat) (hp : p < 512) :
    zc (stage_buf tbl 0 1 h ts a) p =
      if p % (2 * h) < h then zc a p + ζ ^ (p % (2 * h) * ts) * zc a (p + h)
      else zc a (p - h) - ζ ^ ((p % (2 * h) - h) * ts) * zc a p := by
  have hts0 : 0 < ts := by
    rcases Nat.eq_zero_or_pos ts with h0 | h0
    · rw [h0] at hts; omega
    · exact h0
  have hh0 : 0 < h := by
    rcases Nat.eq_zero_or_pos h with h0 | h0
    · rw [h0] at hts; omega
    · exact h0
  have hbound : ∀ m, m < h → m * ts ≤ 255 := by
    intro m hm
    have h1 : (m + 1) * ts ≤ h * ts := Nat.mul_le_mul_right ts (by omega)
    rw [Nat.add_mul, Nat.one_mul] at h1
    omega
  by_cases hm : p % (2 * h) < h
  · rw [if_pos hm, hζ _ (hbound _ hm)]
    apply Complex.ext
    · simp only [zc, stage_buf_re tbl h ts a p hp, if_pos hm, Complex.add_re, Complex.mul_re]
      ring
    · simp only [zc, stage_buf_im tbl h ts a p hp, if_pos hm, Complex.add_im, Complex.mul_im]
      ring
  · have hlt : p % (2 * h) < 2 * h := Nat.mod_lt _ (by omega)
    rw [if_neg hm, hζ _ (hbound _ (by omega))]
    apply Complex.ext
    · simp only [zc, stage_buf_re tbl h ts a p hp, if_neg hm, Complex.sub_re, Complex.mul_re]
      ring
    · simp only [zc, stage_buf_im tbl h ts a p hp, if_neg hm, Complex.sub_im, Complex.mul_im]
      ring

/-- Induction step of the decimation-in-time invariant: if every block of `h` samples
holds the `h`-point transform of the input taken with stride `2 * ts` from the
bit-reversed block start, then after the stage every block of `2 * h` samples holds the
`2 * h`-point transform taken with stride `ts`. -/
theorem dft_stage_step (tbl : Nat → ℝ) (ζ : ℂ)
    (hζ : ∀ k, k ≤ 255 → ζ ^ k = ⟨tbl (k + 128), -tbl k⟩) (hneg : ζ ^ 256 = -1)
    (X : Nat → ℂ) (h ts h2 ts2 : Nat) (hh2 : h2 = 2 * h) (hts2 : ts2 = 2 * ts)
    (hts : h * ts = 256) (a : Buf ℝ)
    (harith : ∀ i, i < 512 → i % (2 * h) = 0 → i + 2 * h ≤ 512 ∧ i % h = 0 ∧ (i + h) % h = 0)
    (hrev : ∀ i, i < 512 → i % (2 * h) = 0 →
      reverse_bits (i + h) 9 = reverse_bits i 9 + ts)
    (inv : ∀ i m, i < 512 → i % h = 0 → m < h →
      zc a (i + m) =
        ∑ q in Finset.range h, X (reverse_bits i 9 + ts2 * q) * ζ ^ (ts2 * m * q)) :
    ∀ i m, i < 512 → i % h2 = 0 → m < h2 →
      zc (stage_buf tbl 0 1 h ts a) (i + m) =
        ∑ q in Finset.range h2, X (reverse_bits i 9 + ts * q) * ζ ^ (ts * m * q) := by
  subst hh2 hts2
  intro i m hi hdiv hm
  obtain ⟨hwin, hih, hihh⟩ := harith i hi hdiv
  have hpm : (i + m) % (2 * h) = m := by
    rw [Nat.add_mod, hdiv, Nat.zero_add, Nat.mod_mod, Nat.mod_eq_of_lt hm]
  rw [stage_zc tbl ζ hζ h ts hts a (i + m) (by omega), hpm, sum_range_two_mul]
  by_cases hlt : m < h
  · rw [if_pos hlt, inv i m hi hih hlt, show i + m + h = (i + h) + m by omega,
      inv (i + h) m (by omega) hihh hlt, hrev i hi hdiv, Finset.mul_sum,
      ← Finset.sum_add_distrib]
    apply Finset.sum_congr rfl
    intro q _
    have e1 : reverse_bits i 9 + ts * (2 * q) = reverse_bits i 9 + 2 * ts * q := by ring
    have e2 : reverse_bits i 9 + ts * (2 * q + 1) = reverse_bits i 9 + ts + 2 * ts * q := by
      ring
    have e3 : ts * m * (2 * q) = 2 * ts * m * q := by ring
    have e4 : ts * m * (2 * q + 1) = m * ts + 2 * ts * m * q := by ring
    rw [e1, e2, e3, e4, pow_add]
    ring
  · obtain ⟨n, rfl⟩ : ∃ n, m = h + n := ⟨m - h, by omega⟩
    have hn : n < h := by omega
    rw [if_neg hlt, show i + (h + n) - h = i + n by omega, show h + n - h = n by omega,
      show i + (h + n) = (i + h) + n by omega, inv i n hi hih hn,
      inv (i + h) n (by omega) hihh hn, hrev i hi hdiv, Finset.mul_sum,
      ← Finset.sum_sub_distrib]
    apply Finset.sum_congr rfl
    intro q _
    have e1 : reverse_bits i 9 + ts * (2 * q) = reverse_bits i 9 + 2 * ts * q := by ring
    have e2 : reverse_bits i 9 + ts * (2 * q + 1) = reverse_bits i 9 + ts + 2 * ts * q := by
      ring
    have e3 : ts * (h + n) * (2 * q) = 256 * (2 * q) + 2 * ts * n * q := by
      rw [← hts]; ring
    have e4 : ts * (h + n) * (2 * q + 1) = 256 * (2 * q + 1) + (n * ts + 2 * ts * n * q) := by
      rw [← hts]; ring
    have p1 : ζ ^ (256 * (2 * q)) = 1 := by
      rw [pow_mul, hneg, pow_mul]; simp
    have p2 : ζ ^ (256 * (2 * q + 1)) = -1 := by
      rw [pow_mul, hneg, pow_succ, pow_mul]; simp
    rw [e1, e2, e3, e4, pow_add, pow_add, pow_add, p1, p2]
    ring

set_option maxRecDepth 100000 in
/-- The closed form of the forward `fft512` computes the 512-point transform with respect
to any `ζ` whose powers the table encodes and which satisfies `ζ ^ 256 = -1`. -/
theorem fft512_closed_dft (tbl : Nat → ℝ) (ζ : ℂ)
    (hζ : ∀ k, k ≤ 255 → ζ ^ k = ⟨tbl (k + 128), -tbl k⟩) (hneg : ζ ^ 256 = -1)
    (B : Buf ℝ) :
    ∀ m, m < 512 →
      zc (fft512_closed tbl B 0) m = ∑ q in Finset.range 512, zc B q * ζ ^ (m * q) := by
  have r1 : ∀ i, i < 512 → i % (2 * 1) = 0 →
      reverse_bits (i + 1) 9 = reverse_bits i 9 + 256 := by decide
  have r2 : ∀ i, i < 512 → i % (2 * 2) = 0 →
      reverse_bits (i + 2) 9 = reverse_bits i 9 + 128 := by decide
  have r3 : ∀ i, i < 512 → i % (2 * 4) = 0 →
      reverse_bits (i + 4) 9 = reverse_bits i 9 + 64 := by decide
  have r4 : ∀ i, i < 512 → i % (2 * 8) = 0 →
      reverse_bits (i + 8) 9 = reverse_bits i 9 + 32 := by decide
  have r5 : ∀ i, i < 512 → i % (2 * 16) = 0 →
      reverse_bits (i + 16) 9 = reverse_bits i 9 + 16 := by decide
  have r6 : ∀ i, i < 512 → i % (2 * 32) = 0 →
      reverse_bits (i + 32) 9 = reverse_bits i 9 + 8 := by decide
  have r7 : ∀ i, i < 512 → i % (2 * 64) = 0 →
      reverse_bits (i + 64) 9 = reverse_bits i 9 + 4 := by decide
  have r8 : ∀ i, i < 512 → i % (2 * 128) = 0 →
      reverse_bits (i + 128) 9 = reverse_bits i 9 + 2 := by decide
  have r9 : ∀ i, i < 512 → i % (2 * 256) = 0 →
      reverse_bits (i + 256) 9 = reverse_bits i 9 + 1 := by decide
  have s0 : ∀ i m, i < 512 → i % 1 = 0 → m < 1 →
      zc (permuted_upto 0 1 B 512) (i + m) =
        ∑ q in Finset.range 1, zc B (reverse_bits i 9 + 512 * q) * ζ ^ (512 * m * q) := by
    intro i m hi _ hm
    have hm0 : m = 0 := by omega
    subst hm0
    simp [zc, permuted_forward B i _ hi]
  have s1 := dft_stage_step tbl ζ hζ hneg (zc B) 1 256 2 512 rfl rfl rfl _
    (by intro i hi hd; omega) r1 s0
  have s2 := dft_stage_step tbl ζ hζ hneg (zc B) 2 128 4 256 rfl rfl rfl _
    (by intro i hi hd; omega) r2 s1
  have s3 := dft_stage_step tbl ζ hζ hneg (zc B) 4 64 8 128 rfl rfl rfl _
    (by intro i hi hd; omega) r3 s2
  have s4 := dft_stage_step tbl ζ hζ hneg (zc B) 8 32 16 64 rfl rfl rfl _
    (by intro i hi hd; omega) r4 s3
  have s5 := dft_stage_step tbl ζ hζ hneg (zc B) 16 16 32 32 rfl rfl rfl _
    (by intro i hi hd; omega) r5 s4
  have s6 := dft_stage_step tbl ζ hζ hneg (zc B) 32 8 64 16 rfl rfl rfl _
    (by intro i hi hd; omega) r6 s5
  have s7 := dft_stage_step tbl ζ hζ hneg (zc B) 64 4 128 8 rfl rfl rfl _
    (by intro i hi hd; omega) r7 s6
  have s8 := dft_stage_step tbl ζ hζ hneg (zc B) 128 2 256 4 rfl rfl rfl _
    (by intro i hi hd; omega) r8 s7
  have s9 := dft_stage_step tbl ζ hζ hneg (zc B) 256 1 512 2 rfl rfl rfl _
    (by intro i hi hd; omega) r9 s8
  intro m hm
  have h0 : reverse_bits 0 9 = 0 := by decide
  have key := s9 0 m (by norm_num) (by norm_num) hm
  rw [fft512_closed_forward, nine_stages]
  rw [Nat.zero_add] at key
  rw [key]
  apply Finset.sum_congr rfl
  intro q _
  rw [h0, Nat.zero_add, Nat.one_mul, Nat.one_mul]

/-! ## The exact sine table -/

theorem zeta_pow_eq (k : Nat) :
    Complex.exp (-2 * Real.pi * Complex.I / 512) ^ k =
      Complex.exp (((-(2 * Real.pi * k / 512) : ℝ) : ℂ) * Complex.I) := by
  rw [← Complex.exp_nat_mul]
  congr 1
  push_cast
  ring

/-- With exact sines in the table, `cos_table[k] - i * sin_table[k]` is the `k`-th power of
`exp(-2 * pi * i / 512)`. -/
theorem zeta_pow_table (tbl : Nat → ℝ)
    (htbl : ∀ k, k < 384 → tbl k = Real.sin (2 * Real.pi * k / 512)) (k : Nat)
    (hk : k ≤ 255) :
    Complex.exp (-2 * Real.pi * Complex.I / 512) ^ k = ⟨tbl (k + 128), -tbl k⟩ := by
  rw [zeta_pow_eq]
  apply Complex.ext
  · rw [Complex.exp_ofReal_mul_I_re, Real.cos_neg, htbl (k + 128) (by omega)]
    show Real.cos (2 * Real.pi * k / 512) = Real.sin (2 * Real.pi * ((k + 128 : Nat) : ℝ) / 512)
    rw [← Real.sin_add_pi_div_two]
    congr 1
    push_cast
    ring
  · rw [Complex.exp_ofReal_mul_I_im, Real.sin_neg, htbl k (by omega)]

theorem zeta_pow_256 : Complex.exp (-2 * Real.pi * Complex.I / 512) ^ 256 = -1 := by
  rw [zeta_pow_eq]
  have h : (((-(2 * Real.pi * (256 : Nat) / 512) : ℝ) : ℂ)) * Complex.I =
      -(Real.pi * Complex.I) := by
    push_cast
    ring
  rw [h, Complex.exp_neg, Complex.exp_pi_mul_I]
  norm_num

theorem zeta_pow_mul (m n : Nat) :
    Complex.exp (-2 * Real.pi * Complex.I / 512) ^ (m * n) =
      Complex.exp (-2 * Real.pi * Complex.I * m * n / 512) := by
  rw [← Complex.exp_nat_mul]
  congr 1
  push_cast
  ring

theorem zc_eq (a : Buf ℝ) (p : Nat) :
    zc a p = (a p 0 : ℂ) + (a p 1 : ℂ) * Complex.I := by
  apply Complex.ext <;> simp [zc]

/-! ## The inverse direction and the round trip -/

theorem eq_swapCh_iff (c d : Nat) : d = swapCh c ↔ swapCh d = c := by
  constructor
  · intro h; rw [h, swapCh_swapCh]
  · intro h; rw [← h, swapCh_swapCh]

theorem permuted_upto_swap {α : Type} (real imag : Nat) (B : Buf α) (i0 : Nat) :
    permuted_upto (swapCh real) (swapCh imag) (swap_channels B) i0 =
      swap_channels (permuted_upto real imag B i0) := by
  funext p c
  simp only [permuted_upto, swap_channels, eq_swapCh_iff]

theorem stage_buf_swap {α : Type} [Add α] [Sub α] [Mul α] [Neg α] (tbl : Nat → α)
    (real imag h ts : Nat) (a : Buf α) :
    stage_buf tbl (swapCh real) (swapCh imag) h ts (swap_channels a) =
      swap_channels (stage_buf tbl real imag h ts a) := by
  funext p c
  simp only [stage_buf, stage_val, tw_re, tw_im, swap_channels, eq_swapCh_iff, swapCh_swapCh]

/-- The closed form for `dir = 1` is the closed form for `dir = 0` between two channel
exchanges. -/
theorem fft512_closed_inverse {α : Type} [Add α] [Sub α] [Mul α] [Neg α] (tbl : Nat → α)
    (B : Buf α) :
    fft512_closed tbl B 1 = swap_channels (fft512_closed tbl (swap_channels B) 0) := by
  have hr1 : fft512_real 1 = swapCh 0 := by decide
  have hi1 : fft512_imag 1 = swapCh 1 := by decide
  have hr0 : fft512_real 0 = 0 := by decide
  have hi0 : fft512_imag 0 = 1 := by decide
  have hB : permuted_upto (swapCh 0) (swapCh 1) B 512 =
      swap_channels (permuted_upto 0 1 (swap_channels B) 512) := by
    rw [← permuted_upto_swap, swap_channels_twice]
  simp only [fft512_closed, nine_stages, hr1, hi1, hr0, hi0, hB, stage_buf_swap]

theorem zc_swap_channels (a : Buf ℝ) (p : Nat) :
    zc (swap_channels a) p = Complex.I * (starRingEnd ℂ) (zc a p) := by
  apply Complex.ext <;> simp [zc, swap_channels, swapCh]

/-- Orthogonality of the powers of a primitive 512-th root of unity `ζ` with inverse
`η`. -/
theorem roots_sum (ζ η : ℂ) (h1 : ζ * η = 1) (h512 : ζ ^ 512 = 1)
    (hinj : ∀ i j, i < 512 → j < 512 → ζ ^ i = ζ ^ j → i = j)
    (m n : Nat) (hm : m < 512) (hn : n < 512) :
    ∑ q in Finset.range 512, (ζ ^ m * η ^ n) ^ q = if n = m then 512 else 0 := by
  have hη : η ^ 512 = 1 := by
    have h2 : (ζ * η) ^ 512 = 1 := by rw [h1, one_pow]
    rwa [mul_pow, h512, one_mul] at h2
  by_cases hnm : n = m
  · subst hnm
    rw [if_pos rfl, ← mul_pow, h1, one_pow]
    simp
  · rw [if_neg hnm]
    have hr1 : ζ ^ m * η ^ n ≠ 1 := by
      intro h
      apply hnm
      have h3 : ζ ^ n * (ζ ^ m * η ^ n) = ζ ^ m := by
        rw [mul_comm (ζ ^ m), ← mul_assoc, ← mul_pow, h1, one_pow, one_mul]
      rw [h, mul_one] at h3
      exact hinj n m hn hm h3
    have hr512 : (ζ ^ m * η ^ n) ^ 512 = 1 := by
      rw [mul_pow, ← pow_mul, ← pow_mul, mul_comm m, mul_comm n, pow_mul, pow_mul, h512, hη,
        one_pow, one_pow, one_mul]
    rw [geom_sum_eq hr1, hr512, sub_self, zero_div]

/-- Forward transform, channel exchange and forward transform again give `i` times the
conjugate of `512` times the input. -/
theorem fft512_closed_twice (tbl : Nat → ℝ) (ζ : ℂ)
    (hζ : ∀ k, k ≤ 255 → ζ ^ k = ⟨tbl (k + 128), -tbl k⟩) (hneg : ζ ^ 256 = -1)
    (hconj : ζ * (starRingEnd ℂ) ζ = 1)
    (hinj : ∀ i j, i < 512 → j < 512 → ζ ^ i = ζ ^ j → i = j) (B : Buf ℝ) :
    ∀ p, p < 512 →
      zc (fft512_closed tbl (swap_channels (fft512_closed tbl B 0)) 0) p =
        Complex.I * (starRingEnd ℂ) (512 * zc B p) := by
  intro p hp
  have h512 : ζ ^ 512 = 1 := by
    rw [show 512 = 256 * 2 by norm_num, pow_mul, hneg]; norm_num
  have hF : ∀ q ∈ Finset.range 512,
      zc (swap_channels (fft512_closed tbl B 0)) q * ζ ^ (p * q) =
        ∑ n in Finset.range 512,
          Complex.I * (starRingEnd ℂ) (zc B n) * (ζ ^ p * (starRingEnd ℂ) ζ ^ n) ^ q := by
    intro q hq
    rw [zc_swap_channels, fft512_closed_dft tbl ζ hζ hneg B q (Finset.mem_range.1 hq),
      map_sum, Finset.mul_sum, Finset.sum_mul]
    apply Finset.sum_congr rfl
    intro n _
    rw [map_mul, map_pow, mul_pow, ← pow_mul, ← pow_mul, Nat.mul_comm q n]
    ring
  have hG : ∀ n ∈ Finset.range 512,
      ∑ q in Finset.range 512,
          Complex.I * (starRingEnd ℂ) (zc B n) * (ζ ^ p * (starRingEnd ℂ) ζ ^ n) ^ q =
        if n = p then Complex.I * (starRingEnd ℂ) (zc B n) * 512 else 0 := by
    intro n hn
    rw [← Finset.mul_sum, roots_sum ζ _ hconj h512 hinj p n hp (Finset.mem_range.1 hn)]
    split_ifs <;> simp
  rw [fft512_closed_dft tbl ζ hζ hneg _ p hp, Finset.sum_congr rfl hF, Finset.sum_comm,
    Finset.sum_congr rfl hG, Finset.sum_ite_eq' (Finset.range 512) p,
    if_pos (Finset.mem_range.2 hp), map_mul, Complex.conj_ofNat]
  ring

theorem zeta_mul_conj :
    Complex.exp (-2 * Real.pi * Complex.I / 512) *
      (starRingEnd ℂ) (Complex.exp (-2 * Real.pi * Complex.I / 512)) = 1 := by
  rw [← Complex.exp_conj, ← Complex.exp_add]
  have h : -2 * (Real.pi : ℂ) * Complex.I / 512 +
      (starRingEnd ℂ) (-2 * (Real.pi : ℂ) * Complex.I / 512) = 0 := by
    rw [map_div₀, map_mul, map_mul, map_neg, Complex.conj_I, Complex.conj_ofReal,
      Complex.conj_ofNat, Complex.conj_ofNat]
    ring
  rw [h, Complex.exp_zero]

theorem zeta_pow_inj (i j : Nat) (hi : i < 512) (hj : j < 512)
    (h : Complex.exp (-2 * Real.pi * Complex.I / 512) ^ i =
      Complex.exp (-2 * Real.pi * Complex.I / 512) ^ j) : i = j := by
  have hprim : IsPrimitiveRoot (Complex.exp (2 * Real.pi * Complex.I / (512 : Nat)))⁻¹ 512 :=
    IsPrimitiveRoot.inv_iff.2 (Complex.isPrimitiveRoot_exp 512 (by norm_num))
  have he : (Complex.exp (2 * Real.pi * Complex.I / (512 : Nat)))⁻¹ =
      Complex.exp (-2 * Real.pi * Complex.I / 512) := by
    rw [← Complex.exp_neg]
    congr 1
    push_cast
    ring
  rw [he] at hprim
  exact hprim.pow_inj hi hj h

/-! ## The coded table: exact facts about the literals -/

set_option maxRecDepth 100000 in
theorem sin_table_e8_length : sin_table_e8.length = 384 := by decide

set_option maxRecDepth 100000 in
theorem sin_table_e8_reflect :
    ∀ k, k ≤ 256 → sin_table_e8.getD (256 - k) 0 = sin_table_e8.getD k 0 := by
  decide

set_option maxRecDepth 100000 in
theorem sin_table_e8_negate :
    ∀ k, k < 128 → sin_table_e8.getD (256 + k) 0 = -sin_table_e8.getD k 0 := by
  decide

set_option maxRecDepth 100000 in
theorem sin_table_e8_pythagoras : ∀ k, k ≤ 255 →
    sin_table_e8.getD k 0 * sin_table_e8.getD k 0 +
        sin_table_e8.getD (k + 128) 0 * sin_table_e8.getD (k + 128) 0 ≤
      10000000000000000 + 1000000000 ∧
    10000000000000000 ≤
      sin_table_e8.getD k 0 * sin_table_e8.getD k 0 +
        sin_table_e8.getD (k + 128) 0 * sin_table_e8.getD (k + 128) 0 + 1000000000 := by
  decide

theorem sin_table_256 : sin_table 256 = 0 := by
  have h : sin_table_e8.getD 256 0 = 0 := by decide
  rw [sin_table, h]; norm_num

theorem sin_table_reflect (k : Nat) (hk : k ≤ 256) : sin_table (256 - k) = sin_table k := by
  rw [sin_table, sin_table, sin_table_e8_reflect k hk]

theorem sin_table_negate (k : Nat) (hk : k < 128) : sin_table (256 + k) = -sin_table k := by
  rw [sin_table, sin_table, sin_table_e8_negate k hk]
  push_cast
  ring

theorem sin_table_pythagoras (k : Nat) (hk : k ≤ 255) :
    |sin_table k ^ 2 + sin_table (k + 128) ^ 2 - 1| ≤ 1 / 10 ^ 7 := by
  obtain ⟨h1, h2⟩ := sin_table_e8_pythagoras k hk
  have q1 : ((sin_table_e8.getD k 0 : ℤ) : ℚ) * (sin_table_e8.getD k 0 : ℤ) +
      ((sin_table_e8.getD (k + 128) 0 : ℤ) : ℚ) * (sin_table_e8.getD (k + 128) 0 : ℤ) ≤
      10000000000000000 + 1000000000 := by exact_mod_cast h1
  have q2 : (10000000000000000 : ℚ) ≤
      ((sin_table_e8.getD k 0 : ℤ) : ℚ) * (sin_table_e8.getD k 0 : ℤ) +
      ((sin_table_e8.getD (k + 128) 0 : ℤ) : ℚ) * (sin_table_e8.getD (k + 128) 0 : ℤ) +
      1000000000 := by exact_mod_cast h2
  rw [abs_le, sin_table, sin_table]
  constructor
  · rw [div_pow, div_pow]
    linarith
  · rw [div_pow, div_pow]
    linarith

/-! ## The direction argument -/

theorem fft512_real_mod_two (dir : Nat) : fft512_real (dir % 2) = fft512_real dir := by
  unfold fft512_real
  rw [Nat.and_one_is_mod, Nat.and_one_is_mod]
  omega

theorem fft512_imag_mod_two (dir : Nat) : fft512_imag (dir % 2) = fft512_imag dir := by
  unfold fft512_imag
  rw [fft512_real_mod_two]

/-! ## The instrumented run: same buffers as the plain run -/

theorem fft512_permute_log_fst {α : Type} (real imag : Nat) (fuel : Nat) :
    ∀ (i : Nat) (a : Buf α),
      (fft512_permute_log fuel real imag i a).map (fun r => r.1) =
        fft512_permute fuel real imag i a := by
  induction fuel with
  | zero => intro i a; rfl
  | succ fuel ih =>
    intro i a
    rw [fft512_permute_log, fft512_permute]
    by_cases hi : i < 512
    · simp only [if_pos hi]
      rw [← ih]
      rcases fft512_permute_log fuel real imag ((i + 1) % 65536)
          (fft512_permute_body real imag i a) with _ | ⟨x, ps⟩
      · rfl
      · by_cases hj : reverse_bits i 9 > i
        · simp only [if_pos hj, Option.map_some']
        · simp only [if_neg hj, Option.map_some']
    · simp only [if_neg hi, Option.map_some']

theorem fft512_permute_log_snd {α : Type} (real imag : Nat) (fuel : Nat) :
    ∀ (i : Nat) (a : Buf α),
      (fft512_permute_log fuel real imag i a).map (fun r => r.2) =
        fft512_permute_pairs fuel i := by
  induction fuel with
  | zero => intro i a; rfl
  | succ fuel ih =>
    intro i a
    rw [fft512_permute_log, fft512_permute_pairs]
    by_cases hi : i < 512
    · simp only [if_pos hi]
      rw [← ih ((i + 1) % 65536) (fft512_permute_body real imag i a)]
      rcases fft512_permute_log fuel real imag ((i + 1) % 65536)
          (fft512_permute_body real imag i a) with _ | ⟨x, ps⟩
      · rfl
      · by_cases hj : reverse_bits i 9 > i
        · simp only [if_pos hj, Option.map_some']
        · simp only [if_neg hj, Option.map_some']
    · simp only [if_neg hi, Option.map_some']

theorem fft512_inner_log_fst {α : Type} [Add α] [Sub α] [Mul α] [Neg α] (tbl : Nat → α)
    (real imag i halfsize tablestep : Nat) (fuel : Nat) :
    ∀ (j k : Nat) (a : Buf α),
      (fft512_inner_log fuel tbl real imag i halfsize tablestep j k a).map (fun r => r.1) =
        fft512_inner fuel tbl real imag i halfsize tablestep j k a := by
  induction fuel with
  | zero => intro j k a; rfl
  | succ fuel ih =>
    intro j k a
    rw [fft512_inner_log, fft512_inner]
    by_cases hj : j < i + halfsize
    · simp only [if_pos hj]
      rw [← ih]
      rcases fft512_inner_log fuel tbl real imag i halfsize tablestep ((j + 1) % 65536)
          ((k + tablestep) % 65536)
          (butterfly tbl real imag j k ((j + halfsize) % 65536) a) with _ | ⟨x, bs, cs⟩
      · rfl
      · rfl
    · simp only [if_neg hj, Option.map_some']

theorem fft512_blocks_log_fst {α : Type} [Add α] [Sub α] [Mul α] [Neg α] (tbl : Nat → α)
    (real imag size halfsize tablestep gas : Nat) (fuel : Nat) :
    ∀ (i : Nat) (a : Buf α),
      (fft512_blocks_log gas fuel tbl real imag size halfsize tablestep i a).map
          (fun r => r.1) =
        fft512_blocks gas fuel tbl real imag size halfsize tablestep i a := by
  induction fuel with
  | zero => intro i a; rfl
  | succ fuel ih =>
    intro i a
    rw [fft512_blocks_log, fft512_blocks]
    by_cases hi : i < 512
    · simp only [if_pos hi]
      rw [← fft512_inner_log_fst]
      rcases fft512_inner_log gas tbl real imag i halfsize tablestep i 0 a with
        _ | ⟨x, bs, cs⟩
      · rfl
      · simp only [Option.map_some']
        rw [← ih]
        rcases fft512_blocks_log gas fuel tbl real imag size halfsize tablestep
            ((i + size) % 65536) x with _ | ⟨x2, bs2, cs2⟩
        · rfl
        · rfl
    · simp only [if_neg hi, Option.map_some']

theorem fft512_stages_log_fst {α : Type} [Add α] [Sub α] [Mul α] [Neg α] (tbl : Nat → α)
    (real imag gas : Nat) (fuel : Nat) :
    ∀ (size : Nat) (a : Buf α),
      (fft512_stages_log gas fuel tbl real imag size a).map (fun r => r.1) =
        fft512_stages gas fuel tbl real imag size a := by
  induction fuel with
  | zero => intro size a; rfl
  | succ fuel ih =>
    intro size a
    rw [fft512_stages_log, fft512_stages]
    by_cases hs : size ≤ 512
    · simp only [if_pos hs]
      rw [← fft512_blocks_log_fst]
      rcases fft512_blocks_log gas gas tbl real imag size (size / 2) (512 / size) 0 a with
        _ | ⟨x, bs, cs⟩
      · rfl
      · by_cases he : size = 512
        · simp only [if_pos he, Option.map_some']
        · simp only [if_neg he, Option.map_some']
          rw [← ih]
          rcases fft512_stages_log gas fuel tbl real imag (size * 2 % 65536) x with
            _ | ⟨x2, sts, cs2⟩
          · rfl
          · rfl
    · simp only [if_neg hs, Option.map_some']

/-- The instrumented run returns the buffer of the plain run. -/
theorem fft512_log_fst {α : Type} [Add α] [Sub α] [Mul α] [Neg α] (gas : Nat)
    (tbl : Nat → α) (B : Buf α) (dir : Nat) :
    (fft512_log gas tbl B dir).map (fun r => r.1) = fft512 gas tbl B dir := by
  unfold fft512_log fft512
  simp only []
  rw [← fft512_permute_log_fst]
  rcases fft512_permute_log gas (fft512_real dir) (fft512_imag dir) 0 B with _ | ⟨x, ps⟩
  · rfl
  · simp only [Option.map_some']
    rw [← fft512_stages_log_fst]
    rcases fft512_stages_log gas gas tbl (fft512_real dir) (fft512_imag dir) 2 x with
      _ | ⟨x2, sts, cs⟩
    · rfl
    · rfl

/-! ## The instrumented run: what is recorded -/

/-- The innermost loop, resumed after `d` butterflies of the block at `i`, records the
remaining butterflies `(i + e, i + e + h, e * ts)` for `e = d, ..., h - 1`, returns the
buffer obtained by applying them in that order, and computes no counter value above
`512`.  The buffer it starts from is arbitrary. -/
theorem fft512_inner_log_from {α : Type} [Add α] [Sub α] [Mul α] [Neg α] (tbl : Nat → α)
    (real imag h ts i : Nat) (hi : i + 2 * h ≤ 512) (hts : h * ts ≤ 256) (fuel : Nat) :
    ∀ (d : Nat) (a : Buf α), d ≤ h → h + 1 ≤ fuel + d →
      ∃ cs,
        fft512_inner_log fuel tbl real imag i h ts (i + d) (d * ts) a =
          some (apply_bflies tbl real imag
              ((List.range' d (h - d)).map (fun e => (i + e, i + e + h, e * ts))) a,
            (List.range' d (h - d)).map (fun e => (i + e, i + e + h, e * ts)), cs) ∧
        ∀ v, v ∈ cs → v ≤ 512 := by
  induction fuel with
  | zero => intro d a h1 h2; omega
  | succ fuel ih =>
    intro d a h1 h2
    rw [fft512_inner_log]
    by_cases hd : d < h
    · have hc : i + d < i + h := by omega
      have hm1 : (i + d + h) % 65536 = i + d + h := Nat.mod_eq_of_lt (by omega)
      have hm2 : (i + d + 1) % 65536 = i + (d + 1) := Nat.mod_eq_of_lt (by omega)
      have hk : (d + 1) * ts ≤ h * ts := Nat.mul_le_mul_right ts (by omega)
      have hk2 : d * ts + ts = (d + 1) * ts := by ring
      have hm3 : (d * ts + ts) % 65536 = (d + 1) * ts := by
        rw [hk2]
        exact Nat.mod_eq_of_lt (by omega)
      have hlen : h - d = (h - (d + 1)) + 1 := by omega
      obtain ⟨cs, hrec, hb⟩ := ih (d + 1)
        (butterfly tbl real imag (i + d) (d * ts) (i + d + h) a) (by omega) (by omega)
      refine ⟨(i + d + h) :: (i + d + 1) :: (d * ts + ts) :: cs, ?_, ?_⟩
      · simp only [if_pos hc, hm1, hm2, hm3, hrec]
        rw [hlen, List.range'_succ, List.map_cons]
        rfl
      · intro v hv
        simp only [List.mem_cons] at hv
        rcases hv with rfl | rfl | rfl | hv
        · omega
        · omega
        · omega
        · exact hb v hv
    · have hc : ¬ i + d < i + h := by omega
      have hdh : d = h := by omega
      refine ⟨[], ?_, ?_⟩
      · rw [if_neg hc, hdh, Nat.sub_self, List.range'_zero, List.map_nil]
        rfl
      · intro v hv
        simp at hv

theorem bfly_of_block (h ts b e : Nat) (he : e < h) :
    bfly_of h ts (b * h + e) = (b * (2 * h) + e, b * (2 * h) + e + h, e * ts) := by
  have h1 : (b * h + e) / h = b := by
    rw [Nat.add_comm, Nat.add_mul_div_right _ _ (by omega), Nat.div_eq_of_lt he, Nat.zero_add]
  have h2 : (b * h + e) % h = e := by
    rw [Nat.add_comm, Nat.add_mul_mod_self_right, Nat.mod_eq_of_lt he]
  simp only [bfly_of, h1, h2]

theorem inner_list_eq (h ts b : Nat) :
    (List.range' 0 (h - 0)).map (fun e => (b * (2 * h) + e, b * (2 * h) + e + h, e * ts)) =
      (List.range' (b * h) h).map (bfly_of h ts) := by
  rw [Nat.sub_zero, List.range'_eq_map_range (b * h), ← List.range_eq_range', List.map_map]
  apply List.map_congr_left
  intro e he
  rw [List.mem_range] at he
  simp only [Function.comp]
  rw [bfly_of_block h ts b e he]

theorem apply_bflies_append {α : Type} [Add α] [Sub α] [Mul α] [Neg α] (tbl : Nat → α)
    (real imag : Nat) (bs1 bs2 : List (Nat × Nat × Nat)) (a : Buf α) :
    apply_bflies tbl real imag (bs1 ++ bs2) a =
      apply_bflies tbl real imag bs2 (apply_bflies tbl real imag bs1 a) := by
  simp only [apply_bflies, List.foldl_append]

/-- The block loop of the stage with half size `h`, resumed after `b` blocks, records the
butterflies number `b * h, ..., 255` of the stage, returns the buffer obtained by applying
them in that order, and computes no counter value above `512`. -/
theorem fft512_blocks_log_from {α : Type} [Add α] [Sub α] [Mul α] [Neg α] (tbl : Nat → α)
    (real imag h ts nb gas : Nat) (hnb : nb * (2 * h) = 512) (hts : h * ts ≤ 256)
    (hgas : h + 1 ≤ gas) (fuel : Nat) :
    ∀ (b : Nat) (a : Buf α), b ≤ nb → nb + 1 ≤ fuel + b →
      ∃ cs,
        fft512_blocks_log gas fuel tbl real imag (2 * h) h ts (b * (2 * h)) a =
          some (apply_bflies tbl real imag
              ((List.range' (b * h) ((nb - b) * h)).map (bfly_of h ts)) a,
            (List.range' (b * h) ((nb - b) * h)).map (bfly_of h ts), cs) ∧
        ∀ v, v ∈ cs → v ≤ 512 := by
  induction fuel with
  | zero => intro b a h1 h2; omega
  | succ fuel ih =>
    intro b a h1 h2
    rw [fft512_blocks_log]
    by_cases hb : b < nb
    · have hle : (b + 1) * (2 * h) ≤ nb * (2 * h) := Nat.mul_le_mul_right _ (by omega)
      have hsucc : (b + 1) * (2 * h) = b * (2 * h) + 2 * h := by ring
      have hpos : 0 < 2 * h := by
        rcases Nat.eq_zero_or_pos (2 * h) with h0 | h0
        · rw [h0] at hnb; omega
        · exact h0
      have hlt : b * (2 * h) < 512 := by omega
      have hmod : (b * (2 * h) + 2 * h) % 65536 = (b + 1) * (2 * h) := by
        rw [hsucc]
        exact Nat.mod_eq_of_lt (by omega)
      obtain ⟨cs1, hin, hb1⟩ := fft512_inner_log_from tbl real imag h ts (b * (2 * h))
        (by omega) hts gas 0 a (by omega) (by omega)
      rw [Nat.add_zero, Nat.zero_mul, inner_list_eq] at hin
      obtain ⟨cs2, hrec, hb2⟩ := ih (b + 1)
        (apply_bflies tbl real imag ((List.range' (b * h) h).map (bfly_of h ts)) a)
        (by omega) (by omega)
      have hsplit : List.range' (b * h) ((nb - b) * h) =
          List.range' (b * h) h ++ List.range' ((b + 1) * h) ((nb - (b + 1)) * h) := by
        have e1 : (nb - b) * h = (nb - (b + 1)) * h + h := by
          have : nb - b = (nb - (b + 1)) + 1 := by omega
          rw [this]; ring
        have e2 : (b + 1) * h = b * h + h := by ring
        rw [e1, e2]
        exact (List.range'_append_1 (b * h) h _).symm
      refine ⟨b * (2 * h) :: 0 :: (cs1 ++ (b * (2 * h) + 2 * h) :: cs2), ?_, ?_⟩
      · simp only [if_pos hlt, hin, hmod, hrec]
        rw [hsplit, List.map_append, apply_bflies_append]
      · intro v hv
        simp only [List.mem_cons, List.mem_append] at hv
        rcases hv with rfl | rfl | hv | rfl | hv
        · omega
        · omega
        · exact hb1 v hv
        · omega
        · exact hb2 v hv
    · have hbn : b = nb := by omega
      have hge : ¬ b * (2 * h) < 512 := by rw [hbn, hnb]; omega
      refine ⟨[], ?_, ?_⟩
      · rw [if_neg hge, hbn, Nat.sub_self, Nat.zero_mul, List.range'_zero, List.map_nil]
        rfl
      · intro v hv
        simp at hv

/-- The block loop of a whole stage records the 256 butterflies of `stage_log_of` and
returns the buffer obtained by applying them in that order. -/
theorem fft512_blocks_log_stage {α : Type} [Add α] [Sub α] [Mul α] [Neg α] (tbl : Nat → α)
    (real imag h ts nb gas : Nat) (hnb : nb * (2 * h) = 512) (hnbh : nb * h = 256)
    (hts : h * ts ≤ 256) (hgas : h + 1 ≤ gas) (hgas2 : nb + 1 ≤ gas) (a : Buf α) :
    ∃ cs,
      fft512_blocks_log gas gas tbl real imag (2 * h) h ts 0 a =
        some (apply_bflies tbl real imag (stage_log_of h ts).bflies a,
          (stage_log_of h ts).bflies, cs) ∧
      ∀ v, v ∈ cs → v ≤ 512 := by
  obtain ⟨cs, h1, h2⟩ := fft512_blocks_log_from tbl real imag h ts nb gas hnb hts hgas gas 0 a
    (by omega) (by omega)
  simp only [Nat.zero_mul, Nat.sub_zero, hnbh] at h1
  rw [← List.range_eq_range'] at h1
  exact ⟨cs, h1, h2⟩

/-- The last turn of the stage loop (`size = 512`). -/
theorem fft512_stages_log_last {α : Type} [Add α] [Sub α] [Mul α] [Neg α] (tbl : Nat → α)
    (real imag gas : Nat) (hgas : 257 ≤ gas) (a : Buf α) (fuel : Nat) (hfuel : 1 ≤ fuel) :
    ∃ out cs,
      fft512_stages_log gas fuel tbl real imag 512 a = some (out, [stage_log_of 256 1], cs) ∧
      ∀ v, v ∈ cs → v ≤ 512 := by
  obtain ⟨f, rfl⟩ : ∃ f, fuel = f + 1 := ⟨fuel - 1, by omega⟩
  obtain ⟨cs, h1, h2⟩ := fft512_blocks_log_stage tbl real imag 256 1 1 gas (by norm_num)
    (by norm_num) (by norm_num) (by omega) (by omega) a
  have h1' : fft512_blocks_log gas gas tbl real imag 512 (512 / 2) (512 / 512) 0 a =
      some (apply_bflies tbl real imag (stage_log_of 256 1).bflies a,
        (stage_log_of 256 1).bflies, cs) := h1
  refine ⟨apply_bflies tbl real imag (stage_log_of 256 1).bflies a, 0 :: cs, ?_, ?_⟩
  · rw [fft512_stages_log]
    simp only [if_pos (le_refl 512), h1', if_true]
    rfl
  · intro v hv
    simp only [List.mem_cons] at hv
    rcases hv with rfl | hv
    · omega
    · exact h2 v hv

/-- An earlier turn of the stage loop: the stage of size `2 * h` is recorded and the loop
goes on with the doubled size. -/
theorem fft512_stages_log_prepend {α : Type} [Add α] [Sub α] [Mul α] [Neg α]
    (tbl : Nat → α) (real imag gas : Nat) (hgas : 257 ≤ gas)
    (h ts nb size2 : Nat) (hnb : nb * (2 * h) = 512) (hnbh : nb * h = 256)
    (hts : h * ts ≤ 256) (htab : 512 / (2 * h) = ts) (hh : h ≤ 128) (hnb2 : nb ≤ 256)
    (hsize2 : size2 = 2 * h * 2)
    (rest : List StageLog) (n : Nat)
    (hnext : ∀ (a : Buf α) (fuel : Nat), n ≤ fuel →
      ∃ out cs, fft512_stages_log gas fuel tbl real imag size2 a = some (out, rest, cs) ∧
        ∀ v, v ∈ cs → v ≤ 512) :
    ∀ (a : Buf α) (fuel : Nat), n + 1 ≤ fuel →
      ∃ out cs,
        fft512_stages_log gas fuel tbl real imag (2 * h) a =
          some (out, stage_log_of h ts :: rest, cs) ∧
        ∀ v, v ∈ cs → v ≤ 512 := by
  intro a fuel hfuel
  obtain ⟨f, rfl⟩ : ∃ f, fuel = f + 1 := ⟨fuel - 1, by omega⟩
  obtain ⟨cs, h1, h2⟩ := fft512_blocks_log_stage tbl real imag h ts nb gas hnb hnbh hts
    (by omega) (by omega) a
  obtain ⟨out, cs2, h3, h4⟩ := hnext
    (apply_bflies tbl real imag (stage_log_of h ts).bflies a) f (by omega)
  have hle : 2 * h ≤ 512 := by omega
  have hne : ¬ 2 * h = 512 := by omega
  have hhalf : 2 * h / 2 = h := by omega
  have hmod : (2 * h * 2) % 65536 = size2 := by
    rw [hsize2]
    exact Nat.mod_eq_of_lt (by omega)
  refine ⟨out, 0 :: (cs ++ (2 * h * 2) :: cs2), ?_, ?_⟩
  · rw [fft512_stages_log]
    simp only [if_pos hle, if_neg hne, hhalf, htab, h1, hmod, h3]
    rfl
  · intro v hv
    simp only [List.mem_cons, List.mem_append] at hv
    rcases hv with rfl | hv | rfl | hv
    · omega
    · exact h2 v hv
    · omega
    · exact h4 v hv

/-- With enough fuel the instrumented stage loop records exactly the nine stages and
computes no counter value above `512`, whatever the buffer, table and channel indices. -/
theorem fft512_stages_log_eq {α : Type} [Add α] [Sub α] [Mul α] [Neg α] (tbl : Nat → α)
    (real imag gas : Nat) (hgas : 257 ≤ gas) :
    ∀ (a : Buf α) (fuel : Nat), 9 ≤ fuel →
      ∃ out cs,
        fft512_stages_log gas fuel tbl real imag 2 a = some (out, nine_stage_logs, cs) ∧
        ∀ v, v ∈ cs → v ≤ 512 := by
  have s9 := fun (a : Buf α) (fuel : Nat) (hf : 1 ≤ fuel) =>
    fft512_stages_log_last tbl real imag gas hgas a fuel hf
  have s8 := fft512_stages_log_prepend tbl real imag gas hgas 128 2 2 512 (by norm_num)
    (by norm_num) (by norm_num) (by norm_num) (by norm_num) (by norm_num) (by norm_num) _ 1 s9
  have s7 := fft512_stages_log_prepend tbl real imag gas hgas 64 4 4 (2 * 128) (by norm_num)
    (by norm_num) (by norm_num) (by norm_num) (by norm_num) (by norm_num) (by norm_num) _ 2 s8
  have s6 := fft512_stages_log_prepend tbl real imag gas hgas 32 8 8 (2 * 64) (by norm_num)
    (by norm_num) (by norm_num) (by norm_num) (by norm_num) (by norm_num) (by norm_num) _ 3 s7
  have s5 := fft512_stages_log_prepend tbl real imag gas hgas 16 16 16 (2 * 32) (by norm_num)
    (by norm_num) (by norm_num) (by norm_num) (by norm_num) (by norm_num) (by norm_num) _ 4 s6
  have s4 := fft512_stages_log_prepend tbl real imag gas hgas 8 32 32 (2 * 16) (by norm_num)
    (by norm_num) (by norm_num) (by norm_num) (by norm_num) (by norm_num) (by norm_num) _ 5 s5
  have s3 := fft512_stages_log_prepend tbl real imag gas hgas 4 64 64 (2 * 8) (by norm_num)
    (by norm_num) (by norm_num) (by norm_num) (by norm_num) (by norm_num) (by norm_num) _ 6 s4
  have s2 := fft512_stages_log_prepend tbl real imag gas hgas 2 128 128 (2 * 4) (by norm_num)
    (by norm_num) (by norm_num) (by norm_num) (by norm_num) (by norm_num) (by norm_num) _ 7 s3
  have s1 := fft512_stages_log_prepend tbl real imag gas hgas 1 256 256 (2 * 2) (by norm_num)
    (by norm_num) (by norm_num) (by norm_num) (by norm_num) (by norm_num) (by norm_num) _ 8 s2
  intro a fuel hfuel
  exact s1 a fuel hfuel

/-- With at least 513 units of fuel the instrumented `fft512` returns the buffer of the
plain run, the pairs recorded by `fft512_permute_pairs`, the records of the nine stages,
and counter values that never exceed `512`. -/
theorem fft512_log_eq {α : Type} [Add α] [Sub α] [Mul α] [Neg α] (gas : Nat)
    (tbl : Nat → α) (B : Buf α) (dir : Nat) (hgas : 513 ≤ gas) :
    ∃ out cs,
      fft512_log gas tbl B dir =
        some (out,
          ((List.range' 0 (512 - 0)).filter (fun i => decide (reverse_bits i 9 > i))).map
            (fun i => (i, reverse_bits i 9)),
          nine_stage_logs, cs) ∧
      fft512 gas tbl B dir = some out ∧
      ∀ v, v ∈ cs → v ≤ 512 := by
  have hperm := fft512_permute_eq (fft512_real dir) (fft512_imag dir) B
    (fft512_channels_ne dir) gas hgas
  have hpairs := fft512_permute_pairs_from gas 0 (by omega) (by omega)
  have e1 := fft512_permute_log_fst (fft512_real dir) (fft512_imag dir) gas 0 B
  have e2 := fft512_permute_log_snd (fft512_real dir) (fft512_imag dir) gas 0 B
  rw [hperm] at e1
  rw [hpairs] at e2
  rcases hpl : fft512_permute_log gas (fft512_real dir) (fft512_imag dir) 0 B with
    _ | ⟨x, ps⟩
  · rw [hpl] at e1
    simp at e1
  · rw [hpl] at e1 e2
    simp only [Option.map_some', Option.some.injEq] at e1 e2
    obtain ⟨out, cs, h1, h2⟩ := fft512_stages_log_eq tbl (fft512_real dir) (fft512_imag dir)
      gas (by omega) x gas (by omega)
    have hlog : fft512_log gas tbl B dir =
        some (out,
          ((List.range' 0 (512 - 0)).filter (fun i => decide (reverse_bits i 9 > i))).map
            (fun i => (i, reverse_bits i 9)),
          nine_stage_logs, 2 :: cs) := by
      unfold fft512_log
      simp only [hpl, h1, e2]
    refine ⟨out, 2 :: cs, hlog, ?_, ?_⟩
    · rw [← fft512_log_fst, hlog]
      rfl
    · intro v hv
      simp only [List.mem_cons] at hv
      rcases hv with rfl | hv
      · omega
      · exact h2 v hv

/-! ## The stage records: bounds, partition, independence of the order -/

theorem nine_stage_logs_mem (st : StageLog) (hst : st ∈ nine_stage_logs) :
    st = stage_log_of 1 256 ∨ st = stage_log_of 2 128 ∨ st = stage_log_of 4 64 ∨
    st = stage_log_of 8 32 ∨ st = stage_log_of 16 16 ∨ st = stage_log_of 32 8 ∨
    st = stage_log_of 64 4 ∨ st = stage_log_of 128 2 ∨ st = stage_log_of 256 1 := by
  simpa [nine_stage_logs] using hst

theorem stage_log_of_mem (h ts : Nat) (t : Nat × Nat × Nat) :
    t ∈ (stage_log_of h ts).bflies ↔ ∃ q, q < 256 ∧ bfly_of h ts q = t := by
  simp only [stage_log_of, List.mem_map, List.mem_range]

/-- Every butterfly of the nine stages reads the table at `k <= 255` and `k + 128 <= 383`
and touches two distinct buffer indices `j < l = j + halfsize <= 511`. -/
theorem nine_stage_logs_bounds (st : StageLog) (hst : st ∈ nine_stage_logs)
    (j l k : Nat) (hm : (j, l, k) ∈ st.bflies) :
    k ≤ 255 ∧ k + 128 ≤ 383 ∧ j < l ∧ l = j + st.halfsize ∧ l ≤ 511 := by
  rcases nine_stage_logs_mem st hst with rfl | rfl | rfl | rfl | rfl | rfl | rfl | rfl | rfl
  all_goals
    rw [stage_log_of_mem] at hm
    obtain ⟨q, hq, he⟩ := hm
    simp only [bfly_of, Prod.mk.injEq] at he
    obtain ⟨e1, e2, e3⟩ := he
    simp only [stage_log_of]
    omega

/-- The butterflies of a stage partition the buffer indices, provided the index
arithmetic of the stage is as expected (checked for each of the nine stages). -/
theorem stage_log_of_partition (h ts : Nat)
    (harith : ∀ p q, p < 512 → q < 256 →
      ((q / h * (2 * h) + q % h = p ∨ q / h * (2 * h) + q % h + h = p) ↔
        q = p / (2 * h) * h + p % h) ∧ p / (2 * h) * h + p % h < 256)
    (p : Nat) (hp : p < 512) :
    ∃! t, t ∈ (stage_log_of h ts).bflies ∧ (t.1 = p ∨ t.2.1 = p) := by
  refine ⟨bfly_of h ts (p / (2 * h) * h + p % h), ⟨?_, ?_⟩, ?_⟩
  · rw [stage_log_of_mem]
    exact ⟨_, (harith p 0 hp (by norm_num)).2, rfl⟩
  · exact ((harith p _ hp (harith p 0 hp (by norm_num)).2).1).2 rfl
  · rintro t ⟨ht, hpt⟩
    rw [stage_log_of_mem] at ht
    obtain ⟨q, hq, rfl⟩ := ht
    have hq0 := ((harith p q hp hq).1).1 hpt
    rw [hq0]

theorem stage_log_of_nodup (h ts : Nat)
    (hinj : ∀ q q2, q < 256 → q2 < 256 →
      q / h * (2 * h) + q % h = q2 / h * (2 * h) + q2 % h → q = q2) :
    (stage_log_of h ts).bflies.Nodup := by
  apply List.Nodup.map_on
  · intro q hq q2 hq2 he
    rw [List.mem_range] at hq hq2
    simp only [bfly_of, Prod.mk.injEq] at he
    exact hinj q q2 hq hq2 he.1
  · exact List.nodup_range 256

/-- In each of the nine stages every buffer index `0..511` belongs to exactly one
butterfly, and no butterfly occurs twice. -/
theorem nine_stage_logs_partition (st : StageLog) (hst : st ∈ nine_stage_logs) :
    st.bflies.Nodup ∧
    ∀ p, p < 512 → ∃! t, t ∈ st.bflies ∧ (t.1 = p ∨ t.2.1 = p) := by
  rcases nine_stage_logs_mem st hst with rfl | rfl | rfl | rfl | rfl | rfl | rfl | rfl | rfl
  all_goals
    refine ⟨stage_log_of_nodup _ _ (by intro q q2 hq hq2 he; omega), ?_⟩
    intro p hp
    exact stage_log_of_partition _ _ (by intro p q hp hq; omega) p hp

theorem butterfly_untouched {α : Type} [Add α] [Sub α] [Mul α] [Neg α] (tbl : Nat → α)
    (real imag j k l : Nat) (a : Buf α) (hne : real ≠ imag) (hjl : j ≠ l) (p c : Nat)
    (hpj : p ≠ j) (hpl : p ≠ l) :
    butterfly tbl real imag j k l a p c = a p c := by
  rw [butterfly_apply tbl real imag j k l a hne hjl p c]
  simp only [hpj, hpl, false_and, if_false]

/-- Two butterflies on disjoint pairs of indices commute. -/
theorem butterfly_comm {α : Type} [Add α] [Sub α] [Mul α] [Neg α] (tbl : Nat → α)
    (real imag : Nat) (hne : real ≠ imag) (j1 k1 l1 j2 k2 l2 : Nat) (h1 : j1 ≠ l1)
    (h2 : j2 ≠ l2) (d1 : j1 ≠ j2) (d2 : j1 ≠ l2) (d3 : l1 ≠ j2) (d4 : l1 ≠ l2) (a : Buf α) :
    butterfly tbl real imag j2 k2 l2 (butterfly tbl real imag j1 k1 l1 a) =
      butterfly tbl real imag j1 k1 l1 (butterfly tbl real imag j2 k2 l2 a) := by
  have u1 : ∀ c, butterfly tbl real imag j1 k1 l1 a j2 c = a j2 c :=
    fun c => butterfly_untouched tbl real imag j1 k1 l1 a hne h1 j2 c (Ne.symm d1) (Ne.symm d3)
  have u2 : ∀ c, butterfly tbl real imag j1 k1 l1 a l2 c = a l2 c :=
    fun c => butterfly_untouched tbl real imag j1 k1 l1 a hne h1 l2 c (Ne.symm d2) (Ne.symm d4)
  have u3 : ∀ c, butterfly tbl real imag j2 k2 l2 a j1 c = a j1 c :=
    fun c => butterfly_untouched tbl real imag j2 k2 l2 a hne h2 j1 c d1 d2
  have u4 : ∀ c, butterfly tbl real imag j2 k2 l2 a l1 c = a l1 c :=
    fun c => butterfly_untouched tbl real imag j2 k2 l2 a hne h2 l1 c d3 d4
  funext p c
  conv_lhs => rw [butterfly_apply tbl real imag j2 k2 l2 _ hne h2 p c]
  conv_rhs => rw [butterfly_apply tbl real imag j1 k1 l1 _ hne h1 p c]
  simp only [tw_re, tw_im, u1, u2, u3, u4]
  by_cases e1 : p = l1 ∨ p = j1
  · have n1 : p ≠ l2 := by rcases e1 with e | e <;> rw [e] <;> assumption
    have n2 : p ≠ j2 := by rcases e1 with e | e <;> rw [e] <;> assumption
    simp only [n1, n2, false_and, if_false]
    rw [butterfly_untouched tbl real imag j2 k2 l2 a hne h2 p c n2 n1,
      butterfly_apply tbl real imag j1 k1 l1 a hne h1 p c]
    simp only [tw_re, tw_im]
  · have n1 : p ≠ l1 := fun e => e1 (Or.inl e)
    have n2 : p ≠ j1 := fun e => e1 (Or.inr e)
    simp only [n1, n2, false_and, if_false]
    rw [butterfly_untouched tbl real imag j1 k1 l1 a hne h1 p c n2 n1,
      butterfly_apply tbl real imag j2 k2 l2 a hne h2 p c]
    simp only [tw_re, tw_im]

/-- The butterflies of each of the nine stages can be applied in any order: every
permutation of the recorded list gives the same buffer. -/
theorem nine_stage_logs_order_independent {α : Type} [Add α] [Sub α] [Mul α] [Neg α]
    (tbl : Nat → α) (real imag : Nat) (hne : real ≠ imag) (st : StageLog)
    (hst : st ∈ nine_stage_logs) (bs : List (Nat × Nat × Nat)) (hperm : bs.Perm st.bflies)
    (a : Buf α) :
    apply_bflies tbl real imag bs a = apply_bflies tbl real imag st.bflies a := by
  unfold apply_bflies
  apply List.Perm.foldl_eq' hperm
  intro x hx y hy z
  have hxs : x ∈ st.bflies := hperm.subset hx
  have hys : y ∈ st.bflies := hperm.subset hy
  by_cases hxy : x = y
  · rw [hxy]
  · obtain ⟨j1, l1, k1⟩ := x
    obtain ⟨j2, l2, k2⟩ := y
    have b1 := nine_stage_logs_bounds st hst j1 l1 k1 hxs
    have b2 := nine_stage_logs_bounds st hst j2 l2 k2 hys
    have huniq := (nine_stage_logs_partition st hst).2
    have hdisj : ∀ p, p < 512 → (j1 = p ∨ l1 = p) → (j2 = p ∨ l2 = p) → False := by
      intro p hp hp1 hp2
      obtain ⟨t, _, ht⟩ := huniq p hp
      have e1 := ht (j1, l1, k1) ⟨hxs, hp1⟩
      have e2 := ht (j2, l2, k2) ⟨hys, hp2⟩
      exact hxy (e1.trans e2.symm)
    have d1 : j1 ≠ j2 := fun e => hdisj j1 (by omega) (Or.inl rfl) (Or.inl e.symm)
    have d2 : j1 ≠ l2 := fun e => hdisj j1 (by omega) (Or.inl rfl) (Or.inr e.symm)
    have d3 : l1 ≠ j2 := fun e => hdisj l1 (by omega) (Or.inr rfl) (Or.inl e.symm)
    have d4 : l1 ≠ l2 := fun e => hdisj l1 (by omega) (Or.inr rfl) (Or.inr e.symm)
    exact butterfly_comm tbl real imag hne j1 k1 l1 j2 k2 l2 (by omega) (by omega)
      d1 d2 d3 d4 z

/-- The block loop run with the parameters of one of the nine stages executes exactly the
recorded butterflies of that stage, in the recorded order. -/
theorem nine_stage_logs_run {α : Type} [Add α] [Sub α] [Mul α] [Neg α] (tbl : Nat → α)
    (real imag gas : Nat) (hgas : 257 ≤ gas) (st : StageLog) (hst : st ∈ nine_stage_logs)
    (a : Buf α) :
    ∃ cs,
      fft512_blocks_log gas gas tbl real imag st.size st.halfsize st.tablestep 0 a =
        some (apply_bflies tbl real imag st.bflies a, st.bflies, cs) ∧
      ∀ v, v ∈ cs → v ≤ 512 := by
  rcases nine_stage_logs_mem st hst with rfl | rfl | rfl | rfl | rfl | rfl | rfl | rfl | rfl
  · exact fft512_blocks_log_stage tbl real imag 1 256 256 gas (by norm_num) (by norm_num)
      (by norm_num) (by omega) (by omega) a
  · exact fft512_blocks_log_stage tbl real imag 2 128 128 gas (by norm_num) (by norm_num)
      (by norm_num) (by omega) (by omega) a
  · exact fft512_blocks_log_stage tbl real imag 4 64 64 gas (by norm_num) (by norm_num)
      (by norm_num) (by omega) (by omega) a
  · exact fft512_blocks_log_stage tbl real imag 8 32 32 gas (by norm_num) (by norm_num)
      (by norm_num) (by omega) (by omega) a
  · exact fft512_blocks_log_stage tbl real imag 16 16 16 gas (by norm_num) (by norm_num)
      (by norm_num) (by omega) (by omega) a
  · exact fft512_blocks_log_stage tbl real imag 32 8 8 gas (by norm_num) (by norm_num)
      (by norm_num) (by omega) (by omega) a
  · exact fft512_blocks_log_stage tbl real imag 64 4 4 gas (by norm_num) (by norm_num)
      (by norm_num) (by omega) (by omega) a
  · exact fft512_blocks_log_stage tbl real imag 128 2 2 gas (by norm_num) (by norm_num)
      (by norm_num) (by omega) (by omega) a
  · exact fft512_blocks_log_stage tbl real imag 256 1 1 gas (by norm_num) (by norm_num)
      (by norm_num) (by omega) (by omega) a

theorem nine_stage_logs_lengths :
    nine_stage_logs.length = 9 ∧
    (∀ st, st ∈ nine_stage_logs → st.bflies.length = 256) ∧
    (nine_stage_logs.map (fun st => st.bflies.length)).sum = 2304 := by
  refine ⟨rfl, ?_, ?_⟩
  · intro st hst
    rcases nine_stage_logs_mem st hst with rfl | rfl | rfl | rfl | rfl | rfl | rfl | rfl | rfl
    all_goals simp [stage_log_of]
  · simp [nine_stage_logs, stage_log_of]

theorem nine_stage_logs_params :
    nine_stage_logs.map (fun st => (st.size, st.halfsize, st.tablestep)) =
      [(2, 1, 256), (4, 2, 128), (8, 4, 64), (16, 8, 32), (32, 16, 16), (64, 32, 8),
       (128, 64, 4), (256, 128, 2), (512, 256, 1)] ∧
    ∀ st, st ∈ nine_stage_logs →
      st.halfsize = st.size / 2 ∧ st.tablestep = 512 / st.size := by
  refine ⟨rfl, ?_⟩
  intro st hst
  rcases nine_stage_logs_mem st hst with rfl | rfl | rfl | rfl | rfl | rfl | rfl | rfl | rfl
  all_goals exact ⟨by decide, by decide⟩

theorem permute_pairs_bounds (i j : Nat)
    (h : (i, j) ∈ ((List.range' 0 (512 - 0)).filter
      (fun i => decide (reverse_bits i 9 > i))).map (fun i => (i, reverse_bits i 9))) :
    i < j ∧ j = reverse_bits i 9 ∧ j ≤ 511 := by
  simp only [List.mem_map, List.mem_filter, List.mem_range', decide_eq_true_eq,
    Prod.mk.injEq] at h
  obtain ⟨a, ⟨⟨k, hk, rfl⟩, h2⟩, rfl, rfl⟩ := h
  have h3 := reverse_bits_nine_lt (0 + 1 * k) (by omega)
  exact ⟨h2, rfl, by omega⟩

/-! ## The coded table against the exact sines -/

theorem cos_half_bounds (x lo hi lo2 hi2 : ℝ) (hx : 0 ≤ Real.cos x)
    (h1 : lo ≤ Real.cos (2 * x)) (h2 : Real.cos (2 * x) ≤ hi)
    (hhi2 : 0 ≤ hi2) (c1 : lo2 ^ 2 ≤ 1 / 2 + lo / 2)
    (c2 : 1 / 2 + hi / 2 ≤ hi2 ^ 2) :
    lo2 ≤ Real.cos x ∧ Real.cos x ≤ hi2 := by
  have hsq := Real.cos_sq x
  constructor
  · by_contra hcon
    push_neg at hcon
    nlinarith
  · by_contra hcon
    push_neg at hcon
    nlinarith

theorem sin_half_bounds (x lo hi lo2 hi2 : ℝ) (hx : 0 ≤ Real.sin x)
    (h1 : lo ≤ Real.cos (2 * x)) (h2 : Real.cos (2 * x) ≤ hi)
    (hhi2 : 0 ≤ hi2) (c1 : lo2 ^ 2 ≤ 1 / 2 - hi / 2)
    (c2 : 1 / 2 - lo / 2 ≤ hi2 ^ 2) :
    lo2 ≤ Real.sin x ∧ Real.sin x ≤ hi2 := by
  have hsq := Real.cos_sq x
  have hone := Real.sin_sq_add_cos_sq x
  constructor
  · by_contra hcon
    push_neg at hcon
    nlinarith
  · by_contra hcon
    push_neg at hcon
    nlinarith

/-- Rational enclosures of `cos(pi / 2^n)` for `n = 2, ..., 8` and of `sin(pi / 256)`, to
29 decimals, from `cos(pi / 2) = 0` and the half-angle formulas. -/
theorem sin_cos_pi_div_256_bounds :
    (12271538285719926079408261934 : ℝ) / 10 ^ 30 ≤ Real.sin (Real.pi / 256) ∧
    Real.sin (Real.pi / 256) ≤ (12271538285719926079408261975 : ℝ) / 10 ^ 30 ∧
    (999924701839144540921646491196 : ℝ) / 10 ^ 30 ≤ Real.cos (Real.pi / 256) ∧
    Real.cos (Real.pi / 256) ≤ (999924701839144540921646491197 : ℝ) / 10 ^ 30 := by
  have hpi := Real.pi_pos
  have c2 : (0 : ℝ) ≤ Real.cos (2 * (Real.pi / 4)) ∧ Real.cos (2 * (Real.pi / 4)) ≤ 0 := by
    rw [show 2 * (Real.pi / 4) = Real.pi / 2 by ring, Real.cos_pi_div_two]
    exact ⟨le_refl 0, le_refl 0⟩
  have c4 := cos_half_bounds (Real.pi / 4) 0 0
    (707106781186547524400844362104 / 10 ^ 30) (707106781186547524400844362105 / 10 ^ 30)
    (Real.cos_nonneg_of_mem_Icc ⟨by linarith, by linarith⟩) c2.1 c2.2
    (by norm_num) (by norm_num) (by norm_num)
  have r4 : (707106781186547524400844362104 / 10 ^ 30 : ℝ) ≤ Real.cos (2 * (Real.pi / 8)) ∧
      Real.cos (2 * (Real.pi / 8)) ≤ (707106781186547524400844362105 / 10 ^ 30 : ℝ) := by
    rw [show 2 * (Real.pi / 8) = Real.pi / 4 by ring]
    exact c4
  have c8 := cos_half_bounds (Real.pi / 8) (707106781186547524400844362104 / 10 ^ 30) (707106781186547524400844362105 / 10 ^ 30)
    (923879532511286756128183189396 / 10 ^ 30) (923879532511286756128183189397 / 10 ^ 30)
    (Real.cos_nonneg_of_mem_Icc ⟨by linarith, by linarith⟩) r4.1 r4.2
    (by norm_num) (by norm_num) (by norm_num)
  have r8 : (923879532511286756128183189396 / 10 ^ 30 : ℝ) ≤ Real.cos (2 * (Real.pi / 16)) ∧
      Real.cos (2 * (Real.pi / 16)) ≤ (923879532511286756128183189397 / 10 ^ 30 : ℝ) := by
    rw [show 2 * (Real.pi / 16) = Real.pi / 8 by ring]
    exact c8
  have c16 := cos_half_bounds (Real.pi / 16) (923879532511286756128183189396 / 10 ^ 30) (923879532511286756128183189397 / 10 ^ 30)
    (980785280403230449126182236134 / 10 ^ 30) (980785280403230449126182236135 / 10 ^ 30)
    (Real.cos_nonneg_of_mem_Icc ⟨by linarith, by linarith⟩) r8.1 r8.2
    (by norm_num) (by norm_num) (by norm_num)
  have r16 : (980785280403230449126182236134 / 10 ^ 30 : ℝ) ≤ Real.cos (2 * (Real.pi / 32)) ∧
      Real.cos (2 * (Real.pi / 32)) ≤ (980785280403230449126182236135 / 10 ^ 30 : ℝ) := by
    rw [show 2 * (Real.pi / 32) = Real.pi / 16 by ring]
    exact c16
  have c32 := cos_half_bounds (Real.pi / 32) (980785280403230449126182236134 / 10 ^ 30) (980785280403230449126182236135 / 10 ^ 30)
    (995184726672196886244836953109 / 10 ^ 30) (995184726672196886244836953110 / 10 ^ 30)
    (Real.cos_nonneg_of_mem_Icc ⟨by linarith, by linarith⟩) r16.1 r16.2
    (by norm_num) (by norm_num) (by norm_num)
  have r32 : (995184726672196886244836953109 / 10 ^ 30 : ℝ) ≤ Real.cos (2 * (Real.pi / 64)) ∧
      Real.cos (2 * (Real.pi / 64)) ≤ (995184726672196886244836953110 / 10 ^ 30 : ℝ) := by
    rw [show 2 * (Real.pi / 64) = Real.pi / 32 by ring]
    exact c32
  have c64 := cos_half_bounds (Real.pi / 64) (995184726672196886244836953109 / 10 ^ 30) (995184726672196886244836953110 / 10 ^ 30)
    (998795456205172392714771604758 / 10 ^ 30) (998795456205172392714771604760 / 10 ^ 30)
    (Real.cos_nonneg_of_mem_Icc ⟨by linarith, by linarith⟩) r32.1 r32.2
    (by norm_num) (by norm_num) (by norm_num)
  have r64 : (998795456205172392714771604758 / 10 ^ 30 : ℝ) ≤ Real.cos (2 * (Real.pi / 128)) ∧
      Real.cos (2 * (Real.pi / 128)) ≤ (998795456205172392714771604760 / 10 ^ 30 : ℝ) := by
    rw [show 2 * (Real.pi / 128) = Real.pi / 64 by ring]
    exact c64
  have c128 := cos_half_bounds (Real.pi / 128) (998795456205172392714771604758 / 10 ^ 30) (998795456205172392714771604760 / 10 ^ 30)
    (999698818696204220115765649665 / 10 ^ 30) (999698818696204220115765649667 / 10 ^ 30)
    (Real.cos_nonneg_of_mem_Icc ⟨by linarith, by linarith⟩) r64.1 r64.2
    (by norm_num) (by norm_num) (by norm_num)
  have r128 : (999698818696204220115765649665 / 10 ^ 30 : ℝ) ≤ Real.cos (2 * (Real.pi / 256)) ∧
      Real.cos (2 * (Real.pi / 256)) ≤ (999698818696204220115765649667 / 10 ^ 30 : ℝ) := by
    rw [show 2 * (Real.pi / 256) = Real.pi / 128 by ring]
    exact c128
  have c256 := cos_half_bounds (Real.pi / 256) (999698818696204220115765649665 / 10 ^ 30) (999698818696204220115765649667 / 10 ^ 30)
    (999924701839144540921646491196 / 10 ^ 30) (999924701839144540921646491197 / 10 ^ 30)
    (Real.cos_nonneg_of_mem_Icc ⟨by linarith, by linarith⟩) r128.1 r128.2
    (by norm_num) (by norm_num) (by norm_num)
  have s256 := sin_half_bounds (Real.pi / 256) (999698818696204220115765649665 / 10 ^ 30) (999698818696204220115765649667 / 10 ^ 30)
    (12271538285719926079408261934 / 10 ^ 30) (12271538285719926079408261975 / 10 ^ 30)
    (Real.sin_nonneg_of_nonneg_of_le_pi (by linarith) (by linarith)) r128.1 r128.2
    (by norm_num) (by norm_num) (by norm_num)
  exact ⟨s256.1, s256.2, c256.1, c256.2⟩

set_option maxRecDepth 100000 in
theorem cert_steps_ok : ∀ k, k < 128 → cert_step_ok k = true := by
  decide

theorem cert_row_zero :
    cert_row 0 = (0, 0, 100000000000000000000, 100000000000000000000) := by
  decide

theorem cert_row_one :
    cert_row 1 = (1227153828571992607, 1227153828571992608, 99992470183914454092,
      99992470183914454093) := by
  decide

/-- Row 1 of the certificate encloses `sin(pi / 256)` and `cos(pi / 256)`. -/
theorem cert_base :
    ((cert_row 1).1 : ℝ) ≤ 10 ^ 20 * Real.sin (Real.pi / 256) ∧
    10 ^ 20 * Real.sin (Real.pi / 256) ≤ ((cert_row 1).2.1 : ℝ) ∧
    ((cert_row 1).2.2.1 : ℝ) ≤ 10 ^ 20 * Real.cos (Real.pi / 256) ∧
    10 ^ 20 * Real.cos (Real.pi / 256) ≤ ((cert_row 1).2.2.2 : ℝ) := by
  obtain ⟨h1, h2, h3, h4⟩ := sin_cos_pi_div_256_bounds
  rw [cert_row_one]
  refine ⟨?_, ?_, ?_, ?_⟩
  · push_cast
    linarith
  · push_cast
    linarith
  · push_cast
    linarith
  · push_cast
    linarith

/-- One step of interval arithmetic for the rotation by a small angle. -/
theorem rot_step (S s c s1 c1 a1 a2 a3 a4 b1 b2 b3 b4 n1 n2 n3 n4 : ℝ) (hS : 0 < S)
    (hs : 0 ≤ s) (hc : 0 ≤ c) (hs1 : 0 ≤ s1) (hc1 : 0 ≤ c1)
    (hcn : 0 ≤ c * c1 - s * s1)
    (hb1 : 0 ≤ b1) (hb3 : 0 ≤ b3)
    (A1 : a1 ≤ S * s) (A2 : S * s ≤ a2) (A3 : a3 ≤ S * c) (A4 : S * c ≤ a4)
    (B1 : b1 ≤ S * s1) (B2 : S * s1 ≤ b2) (B3 : b3 ≤ S * c1) (B4 : S * c1 ≤ b4)
    (k1 : n1 * S ≤ a1 * b3 + a3 * b1) (k2 : a2 * b4 + a4 * b2 ≤ n2 * S)
    (k3 : n3 = 0 ∨ n3 * S + a2 * b2 ≤ a3 * b3) (k4 : a4 * b4 ≤ n4 * S + a1 * b1) :
    n1 ≤ S * (s * c1 + c * s1) ∧ S * (s * c1 + c * s1) ≤ n2 ∧
    n3 ≤ S * (c * c1 - s * s1) ∧ S * (c * c1 - s * s1) ≤ n4 := by
  have hSs : 0 ≤ S * s := mul_nonneg hS.le hs
  have hSc : 0 ≤ S * c := mul_nonneg hS.le hc
  have hSs1 : 0 ≤ S * s1 := mul_nonneg hS.le hs1
  have hSc1 : 0 ≤ S * c1 := mul_nonneg hS.le hc1
  have p1 : a1 * b3 ≤ (S * s) * (S * c1) := mul_le_mul A1 B3 hb3 hSs
  have p2 : a3 * b1 ≤ (S * c) * (S * s1) := mul_le_mul A3 B1 hb1 hSc
  have p3 : (S * s) * (S * c1) ≤ a2 * b4 := mul_le_mul A2 B4 hSc1 (le_trans hSs A2)
  have p4 : (S * c) * (S * s1) ≤ a4 * b2 := mul_le_mul A4 B2 hSs1 (le_trans hSc A4)
  have p5 : a3 * b3 ≤ (S * c) * (S * c1) := mul_le_mul A3 B3 hb3 hSc
  have p6 : (S * s) * (S * s1) ≤ a2 * b2 := mul_le_mul A2 B2 hSs1 (le_trans hSs A2)
  have p7 : (S * c) * (S * c1) ≤ a4 * b4 := mul_le_mul A4 B4 hSc1 (le_trans hSc A4)
  have p8 : a1 * b1 ≤ (S * s) * (S * s1) := mul_le_mul A1 B1 hb1 hSs
  have e1 : S * (s * c1 + c * s1) * S = (S * s) * (S * c1) + (S * c) * (S * s1) := by ring
  have e2 : S * (c * c1 - s * s1) * S = (S * c) * (S * c1) - (S * s) * (S * s1) := by ring
  refine ⟨?_, ?_, ?_, ?_⟩
  · apply le_of_mul_le_mul_right _ hS
    rw [e1]
    linarith
  · apply le_of_mul_le_mul_right _ hS
    rw [e1]
    linarith
  · rcases k3 with k3 | k3
    · rw [k3]
      exact mul_nonneg hS.le hcn
    · apply le_of_mul_le_mul_right _ hS
      rw [e2]
      linarith
  · apply le_of_mul_le_mul_right _ hS
    rw [e2]
    linarith

/-- Every row of the certificate encloses the sine and the cosine of its angle. -/
theorem cert_valid (k : Nat) : k ≤ 128 →
    ((cert_row k).1 : ℝ) ≤ 10 ^ 20 * Real.sin (k * (Real.pi / 256)) ∧
    10 ^ 20 * Real.sin (k * (Real.pi / 256)) ≤ ((cert_row k).2.1 : ℝ) ∧
    ((cert_row k).2.2.1 : ℝ) ≤ 10 ^ 20 * Real.cos (k * (Real.pi / 256)) ∧
    10 ^ 20 * Real.cos (k * (Real.pi / 256)) ≤ ((cert_row k).2.2.2 : ℝ) := by
  induction k with
  | zero =>
    intro _
    rw [cert_row_zero]
    norm_num
  | succ k ih =>
    intro hk
    obtain ⟨A1, A2, A3, A4⟩ := ih (by omega)
    obtain ⟨B1, B2, B3, B4⟩ := cert_base
    have hpi := Real.pi_pos
    have hkr : (k : ℝ) ≤ 127 := by exact_mod_cast (show k ≤ 127 by omega)
    have hk0 : (0 : ℝ) ≤ (k : ℝ) := Nat.cast_nonneg k
    have hang0 : 0 ≤ (k : ℝ) * (Real.pi / 256) := by positivity
    have hang1 : (k : ℝ) * (Real.pi / 256) ≤ Real.pi / 2 := by nlinarith
    have hang2 : (k : ℝ) * (Real.pi / 256) + Real.pi / 256 ≤ Real.pi / 2 := by nlinarith
    have hs : 0 ≤ Real.sin (k * (Real.pi / 256)) :=
      Real.sin_nonneg_of_nonneg_of_le_pi hang0 (by linarith)
    have hc : 0 ≤ Real.cos (k * (Real.pi / 256)) :=
      Real.cos_nonneg_of_mem_Icc ⟨by linarith, hang1⟩
    have hs1 : 0 ≤ Real.sin (Real.pi / 256) :=
      Real.sin_nonneg_of_nonneg_of_le_pi (by linarith) (by linarith)
    have hc1 : 0 ≤ Real.cos (Real.pi / 256) :=
      Real.cos_nonneg_of_mem_Icc ⟨by linarith, by linarith⟩
    have hcn : 0 ≤ Real.cos (k * (Real.pi / 256) + Real.pi / 256) :=
      Real.cos_nonneg_of_mem_Icc ⟨by linarith, hang2⟩
    have hang : ((k + 1 : Nat) : ℝ) * (Real.pi / 256) =
        (k : ℝ) * (Real.pi / 256) + Real.pi / 256 := by
      push_cast
      ring
    have hok := cert_steps_ok k (by omega)
    simp only [cert_step_ok, Bool.and_eq_true, Bool.or_eq_true, decide_eq_true_eq] at hok
    obtain ⟨⟨⟨k1, k2⟩, k3⟩, k4⟩ := hok
    have k1r : ((cert_row (k + 1)).1 : ℝ) * 10 ^ 20 ≤
        ((cert_row k).1 : ℝ) * ((cert_row 1).2.2.1 : ℝ) +
          ((cert_row k).2.2.1 : ℝ) * ((cert_row 1).1 : ℝ) := by exact_mod_cast k1
    have k2r : ((cert_row k).2.1 : ℝ) * ((cert_row 1).2.2.2 : ℝ) +
        ((cert_row k).2.2.2 : ℝ) * ((cert_row 1).2.1 : ℝ) ≤
          ((cert_row (k + 1)).2.1 : ℝ) * 10 ^ 20 := by exact_mod_cast k2
    have k3r : ((cert_row (k + 1)).2.2.1 : ℝ) = 0 ∨
        ((cert_row (k + 1)).2.2.1 : ℝ) * 10 ^ 20 +
          ((cert_row k).2.1 : ℝ) * ((cert_row 1).2.1 : ℝ) ≤
            ((cert_row k).2.2.1 : ℝ) * ((cert_row 1).2.2.1 : ℝ) := by
      rcases k3 with k3 | k3
      · left; exact_mod_cast k3
      · right; exact_mod_cast k3
    have k4r : ((cert_row k).2.2.2 : ℝ) * ((cert_row 1).2.2.2 : ℝ) ≤
        ((cert_row (k + 1)).2.2.2 : ℝ) * 10 ^ 20 +
          ((cert_row k).1 : ℝ) * ((cert_row 1).1 : ℝ) := by exact_mod_cast k4
    rw [Real.cos_add] at hcn
    rw [hang, Real.sin_add, Real.cos_add]
    exact rot_step (10 ^ 20) _ _ _ _ _ _ _ _ _ _ _ _ _ _ _ _ (by positivity) hs hc hs1 hc1 hcn
      (Nat.cast_nonneg _) (Nat.cast_nonneg _)
      A1 A2 A3 A4 B1 B2 B3 B4 k1r k2r k3r k4r

set_option maxRecDepth 100000 in
theorem table_abs_ok_all : ∀ k, k < 129 → table_abs_ok k = true := by
  decide

set_option maxRecDepth 100000 in
theorem table_rel_ok_all : ∀ k, k < 129 → 6 ≤ k → table_rel_ok k = true := by
  decide

set_option maxRecDepth 100000 in
theorem table_rel_fails_all : ∀ k, k < 6 → 1 ≤ k → table_rel_fails k = true := by
  decide

theorem sin_table_scaled (k : Nat) :
    (10 : ℝ) ^ 20 * ((sin_table k : ℚ) : ℝ) =
      ((sin_table_e8.getD k 0 : ℤ) : ℝ) * 1000000000000 := by
  rw [sin_table]
  push_cast
  ring

theorem abs_from_scaled (T E s lo hi : ℝ) (hsc : 10 ^ 20 * T = E * 1000000000000)
    (A1 : lo ≤ 10 ^ 20 * s) (A2 : 10 ^ 20 * s ≤ hi)
    (c1 : E * 1000000000000 - 500000000000 ≤ lo)
    (c2 : hi ≤ E * 1000000000000 + 500000000000) :
    |T - s| ≤ 5 / 10 ^ 9 := by
  rw [abs_le]
  norm_num at hsc A1 A2 ⊢
  constructor <;> linarith

theorem rel_from_scaled (T E s lo hi : ℝ) (hsc : 10 ^ 20 * T = E * 1000000000000)
    (hs : 0 ≤ s) (A1 : lo ≤ 10 ^ 20 * s) (A2 : 10 ^ 20 * s ≤ hi)
    (c1 : E * 1000000000000 * 16777216 ≤ lo * 16777217)
    (c2 : hi * 16777215 ≤ E * 1000000000000 * 16777216) :
    |T - s| ≤ 1 / 2 ^ 24 * |s| := by
  rw [abs_of_nonneg hs, abs_le]
  norm_num at hsc A1 A2 ⊢
  constructor <;> linarith

theorem rel_fails_from_scaled (T E s lo hi : ℝ) (hsc : 10 ^ 20 * T = E * 1000000000000)
    (hs : 0 ≤ s) (A1 : lo ≤ 10 ^ 20 * s) (A2 : 10 ^ 20 * s ≤ hi)
    (c : hi < (E * 1000000000000 - hi) * 16777216 ∨
      hi < (lo - E * 1000000000000) * 16777216) :
    ¬ |T - s| ≤ 1 / 2 ^ 24 * |s| := by
  rw [abs_of_nonneg hs, abs_le]
  rintro ⟨g1, g2⟩
  norm_num at hsc A1 A2 g1 g2
  rcases c with c | c <;> linarith

/-- In the first quadrant every literal is within `5 * 10^-9` of the exact sine. -/
theorem table_abs_first_quadrant (k : Nat) (hk : k ≤ 128) :
    |((sin_table k : ℚ) : ℝ) - Real.sin (k * (Real.pi / 256))| ≤ 5 / 10 ^ 9 := by
  obtain ⟨A1, A2, _, _⟩ := cert_valid k hk
  have hok := table_abs_ok_all k (by omega)
  simp only [table_abs_ok, Bool.and_eq_true, decide_eq_true_eq] at hok
  obtain ⟨c1, c2⟩ := hok
  have c1r : ((sin_table_e8.getD k 0 : ℤ) : ℝ) * 1000000000000 - 500000000000 ≤
      ((cert_row k).1 : ℝ) := by exact_mod_cast c1
  have c2r : ((cert_row k).2.1 : ℝ) ≤
      ((sin_table_e8.getD k 0 : ℤ) : ℝ) * 1000000000000 + 500000000000 := by
    exact_mod_cast c2
  exact abs_from_scaled _ _ _ _ _ (sin_table_scaled k) A1 A2 c1r c2r

theorem sin_first_quadrant_nonneg (k : Nat) (hk : k ≤ 128) :
    0 ≤ Real.sin (k * (Real.pi / 256)) := by
  have hpi := Real.pi_pos
  have hkr : (k : ℝ) ≤ 128 := by exact_mod_cast hk
  have hk0 : (0 : ℝ) ≤ (k : ℝ) := Nat.cast_nonneg k
  exact Real.sin_nonneg_of_nonneg_of_le_pi (by positivity) (by nlinarith)

/-- In the first quadrant the literals `6, ..., 128` are within the relative distance
`2^-24` of the exact sine. -/
theorem table_rel_first_quadrant (k : Nat) (hk : k ≤ 128) (hk6 : 6 ≤ k) :
    |((sin_table k : ℚ) : ℝ) - Real.sin (k * (Real.pi / 256))| ≤
      1 / 2 ^ 24 * |Real.sin (k * (Real.pi / 256))| := by
  obtain ⟨A1, A2, _, _⟩ := cert_valid k hk
  have hok := table_rel_ok_all k (by omega) hk6
  simp only [table_rel_ok, Bool.and_eq_true, decide_eq_true_eq] at hok
  obtain ⟨c1, c2⟩ := hok
  have c1r : ((sin_table_e8.getD k 0 : ℤ) : ℝ) * 1000000000000 * 16777216 ≤
      ((cert_row k).1 : ℝ) * 16777217 := by exact_mod_cast c1
  have c2r : ((cert_row k).2.1 : ℝ) * 16777215 ≤
      ((sin_table_e8.getD k 0 : ℤ) : ℝ) * 1000000000000 * 16777216 := by exact_mod_cast c2
  exact rel_from_scaled _ _ _ _ _ (sin_table_scaled k) (sin_first_quadrant_nonneg k hk)
    A1 A2 c1r c2r

/-- In the first quadrant the literals `1, ..., 5` are farther than the relative distance
`2^-24` from the exact sine. -/
theorem table_rel_first_quadrant_fails (k : Nat) (hk1 : 1 ≤ k) (hk5 : k ≤ 5) :
    ¬ |((sin_table k : ℚ) : ℝ) - Real.sin (k * (Real.pi / 256))| ≤
      1 / 2 ^ 24 * |Real.sin (k * (Real.pi / 256))| := by
  obtain ⟨A1, A2, _, _⟩ := cert_valid k (by omega)
  have hok := table_rel_fails_all k (by omega) hk1
  simp only [table_rel_fails, Bool.or_eq_true, decide_eq_true_eq] at hok
  have hokr : ((cert_row k).2.1 : ℝ) <
      (((sin_table_e8.getD k 0 : ℤ) : ℝ) * 1000000000000 - ((cert_row k).2.1 : ℝ)) *
        16777216 ∨
      ((cert_row k).2.1 : ℝ) <
        (((cert_row k).1 : ℝ) - ((sin_table_e8.getD k 0 : ℤ) : ℝ) * 1000000000000) *
          16777216 := by
    rcases hok with c | c
    · left; exact_mod_cast c
    · right; exact_mod_cast c
  exact rel_fails_from_scaled _ _ _ _ _ (sin_table_scaled k)
    (sin_first_quadrant_nonneg k (by omega)) A1 A2 hokr

theorem table_angle (k : Nat) : 2 * Real.pi * (k : ℝ) / 512 = (k : ℝ) * (Real.pi / 256) := by
  ring

/-- Reduction to the first quadrant: the error and the magnitude of the sine at a table
index `k < 384` are those at the reflected index `m <= 128`. -/
theorem table_reduce (k : Nat) (hk : k < 384) :
    ∃ m, m ≤ 128 ∧
      ((k % 256 = 0 ∨ (6 ≤ k % 256 ∧ k % 256 ≤ 250)) ↔ (m = 0 ∨ 6 ≤ m)) ∧
      |((sin_table k : ℚ) : ℝ) - Real.sin (2 * Real.pi * (k : ℝ) / 512)| =
        |((sin_table m : ℚ) : ℝ) - Real.sin (m * (Real.pi / 256))| ∧
      |Real.sin (2 * Real.pi * (k : ℝ) / 512)| = |Real.sin (m * (Real.pi / 256))| := by
  rw [table_angle]
  by_cases h1 : k ≤ 128
  · exact ⟨k, h1, by omega, rfl, rfl⟩
  · by_cases h2 : k ≤ 256
    · refine ⟨256 - k, by omega, by omega, ?_, ?_⟩
      · have ht : sin_table k = sin_table (256 - k) := by
          have := sin_table_reflect (256 - k) (by omega)
          rw [show 256 - (256 - k) = k by omega] at this
          exact this
        have hang : (k : ℝ) * (Real.pi / 256) =
            Real.pi - ((256 - k : Nat) : ℝ) * (Real.pi / 256) := by
          rw [Nat.cast_sub h2]
          push_cast
          ring
        rw [ht, hang, Real.sin_pi_sub]
      · have hang : (k : ℝ) * (Real.pi / 256) =
            Real.pi - ((256 - k : Nat) : ℝ) * (Real.pi / 256) := by
          rw [Nat.cast_sub h2]
          push_cast
          ring
        rw [hang, Real.sin_pi_sub]
    · have hk256 : 256 ≤ k := by omega
      have ht : sin_table k = -sin_table (k - 256) := by
        have := sin_table_negate (k - 256) (by omega)
        rw [show 256 + (k - 256) = k by omega] at this
        exact this
      have hang : (k : ℝ) * (Real.pi / 256) =
          ((k - 256 : Nat) : ℝ) * (Real.pi / 256) + Real.pi := by
        rw [Nat.cast_sub hk256]
        push_cast
        ring
      refine ⟨k - 256, by omega, by omega, ?_, ?_⟩
      · rw [ht, hang, Real.sin_add_pi]
        push_cast
        rw [← abs_neg]
        congr 1
        ring
      · rw [hang, Real.sin_add_pi, abs_neg]

/-- Every entry of the table is within `5 * 10^-9` of the exact sine. -/
theorem table_abs_all (k : Nat) (hk : k < 384) :
    |((sin_table k : ℚ) : ℝ) - Real.sin (2 * Real.pi * (k : ℝ) / 512)| ≤ 5 / 10 ^ 9 := by
  obtain ⟨m, hm, _, he, _⟩ := table_reduce k hk
  rw [he]
  exact table_abs_first_quadrant m hm

/-- The relative bound `2^-24` holds at a table index `k` exactly when `k mod 256` is `0`
or lies in `6..250`. -/
theorem table_rel_iff (k : Nat) (hk : k < 384) :
    |((sin_table k : ℚ) : ℝ) - Real.sin (2 * Real.pi * (k : ℝ) / 512)| ≤
        1 / 2 ^ 24 * |Real.sin (2 * Real.pi * (k : ℝ) / 512)| ↔
      (k % 256 = 0 ∨ (6 ≤ k % 256 ∧ k % 256 ≤ 250)) := by
  obtain ⟨m, hm, hcond, he, hs⟩ := table_reduce k hk
  rw [he, hs, hcond]
  constructor
  · intro h
    by_contra hcon
    exact table_rel_first_quadrant_fails m (by omega) (by omega) h
  · rintro (h0 | h6)
    · subst h0
      rw [sin_table_zero]
      simp
    · exact table_rel_first_quadrant m hm h6

/-! ## The claims -/

/-- Claim C1.  With exact arithmetic and a table holding the exact values
`sin(2 * pi * k / 512)`, `fft512(B, dir = 0)` returns and leaves at every index `m` in
`0..511`, in natural order, the value `sum over n in 0..511 of B[n] * exp(-2*pi*i*m*n/512)`,
channel 0 being the real and channel 1 the imaginary part, without any `1/512` scaling. -/
theorem fft512_forward_is_dft (tbl : Nat → ℝ)
    (htbl : ∀ k, k < 384 → tbl k = Real.sin (2 * Real.pi * k / 512))
    (B : Buf ℝ) (gas : Nat) (hgas : 513 ≤ gas) :
    ∃ out, fft512 gas tbl B 0 = some out ∧
      ∀ m, m < 512 →
        (out m 0 : ℂ) + (out m 1 : ℂ) * Complex.I =
          ∑ n in Finset.range 512, ((B n 0 : ℂ) + (B n 1 : ℂ) * Complex.I) *
            Complex.exp (-2 * Real.pi * Complex.I * m * n / 512) := by
  refine ⟨_, fft512_eq_closed gas tbl B 0 hgas, ?_⟩
  intro m hm
  rw [← zc_eq, fft512_closed_dft tbl _ (zeta_pow_table tbl htbl) zeta_pow_256 B m hm]
  apply Finset.sum_congr rfl
  intro n _
  rw [zc_eq, zeta_pow_mul]

/-- Witness for claim C1: the exact sine table and the buffer whose sample `p` is
`(p, 1)`. -/
theorem fft512_forward_is_dft_witness :
    ((∀ k, k < 384 →
        (fun k : Nat => Real.sin (2 * Real.pi * k / 512)) k = Real.sin (2 * Real.pi * k / 512)) ∧
      513 ≤ 513) ∧
    ∃ out, fft512 513 (fun k : Nat => Real.sin (2 * Real.pi * k / 512))
        (fun p c => if c = 0 then (p : ℝ) else 1) 0 = some out ∧
      ∀ m, m < 512 →
        (out m 0 : ℂ) + (out m 1 : ℂ) * Complex.I =
          ∑ n in Finset.range 512,
            ((((fun p c => if c = 0 then (p : ℝ) else 1) : Buf ℝ) n 0 : ℂ) +
              ((((fun p c => if c = 0 then (p : ℝ) else 1) : Buf ℝ) n 1 : ℝ) : ℂ) * Complex.I) *
            Complex.exp (-2 * Real.pi * Complex.I * m * n / 512) :=
  ⟨⟨fun _ _ => rfl, le_refl 513⟩,
   fft512_forward_is_dft (fun k : Nat => Real.sin (2 * Real.pi * k / 512)) (fun _ _ => rfl)
    (fun p c => if c = 0 then (p : ℝ) else 1) 513 (le_refl 513)⟩

/-- Claim C2.  The direction flag only exchanges the channel roles: for every carrier, every
table and every buffer `B`, `fft512(B, dir=1)` is `swap(fft512(swap(B), dir=0))`, where
`swap` exchanges channel 0 and channel 1 of every sample (for every amount of fuel: either
both runs return, with these results, or neither does). -/
theorem fft512_direction_is_channel_swap {α : Type} [Add α] [Sub α] [Mul α] [Neg α]
    (gas : Nat) (tbl : Nat → α) (B : Buf α) :
    fft512 gas tbl B 1 = (fft512 gas tbl (swap_channels B) 0).map swap_channels := by
  have hr1 : fft512_real 1 = swapCh 0 := by decide
  have hi1 : fft512_imag 1 = swapCh 1 := by decide
  have hr0 : fft512_real 0 = 0 := by decide
  have hi0 : fft512_imag 0 = 1 := by decide
  have hB : fft512_permute gas (swapCh 0) (swapCh 1) 0 B =
      (fft512_permute gas 0 1 0 (swap_channels B)).map swap_channels := by
    rw [← fft512_permute_swap, swap_channels_twice]
  unfold fft512
  simp only [hr1, hi1, hr0, hi0, hB]
  cases fft512_permute gas 0 1 0 (swap_channels B) with
  | none => rfl
  | some b => simp only [Option.map_some', fft512_stages_swap]

/-- Claim C3.  With exact arithmetic and a table holding the exact values
`sin(2 * pi * k / 512)`, running `fft512` with `dir = 0` and then, on its result, `fft512`
with `dir = 1` returns `512 * B` at every index `0..511` and on both channels: no
normalisation is applied. -/
theorem fft512_round_trip (tbl : Nat → ℝ)
    (htbl : ∀ k, k < 384 → tbl k = Real.sin (2 * Real.pi * k / 512))
    (B : Buf ℝ) (gas : Nat) (hgas : 513 ≤ gas) :
    ∃ fwd back, fft512 gas tbl B 0 = some fwd ∧ fft512 gas tbl fwd 1 = some back ∧
      ∀ p, p < 512 → ∀ c, c < 2 → back p c = 512 * B p c := by
  refine ⟨_, _, fft512_eq_closed gas tbl B 0 hgas, fft512_eq_closed gas tbl _ 1 hgas, ?_⟩
  intro p hp c hc
  have key := fft512_closed_twice tbl _ (zeta_pow_table tbl htbl) zeta_pow_256 zeta_mul_conj
    zeta_pow_inj B p hp
  have hre := congrArg Complex.re key
  have him := congrArg Complex.im key
  simp [zc] at hre him
  rw [fft512_closed_inverse]
  rcases (show c = 0 ∨ c = 1 by omega) with rfl | rfl
  · simpa [swap_channels, swapCh] using him
  · simpa [swap_channels, swapCh] using hre

/-- Witness for claim C3: the exact sine table and the buffer whose sample `p` is
`(p, 1)`. -/
theorem fft512_round_trip_witness :
    ((∀ k, k < 384 →
        (fun k : Nat => Real.sin (2 * Real.pi * k / 512)) k = Real.sin (2 * Real.pi * k / 512)) ∧
      513 ≤ 513) ∧
    ∃ fwd back,
      fft512 513 (fun k : Nat => Real.sin (2 * Real.pi * k / 512))
        (fun p c => if c = 0 then (p : ℝ) else 1) 0 = some fwd ∧
      fft512 513 (fun k : Nat => Real.sin (2 * Real.pi * k / 512)) fwd 1 = some back ∧
      ∀ p, p < 512 → ∀ c, c < 2 →
        back p c = 512 * (fun p c => if c = 0 then (p : ℝ) else 1) p c :=
  ⟨⟨fun _ _ => rfl, le_refl 513⟩,
   fft512_round_trip (fun k : Nat => Real.sin (2 * Real.pi * k / 512)) (fun _ _ => rfl)
    (fun p c => if c = 0 then (p : ℝ) else 1) 513 (le_refl 513)⟩

/-- Claim C4.  For either direction, the first loop of `fft512` terminates and leaves at
every index `i` in `0..511` the original sample `B[reverse_bits(i, 9)]`, both channels
together; the pairs it exchanges are exactly the pairs `(i, reverse_bits(i, 9))` with
`reverse_bits(i, 9) > i`, each exchanged once, and a sample whose index is its own
reversal is left untouched. -/
theorem fft512_permutation_phase {α : Type} (B : Buf α) (dir fuel : Nat)
    (hfuel : 513 ≤ fuel) :
    ∃ out ps,
      fft512_permute fuel (fft512_real dir) (fft512_imag dir) 0 B = some out ∧
      (∀ i, i < 512 → ∀ c, c < 2 → out i c = B (reverse_bits i 9) c) ∧
      fft512_permute_pairs fuel 0 = some ps ∧
      ps.Nodup ∧
      (∀ i j, (i, j) ∈ ps ↔ (i < 512 ∧ j = reverse_bits i 9 ∧ i < j)) ∧
      (∀ i, i < 512 → reverse_bits i 9 = i → ∀ c, out i c = B i c) := by
  refine ⟨_, _, fft512_permute_eq _ _ B (fft512_channels_ne dir) fuel hfuel, ?_,
    fft512_permute_pairs_from fuel 0 (by omega) (by omega), ?_, ?_, ?_⟩
  · intro i hi c hc
    exact permuted_upto_full _ _ B i c hi (fft512_channels_cover dir c hc)
  · apply List.Nodup.map
    · intro a b h
      exact (Prod.mk.inj h).1
    · exact (List.nodup_range' 0 _).filter _
  · intro i j
    simp only [List.mem_map, List.mem_filter, List.mem_range', decide_eq_true_eq,
      Prod.mk.injEq]
    constructor
    · rintro ⟨a, ⟨⟨k, hk, rfl⟩, h2⟩, rfl, rfl⟩
      exact ⟨by omega, rfl, h2⟩
    · rintro ⟨h1, rfl, h3⟩
      exact ⟨i, ⟨⟨i, by omega, by omega⟩, h3⟩, rfl, rfl⟩
  · intro i hi hfix c
    by_cases hc : c = fft512_real dir ∨ c = fft512_imag dir
    · rw [permuted_upto_full _ _ B i c hi hc, hfix]
    · simp [permuted_upto, hc]

/-- Witness for claim C4: the buffer whose sample `p` is `(p, p)`, forward direction. -/
theorem fft512_permutation_phase_witness :
    513 ≤ 513 ∧
    ∃ out ps,
      fft512_permute 513 (fft512_real 0) (fft512_imag 0) 0 (fun p _ => p) = some out ∧
      (∀ i, i < 512 → ∀ c, c < 2 → out i c = (fun p _ => p) (reverse_bits i 9) c) ∧
      fft512_permute_pairs 513 0 = some ps ∧
      ps.Nodup ∧
      (∀ i j, (i, j) ∈ ps ↔ (i < 512 ∧ j = reverse_bits i 9 ∧ i < j)) ∧
      (∀ i, i < 512 → reverse_bits i 9 = i → ∀ c, out i c = (fun p _ => p) i c) :=
  ⟨le_refl 513, fft512_permutation_phase (fun p _ => p) 0 513 (le_refl 513)⟩

/-- Claim C5.  Running the permutation loop of `fft512` twice returns exactly the original
buffer, and `reverse_bits(reverse_bits(i, 9), 9) = i` for every `i` in `0..511`. -/
theorem fft512_permutation_involution {α : Type} (B : Buf α) (dir fuel : Nat)
    (hfuel : 513 ≤ fuel) :
    (∃ once,
      fft512_permute fuel (fft512_real dir) (fft512_imag dir) 0 B = some once ∧
      fft512_permute fuel (fft512_real dir) (fft512_imag dir) 0 once = some B) ∧
    (∀ i, i < 512 → reverse_bits (reverse_bits i 9) 9 = i) := by
  refine ⟨⟨_, fft512_permute_eq _ _ B (fft512_channels_ne dir) fuel hfuel, ?_⟩,
    reverse_bits_nine_involutive⟩
  rw [fft512_permute_eq _ _ _ (fft512_channels_ne dir) fuel hfuel, permuted_upto_twice]

/-- Witness for claim C5: the buffer whose sample `p` is `(p, p)`, inverse direction. -/
theorem fft512_permutation_involution_witness :
    513 ≤ 600 ∧
    ((∃ once,
      fft512_permute 600 (fft512_real 1) (fft512_imag 1) 0 (fun p _ => p) = some once ∧
      fft512_permute 600 (fft512_real 1) (fft512_imag 1) 0 once = some (fun p _ => p)) ∧
    (∀ i, i < 512 → reverse_bits (reverse_bits i 9) 9 = i)) :=
  ⟨by decide, fft512_permutation_involution (fun p _ => p) 1 600 (by decide)⟩

/-- Claim C6.  For every bit width `n` in `0..16` and every `x < 2^n`, bit `t` of
`reverse_bits(x, n)` is bit `n-1-t` of `x` for every `t < n`, and every bit of the result
at a position `>= n` is zero. -/
theorem reverse_bits_reads_low_bits_reversed (n x : Nat) (hn : n ≤ 16) (hx : x < 2 ^ n) :
    (∀ t, t < n → (reverse_bits x (n : Int)).testBit t = x.testBit (n - 1 - t)) ∧
    (∀ t, n ≤ t → (reverse_bits x (n : Int)).testBit t = false) := by
  have h16 : 2 ^ n ≤ 2 ^ 16 := Nat.pow_le_pow_right (by norm_num) hn
  have hmod : x % 65536 = x := Nat.mod_eq_of_lt (by omega)
  have key := reverse_bits_loop_testBit n x 0 hn (Nat.pow_pos (by norm_num))
  constructor
  · intro t ht
    rw [reverse_bits, Int.toNat_ofNat, hmod, key t, if_pos ht]
  · intro t ht
    have h1 : ¬ t < n := by omega
    rw [reverse_bits, Int.toNat_ofNat, hmod, key t, if_neg h1, Nat.zero_testBit]

/-- Witness for claim C6 at `n = 9`, `x = 6`. -/
theorem reverse_bits_reads_low_bits_reversed_witness :
    (9 ≤ 16 ∧ 6 < 2 ^ 9) ∧
    ((∀ t, t < 9 → (reverse_bits 6 ((9 : Nat) : Int)).testBit t = (6 : Nat).testBit (9 - 1 - t)) ∧
     (∀ t, 9 ≤ t → (reverse_bits 6 ((9 : Nat) : Int)).testBit t = false)) :=
  ⟨by decide, reverse_bits_reads_low_bits_reversed 9 6 (by decide) (by decide)⟩

/-- Claim C7.  For all buffers `A` and `B` and every real scalar `c`, the three runs of
`fft512` with `dir = 0` on `A`, `B` and `A + c * B`, in exact real arithmetic over the
coded table values, return, and the result for `A + c * B` is the result for `A` plus `c`
times the result for `B`, at every index and on both channels. -/
theorem fft512_linear (A B : Buf ℝ) (c : ℝ) (gas : Nat) (hgas : 513 ≤ gas) :
    ∃ outA outB outAB,
      fft512 gas (fun k => ((sin_table k : ℚ) : ℝ)) A 0 = some outA ∧
      fft512 gas (fun k => ((sin_table k : ℚ) : ℝ)) B 0 = some outB ∧
      fft512 gas (fun k => ((sin_table k : ℚ) : ℝ)) (fun p ch => A p ch + c * B p ch) 0 =
        some outAB ∧
      ∀ p ch, outAB p ch = outA p ch + c * outB p ch := by
  refine ⟨_, _, _, fft512_eq_closed gas _ A 0 hgas, fft512_eq_closed gas _ B 0 hgas,
    fft512_eq_closed gas _ _ 0 hgas, ?_⟩
  intro p ch
  rw [fft512_closed_linear]

/-- Witness for claim C7: a ramp, an alternating buffer and the scalar `5 / 2`. -/
theorem fft512_linear_witness :
    513 ≤ 513 ∧
    ∃ outA outB outAB,
      fft512 513 (fun k => ((sin_table k : ℚ) : ℝ)) (fun p ch => (p : ℝ) + ch) 0 = some outA ∧
      fft512 513 (fun k => ((sin_table k : ℚ) : ℝ))
        (fun p _ => if p % 2 = 0 then (1 : ℝ) else -1) 0 = some outB ∧
      fft512 513 (fun k => ((sin_table k : ℚ) : ℝ))
        (fun p ch => (fun p ch => (p : ℝ) + ch) p ch +
          (5 / 2) * (fun p _ => if p % 2 = 0 then (1 : ℝ) else -1) p ch) 0 = some outAB ∧
      ∀ p ch, outAB p ch = outA p ch + (5 / 2) * outB p ch :=
  ⟨le_refl 513, fft512_linear (fun p ch => (p : ℝ) + ch)
    (fun p _ => if p % 2 = 0 then (1 : ℝ) else -1) (5 / 2) 513 (le_refl 513)⟩

/-- Claim C8.  For a buffer that is `(1, 0)` at index 0 and `(0, 0)` at the other 511
indices, `fft512` with `dir = 0`, run in exact real arithmetic over the coded table
values, returns and leaves `(1, 0)` at every output index `0..511`. -/
theorem fft512_impulse (B : Buf ℝ) (gas : Nat) (hgas : 513 ≤ gas)
    (h00 : B 0 0 = 1) (h01 : B 0 1 = 0)
    (hz : ∀ p, 0 < p → p < 512 → ∀ c, c < 2 → B p c = 0) :
    ∃ out, fft512 gas (fun k => ((sin_table k : ℚ) : ℝ)) B 0 = some out ∧
      ∀ m, m < 512 → out m 0 = 1 ∧ out m 1 = 0 := by
  refine ⟨_, fft512_eq_closed gas _ B 0 hgas, ?_⟩
  intro m hm
  have key := fft512_closed_impulse (fun k => ((sin_table k : ℚ) : ℝ)) B h00 h01 hz m hm
  exact ⟨by simpa using key 0 (by norm_num), by simpa using key 1 (by norm_num)⟩

/-- Witness for claim C8: the impulse buffer itself, with 513 units of fuel. -/
theorem fft512_impulse_witness :
    (513 ≤ 513 ∧
      (fun p c => if p = 0 ∧ c = 0 then (1 : ℝ) else 0) 0 0 = 1 ∧
      (fun p c => if p = 0 ∧ c = 0 then (1 : ℝ) else 0) 0 1 = 0 ∧
      (∀ p, 0 < p → p < 512 → ∀ c, c < 2 →
        (fun p c => if p = 0 ∧ c = 0 then (1 : ℝ) else 0) p c = 0)) ∧
    ∃ out, fft512 513 (fun k => ((sin_table k : ℚ) : ℝ))
        (fun p c => if p = 0 ∧ c = 0 then (1 : ℝ) else 0) 0 = some out ∧
      ∀ m, m < 512 → out m 0 = 1 ∧ out m 1 = 0 :=
  ⟨⟨le_refl 513, by simp, by simp, fun p hp _ c _ => by simp; omega⟩,
   fft512_impulse (fun p c => if p = 0 ∧ c = 0 then (1 : ℝ) else 0) 513 (le_refl 513)
    (by simp) (by simp) (fun p hp _ c _ => by simp; omega)⟩

/-- Claim C9.  For every real `v`, the buffer whose 512 entries are all `(v, 0)` is
transformed by `fft512` with `dir = 0`, in exact real arithmetic over the coded table
values, into the buffer that is `(512 * v, 0)` at index 0 and `(0, 0)` at the other 511
indices; no `1/N` scaling is applied. -/
theorem fft512_constant (B : Buf ℝ) (v : ℝ) (gas : Nat) (hgas : 513 ≤ gas)
    (hB : ∀ p, p < 512 → B p 0 = v ∧ B p 1 = 0) :
    ∃ out, fft512 gas (fun k => ((sin_table k : ℚ) : ℝ)) B 0 = some out ∧
      (out 0 0 = 512 * v ∧ out 0 1 = 0) ∧
      (∀ m, 0 < m → m < 512 → out m 0 = 0 ∧ out m 1 = 0) := by
  have t0 : (fun k => ((sin_table k : ℚ) : ℝ)) 0 = 0 := by simp [sin_table_zero]
  have t128 : (fun k => ((sin_table k : ℚ) : ℝ)) 128 = 1 := by simp [sin_table_128]
  have key := fft512_closed_constant (fun k => ((sin_table k : ℚ) : ℝ)) t0 t128 v B hB
  refine ⟨_, fft512_eq_closed gas _ B 0 hgas, ?_, ?_⟩
  · simpa using key 0 (by norm_num)
  · intro m hm0 hm
    have hne : m ≠ 0 := by omega
    simpa [hne] using key m hm

/-- Witness for claim C9: the constant buffer `(3, 0)`, with 513 units of fuel. -/
theorem fft512_constant_witness :
    (513 ≤ 513 ∧ ∀ p, p < 512 →
      (fun _ c => if c = 0 then (3 : ℝ) else 0) p 0 = 3 ∧
      (fun _ c => if c = 0 then (3 : ℝ) else 0) p 1 = 0) ∧
    ∃ out, fft512 513 (fun k => ((sin_table k : ℚ) : ℝ))
        (fun _ c => if c = 0 then (3 : ℝ) else 0) 0 = some out ∧
      (out 0 0 = 512 * 3 ∧ out 0 1 = 0) ∧
      (∀ m, 0 < m → m < 512 → out m 0 = 0 ∧ out m 1 = 0) :=
  ⟨⟨le_refl 513, fun _ _ => by simp⟩,
   fft512_constant (fun _ c => if c = 0 then (3 : ℝ) else 0) 3 513 (le_refl 513)
    (fun _ _ => by simp)⟩

/-- Claim C10.  For the buffer that is `(1, 0)` at the indices 0 and 256 and `(0, 0)`
elsewhere, `fft512` with `dir = 0`, in exact real arithmetic over the coded table values,
returns and leaves `(2, 0)` at every even and `(0, 0)` at every odd output index. -/
theorem fft512_two_impulses (B : Buf ℝ) (gas : Nat) (hgas : 513 ≤ gas)
    (hB0 : B 0 0 = 1 ∧ B 0 1 = 0) (hB256 : B 256 0 = 1 ∧ B 256 1 = 0)
    (hz : ∀ p, p < 512 → p ≠ 0 → p ≠ 256 → ∀ c, c < 2 → B p c = 0) :
    ∃ out, fft512 gas (fun k => ((sin_table k : ℚ) : ℝ)) B 0 = some out ∧
      (∀ m, m < 512 → m % 2 = 0 → out m 0 = 2 ∧ out m 1 = 0) ∧
      (∀ m, m < 512 → m % 2 = 1 → out m 0 = 0 ∧ out m 1 = 0) := by
  have t0 : (fun k => ((sin_table k : ℚ) : ℝ)) 0 = 0 := by simp [sin_table_zero]
  have t128 : (fun k => ((sin_table k : ℚ) : ℝ)) 128 = 1 := by simp [sin_table_128]
  have key := fft512_closed_two_impulses (fun k => ((sin_table k : ℚ) : ℝ)) t0 t128 B
    hB0 hB256 hz
  refine ⟨_, fft512_eq_closed gas _ B 0 hgas, ?_, ?_⟩
  · intro m hm he
    exact ⟨by simpa [he] using key m hm 0 (by norm_num),
      by simpa using key m hm 1 (by norm_num)⟩
  · intro m hm ho
    exact ⟨by simpa [ho] using key m hm 0 (by norm_num),
      by simpa using key m hm 1 (by norm_num)⟩

/-- Witness for claim C10: the two-impulse buffer itself, with 513 units of fuel. -/
theorem fft512_two_impulses_witness :
    (513 ≤ 513 ∧
      ((fun p c => if (p = 0 ∨ p = 256) ∧ c = 0 then (1 : ℝ) else 0) 0 0 = 1 ∧
       (fun p c => if (p = 0 ∨ p = 256) ∧ c = 0 then (1 : ℝ) else 0) 0 1 = 0) ∧
      ((fun p c => if (p = 0 ∨ p = 256) ∧ c = 0 then (1 : ℝ) else 0) 256 0 = 1 ∧
       (fun p c => if (p = 0 ∨ p = 256) ∧ c = 0 then (1 : ℝ) else 0) 256 1 = 0) ∧
      (∀ p, p < 512 → p ≠ 0 → p ≠ 256 → ∀ c, c < 2 →
        (fun p c => if (p = 0 ∨ p = 256) ∧ c = 0 then (1 : ℝ) else 0) p c = 0)) ∧
    ∃ out, fft512 513 (fun k => ((sin_table k : ℚ) : ℝ))
        (fun p c => if (p = 0 ∨ p = 256) ∧ c = 0 then (1 : ℝ) else 0) 0 = some out ∧
      (∀ m, m < 512 → m % 2 = 0 → out m 0 = 2 ∧ out m 1 = 0) ∧
      (∀ m, m < 512 → m % 2 = 1 → out m 0 = 0 ∧ out m 1 = 0) :=
  ⟨⟨le_refl 513, by simp, by simp, fun p _ h0 h256 c _ => by simp [h0, h256]⟩,
   fft512_two_impulses (fun p c => if (p = 0 ∨ p = 256) ∧ c = 0 then (1 : ℝ) else 0) 513
    (le_refl 513) (by simp) (by simp) (fun p _ h0 h256 c _ => by simp [h0, h256])⟩

/-- Counterexample to claim C11 as stated: at `k = 1` the coded literal `0.01227154`
differs from `sin(2 * pi / 512)` by more than `2^-24` times that sine. -/
theorem sin_table_relative_accuracy_fails_at_one :
    ¬ |((sin_table 1 : ℚ) : ℝ) - Real.sin (2 * Real.pi * ((1 : Nat) : ℝ) / 512)| ≤
      1 / 2 ^ 24 * |Real.sin (2 * Real.pi * ((1 : Nat) : ℝ) / 512)| := by
  rw [table_rel_iff 1 (by norm_num)]
  decide

/-- Claim C11, amended.  For every `k` in `0..383` the relative bound
`|sin_table[k] - sin(2*pi*k/512)| <= 2^-24 * |sin(2*pi*k/512)|` holds exactly when `k mod 256`
is `0` or lies in `6..250`; at the other 15 indices it fails, and for every `k` the error is
at most `2^-24` in absolute terms. -/
theorem sin_table_relative_accuracy (k : Nat) (hk : k < 384) :
    (|((sin_table k : ℚ) : ℝ) - Real.sin (2 * Real.pi * (k : ℝ) / 512)| ≤
        1 / 2 ^ 24 * |Real.sin (2 * Real.pi * (k : ℝ) / 512)| ↔
      (k % 256 = 0 ∨ (6 ≤ k % 256 ∧ k % 256 ≤ 250))) ∧
    |((sin_table k : ℚ) : ℝ) - Real.sin (2 * Real.pi * (k : ℝ) / 512)| ≤ 1 / 2 ^ 24 := by
  refine ⟨table_rel_iff k hk, le_trans (table_abs_all k hk) ?_⟩
  norm_num

/-- Witness for the amended claim C11 at `k = 64`. -/
theorem sin_table_relative_accuracy_witness :
    64 < 384 ∧
    ((|((sin_table 64 : ℚ) : ℝ) - Real.sin (2 * Real.pi * ((64 : Nat) : ℝ) / 512)| ≤
        1 / 2 ^ 24 * |Real.sin (2 * Real.pi * ((64 : Nat) : ℝ) / 512)| ↔
      (64 % 256 = 0 ∨ (6 ≤ 64 % 256 ∧ 64 % 256 ≤ 250))) ∧
    |((sin_table 64 : ℚ) : ℝ) - Real.sin (2 * Real.pi * ((64 : Nat) : ℝ) / 512)| ≤
      1 / 2 ^ 24) :=
  ⟨by decide, sin_table_relative_accuracy 64 (by decide)⟩

/-- Claim C12.  The table has exactly `384 = 512 - 512 / 4` entries and, for every `i` in
`0..383`, entry `i`, read as an exact decimal, is `sin(2 * pi * i / 512)` rounded to eight
decimal places: it differs from the exact sine by at most `5 * 10^-9`. -/
theorem sin_table_rounded_to_eight_decimals :
    sin_table_e8.length = 384 ∧ 384 = 512 - 512 / 4 ∧
    (∀ i, i < 384 → sin_table i = (sin_table_e8.getD i 0 : ℚ) / 10 ^ 8) ∧
    ∀ i, i < 384 →
      |((sin_table i : ℚ) : ℝ) - Real.sin (2 * Real.pi * (i : ℝ) / 512)| ≤ 5 / 10 ^ 9 := by
  refine ⟨sin_table_e8_length, by decide, ?_, table_abs_all⟩
  intro i _
  rw [sin_table]
  norm_num

/-- Witness for claim C12 at the entry with the largest error, `i = 316`. -/
theorem sin_table_rounded_to_eight_decimals_witness :
    316 < 384 ∧
    |((sin_table 316 : ℚ) : ℝ) - Real.sin (2 * Real.pi * ((316 : Nat) : ℝ) / 512)| ≤
      5 / 10 ^ 9 :=
  ⟨by decide, sin_table_rounded_to_eight_decimals.2.2.2 316 (by decide)⟩

/-- Claim C13.  For every `k` in `0..255`, with the coded literals read as exact decimals
and `cos_table[k]` being `sin_table[k + 128]`, the sum
`sin_table[k]^2 + sin_table[k + 128]^2` differs from 1 by at most `10^-7`. -/
theorem sin_table_pythagorean_identity (k : Nat) (hk : k ≤ 255) :
    cos_table k = sin_table (k + 128) ∧
    |sin_table k ^ 2 + sin_table (k + 128) ^ 2 - 1| ≤ 1 / 10 ^ 7 ∧
    |sin_table k ^ 2 + cos_table k ^ 2 - 1| ≤ 1 / 10 ^ 7 :=
  ⟨rfl, sin_table_pythagoras k hk, sin_table_pythagoras k hk⟩

/-- Witness for claim C13 at `k = 37`. -/
theorem sin_table_pythagorean_identity_witness :
    37 ≤ 255 ∧
    (cos_table 37 = sin_table (37 + 128) ∧
     |sin_table 37 ^ 2 + sin_table (37 + 128) ^ 2 - 1| ≤ 1 / 10 ^ 7 ∧
     |sin_table 37 ^ 2 + cos_table 37 ^ 2 - 1| ≤ 1 / 10 ^ 7) :=
  ⟨by decide, sin_table_pythagorean_identity 37 (by decide)⟩

/-- Claim C14.  The schedule of `fft512` does not depend on the data: for any two runs, on
any buffers, tables, carriers and directions, the instrumented runs return (with the
buffers of the plain runs) the same exchanged pairs of the permutation loop and the same
sequence of butterfly triples `(j, l, k)`; there are 9 stages of 256 butterflies, that is
`9 * 256 = 2304` butterflies on every call. -/
theorem fft512_schedule_data_independent {α β : Type} [Add α] [Sub α] [Mul α] [Neg α]
    [Add β] [Sub β] [Mul β] [Neg β] (gas : Nat) (hgas : 513 ≤ gas)
    (tblA : Nat → α) (tblB : Nat → β) (A : Buf α) (B : Buf β) (dirA dirB : Nat) :
    ∃ outA outB countersA countersB swaps stages,
      fft512_log gas tblA A dirA = some (outA, swaps, stages, countersA) ∧
      fft512_log gas tblB B dirB = some (outB, swaps, stages, countersB) ∧
      fft512 gas tblA A dirA = some outA ∧ fft512 gas tblB B dirB = some outB ∧
      stages.length = 9 ∧ (∀ st, st ∈ stages → st.bflies.length = 256) ∧
      (stages.map (fun st => st.bflies.length)).sum = 2304 := by
  obtain ⟨outA, csA, hA, hA2, _⟩ := fft512_log_eq gas tblA A dirA hgas
  obtain ⟨outB, csB, hB, hB2, _⟩ := fft512_log_eq gas tblB B dirB hgas
  exact ⟨outA, outB, csA, csB, _, _, hA, hB, hA2, hB2, nine_stage_logs_lengths.1,
    nine_stage_logs_lengths.2.1, nine_stage_logs_lengths.2.2⟩

/-- Witness for claim C14: a rational ramp with the coded table in the forward direction
against an integer zero buffer with a zero table in the inverse direction. -/
theorem fft512_schedule_data_independent_witness :
    513 ≤ 513 ∧
    ∃ outA outB countersA countersB swaps stages,
      fft512_log 513 sin_table (fun p _ => (p : ℚ)) 0 = some (outA, swaps, stages, countersA) ∧
      fft512_log 513 (fun _ => (0 : ℤ)) (fun _ _ => (0 : ℤ)) 1 =
        some (outB, swaps, stages, countersB) ∧
      fft512 513 sin_table (fun p _ => (p : ℚ)) 0 = some outA ∧
      fft512 513 (fun _ => (0 : ℤ)) (fun _ _ => (0 : ℤ)) 1 = some outB ∧
      stages.length = 9 ∧ (∀ st, st ∈ stages → st.bflies.length = 256) ∧
      (stages.map (fun st => st.bflies.length)).sum = 2304 :=
  ⟨le_refl 513, fft512_schedule_data_independent 513 (le_refl 513) sin_table
    (fun _ => (0 : ℤ)) (fun p _ => (p : ℚ)) (fun _ _ => (0 : ℤ)) 0 1⟩

/-- Claim C15.  All accesses are in bounds: every butterfly executed by `fft512` has a
table index `k <= 255`, so that `sin_table[k]` and `cos_table[k] = sin_table[k + 128]` are
read inside the 384 entries of the table, and buffer indices `j < l = j + halfsize <= 511`;
every pair exchanged by the permutation loop has both indices `<= 511`, and
`reverse_bits(i, 9) <= 511` for every `i` in `0..511`. -/
theorem fft512_accesses_in_bounds {α : Type} [Add α] [Sub α] [Mul α] [Neg α] (gas : Nat)
    (hgas : 513 ≤ gas) (tbl : Nat → α) (B : Buf α) (dir : Nat) :
    ∃ out swaps stages counters,
      fft512_log gas tbl B dir = some (out, swaps, stages, counters) ∧
      (∀ st, st ∈ stages → ∀ j l k, (j, l, k) ∈ st.bflies →
        k ≤ 255 ∧ k < sin_table_e8.length ∧ k + 128 ≤ 383 ∧ k + 128 < sin_table_e8.length ∧
        j < l ∧ l = j + st.halfsize ∧ l ≤ 511) ∧
      (∀ i j, (i, j) ∈ swaps → i ≤ 511 ∧ j ≤ 511) ∧
      (∀ i, i < 512 → reverse_bits i 9 ≤ 511) ∧
      fft512_real dir < 2 ∧ fft512_imag dir < 2 ∧
      sin_table_e8.length = 384 := by
  obtain ⟨out, cs, h1, _, _⟩ := fft512_log_eq gas tbl B dir hgas
  have hch := fft512_channels dir
  refine ⟨out, _, _, cs, h1, ?_, ?_, ?_, by omega, by omega, sin_table_e8_length⟩
  · intro st hst j l k hm
    have hb := nine_stage_logs_bounds st hst j l k hm
    rw [sin_table_e8_length]
    omega
  · intro i j hm
    have hb := permute_pairs_bounds i j hm
    omega
  · intro i hi
    have := reverse_bits_nine_lt i hi
    omega

/-- Witness for claim C15: a rational ramp with the coded table, inverse direction. -/
theorem fft512_accesses_in_bounds_witness :
    513 ≤ 600 ∧
    ∃ out swaps stages counters,
      fft512_log 600 sin_table (fun p _ => (p : ℚ)) 1 = some (out, swaps, stages, counters) ∧
      (∀ st, st ∈ stages → ∀ j l k, (j, l, k) ∈ st.bflies →
        k ≤ 255 ∧ k < sin_table_e8.length ∧ k + 128 ≤ 383 ∧ k + 128 < sin_table_e8.length ∧
        j < l ∧ l = j + st.halfsize ∧ l ≤ 511) ∧
      (∀ i j, (i, j) ∈ swaps → i ≤ 511 ∧ j ≤ 511) ∧
      (∀ i, i < 512 → reverse_bits i 9 ≤ 511) ∧
      fft512_real 1 < 2 ∧ fft512_imag 1 < 2 ∧
      sin_table_e8.length = 384 :=
  ⟨by decide, fft512_accesses_in_bounds 600 (by decide) sin_table (fun p _ => (p : ℚ)) 1⟩

/-- Claim C16.  The stage loop of `fft512` terminates after exactly nine stages, whose
sizes are `2, 4, 8, ..., 512` in that order, with `halfsize = size / 2` and
`tablestep = 512 / size` in each stage; every value computed for one of the 16-bit
counters `size`, `i`, `j`, `k` and `l` is at most `512`, so none of them wraps around. -/
theorem fft512_stage_structure {α : Type} [Add α] [Sub α] [Mul α] [Neg α] (gas : Nat)
    (hgas : 513 ≤ gas) (tbl : Nat → α) (B : Buf α) (dir : Nat) :
    ∃ out swaps stages counters,
      fft512_log gas tbl B dir = some (out, swaps, stages, counters) ∧
      fft512 gas tbl B dir = some out ∧
      stages.length = 9 ∧
      stages.map (fun st => (st.size, st.halfsize, st.tablestep)) =
        [(2, 1, 256), (4, 2, 128), (8, 4, 64), (16, 8, 32), (32, 16, 16), (64, 32, 8),
         (128, 64, 4), (256, 128, 2), (512, 256, 1)] ∧
      (∀ st, st ∈ stages → st.halfsize = st.size / 2 ∧ st.tablestep = 512 / st.size) ∧
      (∀ v, v ∈ counters → v ≤ 512 ∧ v % 65536 = v) := by
  obtain ⟨out, cs, h1, h2, h3⟩ := fft512_log_eq gas tbl B dir hgas
  refine ⟨out, _, _, cs, h1, h2, rfl, nine_stage_logs_params.1, nine_stage_logs_params.2, ?_⟩
  intro v hv
  have := h3 v hv
  exact ⟨this, Nat.mod_eq_of_lt (by omega)⟩

/-- Witness for claim C16: a rational ramp with the coded table, forward direction. -/
theorem fft512_stage_structure_witness :
    513 ≤ 513 ∧
    ∃ out swaps stages counters,
      fft512_log 513 sin_table (fun p _ => (p : ℚ)) 0 = some (out, swaps, stages, counters) ∧
      fft512 513 sin_table (fun p _ => (p : ℚ)) 0 = some out ∧
      stages.length = 9 ∧
      stages.map (fun st => (st.size, st.halfsize, st.tablestep)) =
        [(2, 1, 256), (4, 2, 128), (8, 4, 64), (16, 8, 32), (32, 16, 16), (64, 32, 8),
         (128, 64, 4), (256, 128, 2), (512, 256, 1)] ∧
      (∀ st, st ∈ stages → st.halfsize = st.size / 2 ∧ st.tablestep = 512 / st.size) ∧
      (∀ v, v ∈ counters → v ≤ 512 ∧ v % 65536 = v) :=
  ⟨le_refl 513, fft512_stage_structure 513 (le_refl 513) sin_table (fun p _ => (p : ℚ)) 0⟩

/-- Claim C17.  In each of the nine stages of `fft512` the butterfly index pairs
`(j, j + halfsize)` partition `0..511`: no butterfly occurs twice and every buffer index
belongs to exactly one butterfly of the stage.  The block loop run with the parameters of
the stage applies exactly these butterflies, and applying them in any other order gives
the same buffer. -/
theorem fft512_stage_butterflies_partition {α : Type} [Add α] [Sub α] [Mul α] [Neg α]
    (gas : Nat) (hgas : 513 ≤ gas) (tbl : Nat → α) (B : Buf α) (dir : Nat) :
    ∃ out swaps stages counters,
      fft512_log gas tbl B dir = some (out, swaps, stages, counters) ∧
      stages.length = 9 ∧
      ∀ st, st ∈ stages →
        st.bflies.Nodup ∧
        (∀ j l k, (j, l, k) ∈ st.bflies → l = j + st.halfsize ∧ j < l ∧ l < 512) ∧
        (∀ p, p < 512 → ∃! t, t ∈ st.bflies ∧ (t.1 = p ∨ t.2.1 = p)) ∧
        (∀ a : Buf α, ∃ cs,
          fft512_blocks_log gas gas tbl (fft512_real dir) (fft512_imag dir)
              st.size st.halfsize st.tablestep 0 a =
            some (apply_bflies tbl (fft512_real dir) (fft512_imag dir) st.bflies a,
              st.bflies, cs)) ∧
        (∀ (bs : List (Nat × Nat × Nat)) (a : Buf α), bs.Perm st.bflies →
          apply_bflies tbl (fft512_real dir) (fft512_imag dir) bs a =
            apply_bflies tbl (fft512_real dir) (fft512_imag dir) st.bflies a) := by
  obtain ⟨out, cs, h1, _, _⟩ := fft512_log_eq gas tbl B dir hgas
  refine ⟨out, _, _, cs, h1, rfl, ?_⟩
  intro st hst
  refine ⟨(nine_stage_logs_partition st hst).1, ?_, (nine_stage_logs_partition st hst).2,
    ?_, ?_⟩
  · intro j l k hm
    have hb := nine_stage_logs_bounds st hst j l k hm
    omega
  · intro a
    obtain ⟨cs2, h2, _⟩ := nine_stage_logs_run tbl (fft512_real dir) (fft512_imag dir) gas
      (by omega) st hst a
    exact ⟨cs2, h2⟩
  · intro bs a hperm
    exact nine_stage_logs_order_independent tbl _ _ (fft512_channels_ne dir) st hst bs hperm a

/-- Witness for claim C17: a rational ramp with the coded table, forward direction. -/
theorem fft512_stage_butterflies_partition_witness :
    513 ≤ 513 ∧
    ∃ out swaps stages counters,
      fft512_log 513 sin_table (fun p _ => (p : ℚ)) 0 = some (out, swaps, stages, counters) ∧
      stages.length = 9 ∧
      ∀ st, st ∈ stages →
        st.bflies.Nodup ∧
        (∀ j l k, (j, l, k) ∈ st.bflies → l = j + st.halfsize ∧ j < l ∧ l < 512) ∧
        (∀ p, p < 512 → ∃! t, t ∈ st.bflies ∧ (t.1 = p ∨ t.2.1 = p)) ∧
        (∀ a : Buf ℚ, ∃ cs,
          fft512_blocks_log 513 513 sin_table (fft512_real 0) (fft512_imag 0)
              st.size st.halfsize st.tablestep 0 a =
            some (apply_bflies sin_table (fft512_real 0) (fft512_imag 0) st.bflies a,
              st.bflies, cs)) ∧
        (∀ (bs : List (Nat × Nat × Nat)) (a : Buf ℚ), bs.Perm st.bflies →
          apply_bflies sin_table (fft512_real 0) (fft512_imag 0) bs a =
            apply_bflies sin_table (fft512_real 0) (fft512_imag 0) st.bflies a) :=
  ⟨le_refl 513,
    fft512_stage_butterflies_partition 513 (le_refl 513) sin_table (fun p _ => (p : ℚ)) 0⟩

/-- Claim C18.  Only the lowest bit of the direction argument matters: for every value
`dir`, `real = dir & 1` and `imag = ~real & 1` are two distinct elements of `{0, 1}` (so no
channel index is out of range), and `fft512(B, dir)` is `fft512(B, dir mod 2)` for every
buffer, table and amount of fuel. -/
theorem fft512_direction_low_bit {α : Type} [Add α] [Sub α] [Mul α] [Neg α] (dir : Nat) :
    fft512_real dir < 2 ∧ fft512_imag dir < 2 ∧ fft512_real dir ≠ fft512_imag dir ∧
    fft512_real dir = dir % 2 ∧
    ∀ (gas : Nat) (tbl : Nat → α) (B : Buf α),
      fft512 gas tbl B dir = fft512 gas tbl B (dir % 2) := by
  have hch := fft512_channels dir
  refine ⟨by omega, by omega, fft512_channels_ne dir, ?_, ?_⟩
  · unfold fft512_real
    rw [Nat.and_one_is_mod]
    omega
  · intro gas tbl B
    unfold fft512
    rw [fft512_real_mod_two, fft512_imag_mod_two]

/-- Claim C19.  The coded literals satisfy the sine symmetries exactly: `sin_table[0] = 0`,
`sin_table[128] = 1`, `sin_table[256 - k] = sin_table[k]` for every `k` in `0..256`,
`sin_table[256 + k] = -sin_table[k]` for every `k` in `0..127`, and therefore
`cos_table[0] = 1` and `cos_table[128] = 0`. -/
theorem sin_table_symmetries :
    sin_table 0 = 0 ∧ sin_table 128 = 1 ∧
    (∀ k, k ≤ 256 → sin_table (256 - k) = sin_table k) ∧
    (∀ k, k < 128 → sin_table (256 + k) = -sin_table k) ∧
    cos_table 0 = 1 ∧ cos_table 128 = 0 :=
  ⟨sin_table_zero, sin_table_128, sin_table_reflect, sin_table_negate,
    sin_table_128, sin_table_256⟩

/-- Witness for claim C19: the two symmetries at `k = 3` and `k = 100`. -/
theorem sin_table_symmetries_witness :
    (3 ≤ 256 ∧ 100 < 128) ∧
    sin_table (256 - 3) = sin_table 3 ∧ sin_table (256 + 100) = -sin_table 100 :=
  ⟨by decide, sin_table_symmetries.2.2.1 3 (by decide),
    sin_table_symmetries.2.2.2.1 100 (by decide)⟩

end FFT512
